import Mathlib

/-
Verification of the kanban SDK core (op log, replay engine, conflict
detection, command layer, search) against its natural-language
specification.  The definitions below are a shallow embedding of the
TypeScript sources:

  packages/sdk/src/model.ts     (State / Conflict data model)
  packages/sdk/src/state.ts     (writesForOp, detectConflictsForSeqGroup,
                                 applyOp, rebuildState)
  packages/sdk/src/ops.ts       (padSeq, parseSeqFromFilename, nextSeq,
                                 appendOp, loadOps)
  packages/sdk/src/commands.ts  (nextPosition, assertCanEditBoard, moveCard,
                                 createBoard, createList, createCard)
  packages/sdk/src/search.ts    (normalizeQuery, searchCards)

Modelling conventions:
  - JavaScript objects used as string-keyed records become association
    lists (List (String x value)) so that the insertion-order semantics
    of JS object keys is preserved; property assignment is setA
    (replace-in-place, append-if-absent), exactly the JS key-order rule.
  - JS numbers holding ordering keys are modelled as Int (the spec fixes
    positions to be caller-supplied integers); sequence numbers as Nat.
  - Array.prototype.sort with a comparator cmp is a stable sort by the
    total preorder (cmp a b <= 0); it is modelled by List.insertionSort
    (Mathlib's insertionSort is stable), and localeCompare on the id
    strings involved is modelled as code-point (lexicographic) order.
  - async file I/O is replaced by an explicit directory value: a list of
    (filename, parsed op-file content) pairs in enumeration order.
-/

namespace Kanban

/-- Member role, source type MemberRole = "viewer" | "editor". -/
inductive Role where
  | viewer
  | editor
deriving DecidableEq, Repr

/-- Rendering of a role as the JSON string stored in op payloads. -/
def roleString : Role → String
  | .viewer => "viewer"
  | .editor => "editor"

/-- Strict code-point order on character lists, the model of a negative
localeCompare result. -/
def chLtB : List Char → List Char → Bool
  | [], [] => false
  | [], _ :: _ => true
  | _ :: _, [] => false
  | c :: t, d :: u => if c < d then true else if d < c then false else chLtB t u

/-- Reflexive code-point order on character lists, the model of a
non-positive localeCompare result. -/
def chLeB : List Char → List Char → Bool
  | [], _ => true
  | _ :: _, [] => false
  | c :: t, d :: u => if c < d then true else if d < c then false else chLeB t u

/-- Strict string order by code points (the embedding of localeCompare
returning a negative number; all ids and keys in this code base are ASCII,
where the two orders agree). -/
def strLt (a b : String) : Prop := chLtB a.data b.data = true

instance : DecidableRel strLt := fun _a _b => inferInstanceAs (Decidable (_ = true))

/-- Reflexive string order by code points. -/
def strLe (a b : String) : Prop := chLeB a.data b.data = true

instance : DecidableRel strLe := fun _a _b => inferInstanceAs (Decidable (_ = true))

/-- JSON values that occur as conflict-write values in this code base:
strings, integer numbers, booleans, null, and arrays of strings (labels).
The source stores them as untyped JSON (unknown). -/
inductive Value where
  | str (s : String)
  | num (n : Int)
  | bool (b : Bool)
  | null
  | list (xs : List String)
deriving DecidableEq, Repr

/-- Escape of one character inside a JSON string literal, as produced by
JSON.stringify (control characters other than newline, carriage return and
tab are not exercised by any value in this code base). -/
def jsonEscapeChar (c : Char) : String :=
  if c = '"' then "\\\""
  else if c = '\\' then "\\\\"
  else if c = '\n' then "\\n"
  else if c = '\r' then "\\r"
  else if c = '\t' then "\\t"
  else String.singleton c

/-- JSON string literal for s, as produced by JSON.stringify. -/
def jsonQuote (s : String) : String :=
  "\"" ++ String.join (s.data.map jsonEscapeChar) ++ "\""

/-- Source stableValueKey (state.ts): JSON.stringify of the value, used as
the structural-equality key for conflict detection.  The NaN replacer in the
source is vacuous here because numbers are modelled as Int. -/
def stableValueKey : Value → String
  | .str s => jsonQuote s
  | .num n => toString n
  | .bool b => cond b ("true") ("false")
  | .null => "null"
  | .list xs => "[" ++ String.intercalate "," (xs.map jsonQuote) ++ "]"

/-- Payloads of the op union AnyOp (ops.ts), one constructor per op type.
For card.updated, a missing optional field is none (leave unchanged) and
dueDate distinguishes undefined (none), null (some none: clear) and a
string (some (some d)). -/
inductive OpPayload where
  | boardCreated (workspaceId boardId name : String)
  | boardRenamed (boardId name : String)
  | listCreated (boardId listId name : String) (position : Int)
  | listRenamed (listId name : String)
  | listMoved (listId : String) (position : Int)
  | cardCreated (boardId listId cardId title : String) (position : Int)
  | cardMoved (cardId fromListId toListId : String) (position : Int)
  | cardUpdated (cardId : String) (title description : Option String)
      (dueDate : Option (Option String)) (labels : Option (List String))
  | cardArchived (cardId : String) (archived : Bool)
  | commentAdded (cardId commentId text : String)
  | checklistItemAdded (cardId itemId text : String) (position : Int)
  | checklistItemToggled (cardId itemId : String) (checked : Bool)
  | checklistItemRenamed (cardId itemId text : String)
  | checklistItemRemoved (cardId itemId : String)
  | memberAdded (boardId memberId : String) (role : Role)
  | memberRoleChanged (boardId memberId : String) (role : Role)
deriving DecidableEq, Repr

/-- Operation envelope (ops.ts OpEnvelope); schemaVersion is the constant 1
and is omitted from the embedding. -/
structure Op where
  opId : String
  seq : Nat
  ts : String
  actorId : String
  payload : OpPayload
deriving DecidableEq, Repr

/-- Constructor shorthand for op envelopes. -/
def mkOp (opId : String) (seq : Nat) (ts actorId : String) (payload : OpPayload) : Op :=
  { opId := opId, seq := seq, ts := ts, actorId := actorId, payload := payload }

/-- One field write extracted from an op for conflict detection
(state.ts type Write). -/
structure Write where
  entityType : String
  entityId : String
  field : String
  value : Value
  opId : String
  ts : String
  actorId : String
  seq : Nat
deriving DecidableEq, Repr

/-- Helper building a Write from an op envelope plus the field data. -/
def mkWrite (op : Op) (entityType entityId field : String) (value : Value) : Write :=
  { entityType := entityType, entityId := entityId, field := field, value := value,
    opId := op.opId, ts := op.ts, actorId := op.actorId, seq := op.seq }

/-- Source writesForOp (state.ts): the (entityType, entityId, field, value)
records an op writes, used by conflict detection.  Op types absent from the
switch (creations, comments, checklist ops) fall to the default branch and
write nothing.  The source contains a second, unreachable list.moved case,
dead after the first; it is omitted. -/
def writesForOp (op : Op) : List Write :=
  match op.payload with
  | .boardRenamed boardId name =>
      [mkWrite op ("board") boardId ("name") (.str name)]
  | .listRenamed listId name =>
      [mkWrite op ("list") listId ("name") (.str name)]
  | .listMoved listId position =>
      [mkWrite op ("list") listId ("position") (.num position)]
  | .cardUpdated cardId title description dueDate labels =>
      (match title with
       | some t => [mkWrite op ("card") cardId ("title") (.str t)]
       | none => []) ++
      (match description with
       | some d => [mkWrite op ("card") cardId ("description") (.str d)]
       | none => []) ++
      (match dueDate with
       | some (some d) => [mkWrite op ("card") cardId ("dueDate") (.str d)]
       | some none => [mkWrite op ("card") cardId ("dueDate") (.null)]
       | none => []) ++
      (match labels with
       | some ls => [mkWrite op ("card") cardId ("labels") (.list ls)]
       | none => [])
  | .cardMoved cardId _fromListId toListId position =>
      [mkWrite op ("card") cardId ("listId") (.str toListId),
       mkWrite op ("card") cardId ("position") (.num position)]
  | .cardArchived cardId archived =>
      [mkWrite op ("card") cardId ("archived") (.bool archived)]
  | .memberAdded boardId memberId role =>
      [mkWrite op ("membership") (boardId ++ ":" ++ memberId) ("role") (.str (roleString role))]
  | .memberRoleChanged boardId memberId role =>
      [mkWrite op ("membership") (boardId ++ ":" ++ memberId) ("role") (.str (roleString role))]
  | _ => []

/-- Reference to a contributing op inside a Conflict (model.ts ConflictOpRef). -/
structure ConflictOpRef where
  opId : String
  ts : String
  actorId : String
  value : Value
deriving DecidableEq, Repr

/-- Derived conflict record (model.ts Conflict).  entityType is a String as
in the source, which casts the first key segment without validation. -/
structure Conflict where
  id : String
  seq : Nat
  entityType : String
  entityId : String
  field : String
  ops : List ConflictOpRef
deriving DecidableEq, Repr

/-- Conflict-detection key of a write.  The source keys the byKey map by the
joined string entityType:entityId:field and parses it back by splitting on
colons; since every entityType and field produced by writesForOp is
colon-free, the join is injective on the triples and parsing recovers
exactly the original components, so the embedding keys by the triple
directly. -/
def conflictKey (w : Write) : String × String × String :=
  (w.entityType, w.entityId, w.field)

/-- Insertion of one write into the byKey accumulator, preserving JS Map
insertion order: append to an existing group or append a new key. -/
def addWrite (acc : List ((String × String × String) × List Write)) (w : Write) :
    List ((String × String × String) × List Write) :=
  match acc with
  | [] => [(conflictKey w, [w])]
  | (k, ws) :: t =>
      if k = conflictKey w then (k, ws ++ [w]) :: t else (k, ws) :: addWrite t w

/-- Grouping of all writes by conflict key in first-seen key order
(the byKey Map of detectConflictsForSeqGroup). -/
def groupWrites (ws : List Write) : List ((String × String × String) × List Write) :=
  ws.foldl addWrite []

/-- Projection of a write to the op reference stored inside a Conflict. -/
def writeRef (w : Write) : ConflictOpRef :=
  { opId := w.opId, ts := w.ts, actorId := w.actorId, value := w.value }

/-- Conflict id string: seq:<seq>:<entityType>:<entityId>:<field>. -/
def conflictId (seq : Nat) (k : String × String × String) : String :=
  "seq:" ++ toString seq ++ ":" ++ k.1 ++ ":" ++ k.2.1 ++ ":" ++ k.2.2

/-- Conflict record for one key group (the push inside
detectConflictsForSeqGroup); sample is the first write of the group. -/
def mkConflict (k : String × String × String) (ws : List Write) (sample : Write) : Conflict :=
  { id := conflictId sample.seq k, seq := sample.seq,
    entityType := k.1, entityId := k.2.1, field := k.2.2,
    ops := ws.map writeRef }

/-- Number of distinct stable-serialized values among a list of writes:
the size of the JS Map keyed by stableValueKey, whose key set eraseDups
reproduces. -/
def distinctValueCount (ws : List Write) : Nat :=
  ((ws.map (fun w => stableValueKey w.value)).eraseDups).length

/-- Emission step for one byKey entry: skip groups with fewer than two
writes or fewer than two distinct stable-serialized values. -/
def conflictForGroup (kw : (String × String × String) × List Write) : Option Conflict :=
  let ws := kw.2
  if ws.length ≤ 1 then none
  else
    if distinctValueCount ws ≤ 1 then none
    else
      match ws with
      | [] => none
      | sample :: _ => some (mkConflict kw.1 ws sample)

/-- Comparator relation for the final conflicts.sort by id (localeCompare
modelled as code-point order). -/
def conflictIdLe (a b : Conflict) : Prop := strLe a.id b.id

instance : DecidableRel conflictIdLe := fun _a _b => inferInstanceAs (Decidable (strLe _ _))

/-- Source detectConflictsForSeqGroup (state.ts): collect all writes of the
group, bucket them by (entityType, entityId, field), emit one Conflict per
bucket having at least two writes with at least two distinct
stable-serialized values, and sort the conflicts by id. -/
def detectConflictsForSeqGroup (seqOps : List Op) : List Conflict :=
  if seqOps.length ≤ 1 then []
  else
    let allWrites := seqOps.flatMap writesForOp
    let byKey := groupWrites allWrites
    let conflicts := byKey.filterMap conflictForGroup
    List.insertionSort conflictIdLe conflicts

/-- Checklist item (model.ts ChecklistItem). -/
structure ChecklistItem where
  id : String
  text : String
  checked : Bool
  position : Int
deriving DecidableEq, Repr

/-- Workspace entity (model.ts Workspace). -/
structure Workspace where
  id : String
  name : String
  boardIds : List String
deriving DecidableEq, Repr

/-- Board entity (model.ts Board). -/
structure Board where
  id : String
  workspaceId : String
  name : String
  listIds : List String
deriving DecidableEq, Repr

/-- List entity (model.ts List; renamed to avoid the Lean List type). -/
structure BoardList where
  id : String
  boardId : String
  name : String
  position : Int
  cardIds : List String
deriving DecidableEq, Repr

/-- Card entity (model.ts Card). -/
structure Card where
  id : String
  boardId : String
  listId : String
  title : String
  description : String
  dueDate : Option String
  labels : List String
  archived : Bool
  position : Int
  checklist : List ChecklistItem
deriving DecidableEq, Repr

/-- Comment entity (model.ts Comment). -/
structure Comment where
  id : String
  cardId : String
  ts : String
  actorId : String
  text : String
deriving DecidableEq, Repr

/-- Materialized state (model.ts State); JS string-keyed records become
association lists preserving key insertion order, schemaVersion is the
constant 1 and is omitted. -/
structure State where
  defaultWorkspaceId : String
  workspaces : List (String × Workspace)
  boards : List (String × Board)
  lists : List (String × BoardList)
  cards : List (String × Card)
  memberships : List (String × List (String × Role))
  commentsByCardId : List (String × List Comment)
  conflicts : List Conflict
deriving DecidableEq, Repr

/-- Source createEmptyState (model.ts). -/
def createEmptyState (defaultWorkspaceId : String) : State :=
  { defaultWorkspaceId := defaultWorkspaceId,
    workspaces := [(defaultWorkspaceId,
      { id := defaultWorkspaceId, name := "Default", boardIds := [] })],
    boards := [], lists := [], cards := [],
    memberships := [], commentsByCardId := [], conflicts := [] }

/-- Lookup of a key in a JS-object-like association list
(first matching entry). -/
def lookupA {κ : Type} [DecidableEq κ] (k : κ) : List (κ × β) → Option β
  | [] => none
  | (k1, v) :: t => if k1 = k then some v else lookupA k t

/-- Property assignment on a JS-object-like association list: replace the
first entry with the key in place, or append a new entry (JS object key
order semantics). -/
def setA {κ : Type} [DecidableEq κ] (k : κ) (v : β) : List (κ × β) → List (κ × β)
  | [] => [(k, v)]
  | (k1, v1) :: t => if k1 = k then (k, v) :: t else (k1, v1) :: setA k v t

/-- Removal of the first occurrence of a value from an array
(state.ts removeFromArray: indexOf + splice). -/
def removeFromArray (l : List String) (x : String) : List String :=
  match l with
  | [] => []
  | a :: t => if a = x then t else a :: removeFromArray t x

/-- Position of a card id as read by the list re-sort closures
(state.cards[id].position; the state lookup always succeeds for ids held in
a cardIds array, 0 is a formal default for totality). -/
def cardPosOf (s : State) (id : String) : Int :=
  match lookupA id s.cards with
  | some c => c.position
  | none => 0

/-- Position of a list id as read by the board re-sort closures. -/
def listPosOf (s : State) (id : String) : Int :=
  match lookupA id s.lists with
  | some l => l.position
  | none => 0

/-- Comparator relation of sortIdsByPosition (state.ts): position ascending
with the id string (localeCompare, modelled as code-point order) as
tie-break. -/
def posIdLe (posOf : String → Int) (a b : String) : Prop :=
  posOf a < posOf b ∨ (posOf a = posOf b ∧ strLe a b)

instance (posOf : String → Int) : DecidableRel (posIdLe posOf) := fun _a _b =>
  inferInstanceAs (Decidable (_ ∨ _))

/-- Source sortIdsByPosition (state.ts): stable sort of an id array by
(position, id). -/
def sortIdsByPosition (ids : List String) (posOf : String → Int) : List String :=
  List.insertionSort (posIdLe posOf) ids

/-- Comparator relation of sortChecklistByPosition. -/
def checklistLe (a b : ChecklistItem) : Prop :=
  a.position < b.position ∨ (a.position = b.position ∧ strLe a.id b.id)

instance : DecidableRel checklistLe := fun _a _b =>
  inferInstanceAs (Decidable (_ ∨ _))

/-- Source sortChecklistByPosition (state.ts). -/
def sortChecklistByPosition (items : List ChecklistItem) : List ChecklistItem :=
  List.insertionSort checklistLe items

/-- In-place update of the list entity with the given id, a no-op when the
id is absent (models mutating a looked-up list object). -/
def modifyList (lid : String) (f : BoardList → BoardList) (s : State) : State :=
  match lookupA lid s.lists with
  | none => s
  | some l => { s with lists := setA lid (f l) s.lists }

/-- In-place update of the board entity with the given id. -/
def modifyBoard (bid : String) (f : Board → Board) (s : State) : State :=
  match lookupA bid s.boards with
  | none => s
  | some b => { s with boards := setA bid (f b) s.boards }

/-- In-place update of the card entity with the given id. -/
def modifyCard (cid : String) (f : Card → Card) (s : State) : State :=
  match lookupA cid s.cards with
  | none => s
  | some c => { s with cards := setA cid (f c) s.cards }

/-- In-place update of the workspace entity with the given id. -/
def modifyWorkspace (wid : String) (f : Workspace → Workspace) (s : State) : State :=
  match lookupA wid s.workspaces with
  | none => s
  | some w => { s with workspaces := setA wid (f w) s.workspaces }

/-- Update of the first checklist item with the given id
(Array.prototype.find + mutation; no-op when absent). -/
def updateChecklistItem (items : List ChecklistItem) (itemId : String)
    (f : ChecklistItem → ChecklistItem) : List ChecklistItem :=
  match items with
  | [] => []
  | it :: t =>
      if it.id = itemId then f it :: t else it :: updateChecklistItem t itemId f

/-- Source removeChecklistItem (state.ts): findIndex + splice, removing the
first item with the given id. -/
def removeChecklistItemArr (items : List ChecklistItem) (itemId : String) : List ChecklistItem :=
  match items with
  | [] => []
  | it :: t => if it.id = itemId then t else it :: removeChecklistItemArr t itemId

/-- Source applyOp (state.ts): the fold rule of one op into mutable state.
Sequenced object mutations become a chain of functional updates, each
re-reading the state, which reproduces the aliasing of the JS object graph
(e.g. when fromListId = toListId in card.moved). -/
def applyOp (s : State) (op : Op) : State :=
  match op.payload with
  | .boardCreated workspaceId boardId name =>
      let s1 :=
        match lookupA workspaceId s.workspaces with
        | some _ => s
        | none =>
            let w0 : Workspace := { id := workspaceId, name := "Workspace", boardIds := [] }
            { s with workspaces := setA workspaceId w0 s.workspaces }
      let s2 :=
        match lookupA boardId s1.boards with
        | some _ => s1
        | none =>
            let b0 : Board := { id := boardId, workspaceId := workspaceId, name := name, listIds := [] }
            let sb := { s1 with boards := setA boardId b0 s1.boards }
            modifyWorkspace workspaceId (fun w => { w with boardIds := w.boardIds ++ [boardId] }) sb
      let ms := (lookupA boardId s2.memberships).getD []
      let ms1 :=
        match lookupA op.actorId ms with
        | some _ => ms
        | none => setA op.actorId Role.editor ms
      let s3 := { s2 with memberships := setA boardId ms1 s2.memberships }
      modifyWorkspace workspaceId
        (fun w => { w with boardIds := List.insertionSort strLe w.boardIds }) s3
  | .boardRenamed boardId name =>
      modifyBoard boardId (fun b => { b with name := name }) s
  | .listCreated boardId listId name position =>
      match lookupA boardId s.boards with
      | none => s
      | some _ =>
          let s1 :=
            match lookupA listId s.lists with
            | some _ => s
            | none =>
                let l0 : BoardList := { id := listId, boardId := boardId, name := name,
                                        position := position, cardIds := [] }
                let sl := { s with lists := setA listId l0 s.lists }
                modifyBoard boardId (fun b => { b with listIds := b.listIds ++ [listId] }) sl
          modifyBoard boardId
            (fun b => { b with listIds := sortIdsByPosition b.listIds (listPosOf s1) }) s1
  | .listRenamed listId name =>
      modifyList listId (fun l => { l with name := name }) s
  | .listMoved listId position =>
      match lookupA listId s.lists with
      | none => s
      | some l =>
          let s1 := { s with lists := setA listId { l with position := position } s.lists }
          match lookupA l.boardId s1.boards with
          | none => s1
          | some _ =>
              modifyBoard l.boardId
                (fun b => { b with listIds := sortIdsByPosition b.listIds (listPosOf s1) }) s1
  | .cardCreated boardId listId cardId title position =>
      match lookupA listId s.lists with
      | none => s
      | some _ =>
          let s1 :=
            match lookupA cardId s.cards with
            | some _ => s
            | none =>
                let c0 : Card := { id := cardId, boardId := boardId, listId := listId,
                                   title := title, description := "", dueDate := none,
                                   labels := [], archived := false, position := position,
                                   checklist := [] }
                let sc := { s with cards := setA cardId c0 s.cards }
                modifyList listId (fun l => { l with cardIds := l.cardIds ++ [cardId] }) sc
          modifyList listId
            (fun l => { l with cardIds := sortIdsByPosition l.cardIds (cardPosOf s1) }) s1
  | .cardMoved cardId fromListId toListId position =>
      match lookupA cardId s.cards, lookupA fromListId s.lists, lookupA toListId s.lists with
      | some _, some _, some _ =>
          let s1 := modifyList fromListId
            (fun l => { l with cardIds := removeFromArray l.cardIds cardId }) s
          let s2 := modifyList toListId
            (fun l => { l with cardIds := l.cardIds ++ [cardId] }) s1
          let s3 := modifyCard cardId
            (fun c => { c with listId := toListId, position := position }) s2
          let s4 := modifyList fromListId
            (fun l => { l with cardIds := sortIdsByPosition l.cardIds (cardPosOf s3) }) s3
          modifyList toListId
            (fun l => { l with cardIds := sortIdsByPosition l.cardIds (cardPosOf s4) }) s4
      | _, _, _ => s
  | .cardUpdated cardId title description dueDate labels =>
      match lookupA cardId s.cards with
      | none => s
      | some c =>
          let c1 := match title with | some t => { c with title := t } | none => c
          let c2 := match description with | some d => { c1 with description := d } | none => c1
          let c3 := match dueDate with | some d => { c2 with dueDate := d } | none => c2
          let c4 := match labels with | some ls => { c3 with labels := ls } | none => c3
          { s with cards := setA cardId c4 s.cards }
  | .cardArchived cardId archived =>
      modifyCard cardId (fun c => { c with archived := archived }) s
  | .commentAdded cardId commentId text =>
      match lookupA cardId s.cards with
      | none => s
      | some _ =>
          let cs := (lookupA cardId s.commentsByCardId).getD []
          let cm : Comment := { id := commentId, cardId := cardId, ts := op.ts,
                                actorId := op.actorId, text := text }
          { s with commentsByCardId := setA cardId (cs ++ [cm]) s.commentsByCardId }
  | .checklistItemAdded cardId itemId text position =>
      modifyCard cardId (fun c =>
        let cl :=
          if c.checklist.any (fun it => it.id = itemId) then c.checklist
          else c.checklist ++ [{ id := itemId, text := text, checked := false, position := position }]
        { c with checklist := sortChecklistByPosition cl }) s
  | .checklistItemToggled cardId itemId checked =>
      modifyCard cardId (fun c =>
        let cl := updateChecklistItem c.checklist itemId (fun it => { it with checked := checked })
        { c with checklist := cl }) s
  | .checklistItemRenamed cardId itemId text =>
      modifyCard cardId (fun c =>
        let cl := updateChecklistItem c.checklist itemId (fun it => { it with text := text })
        { c with checklist := cl }) s
  | .checklistItemRemoved cardId itemId =>
      modifyCard cardId (fun c =>
        { c with checklist := removeChecklistItemArr c.checklist itemId }) s
  | .memberAdded boardId memberId role =>
      match lookupA boardId s.boards with
      | none => s
      | some _ =>
          let ms := (lookupA boardId s.memberships).getD []
          let ms1 :=
            match lookupA memberId ms with
            | some _ => ms
            | none => setA memberId role ms
          { s with memberships := setA boardId ms1 s.memberships }
  | .memberRoleChanged boardId memberId role =>
      match lookupA boardId s.boards with
      | none => s
      | some _ =>
          let ms := (lookupA boardId s.memberships).getD []
          { s with memberships := setA boardId (setA memberId role ms) s.memberships }

/-- Maximal same-seq groups, fuel-bounded structural recursion (the fuel is
only a termination device: it never runs out when it starts at the list
length, because dropWhile never lengthens a list). -/
def groupBySeqGo (fuel : Nat) : List Op → List (List Op)
  | [] => []
  | op :: rest =>
      match fuel with
      | 0 => []
      | fuel + 1 =>
          (op :: rest.takeWhile (fun o => o.seq = op.seq)) ::
            groupBySeqGo fuel (rest.dropWhile (fun o => o.seq = op.seq))

/-- Maximal same-seq groups of an op list in order (the inner grouping loop
of rebuildState). -/
def groupBySeq (ops : List Op) : List (List Op) :=
  groupBySeqGo ops.length ops

/-- The while loop of rebuildState, fuel-bounded structural recursion: per
seq group, first append the detected conflicts, then apply every op of the
group in order, tracking appliedThroughSeq. -/
def rebuildLoop (fuel : Nat) (s : State) (appliedThroughSeq : Nat) : List Op → State × Nat
  | [] => (s, appliedThroughSeq)
  | op :: rest =>
      match fuel with
      | 0 => (s, appliedThroughSeq)
      | fuel + 1 =>
          let group := op :: rest.takeWhile (fun o => o.seq = op.seq)
          let s1 := { s with conflicts := s.conflicts ++ detectConflictsForSeqGroup group }
          let s2 := group.foldl applyOp s1
          let applied := group.foldl (fun m o => if o.seq > m then o.seq else m) appliedThroughSeq
          rebuildLoop fuel s2 applied (rest.dropWhile (fun o => o.seq = op.seq))

/-- Source rebuildState (state.ts), with the file-system loading factored
out: fold the ordered op list into a fresh state seeded with the default
workspace, returning the state and appliedThroughSeq. -/
def rebuildState (defaultWorkspaceId : String) (ops : List Op) : State × Nat :=
  rebuildLoop ops.length (createEmptyState defaultWorkspaceId) 0 ops

/-
Op log store (ops.ts).  A directory is a list of (filename, parsed op-file
content) pairs in enumeration order; only the .json regular files matter
(listOpFilenames filters out everything else).
-/

/-- Decimal digit character for a value below ten. -/
def digitChar (d : Nat) : Char :=
  match d with
  | 0 => '0' | 1 => '1' | 2 => '2' | 3 => '3' | 4 => '4'
  | 5 => '5' | 6 => '6' | 7 => '7' | 8 => '8' | _ => '9'

/-- Decimal digit characters, fuel-bounded structural recursion (fuel n + 1
suffices because n / 10 < n). -/
def natDigitsGo (fuel n : Nat) : List Char :=
  match fuel with
  | 0 => []
  | fuel + 1 =>
      if n < 10 then [digitChar n]
      else natDigitsGo fuel (n / 10) ++ [digitChar (n % 10)]

/-- Decimal digit characters of a natural number, most significant first:
the decimal rendering used by the JS String(seq) call. -/
def natDigits (n : Nat) : List Char :=
  natDigitsGo (n + 1) n

/-- Source padSeq (ops.ts): String(seq).padStart(16, "0"). -/
def padSeq (seq : Nat) : String :=
  let ds := natDigits seq
  String.mk (List.replicate (16 - ds.length) '0' ++ ds)

/-- Numeric value of a string of decimal digits (Number.parseInt base 10;
sequence numbers stay far below 2^53 so the double is exact). -/
def natFromDigits (ds : List Char) : Nat :=
  ds.foldl (fun n c => 10 * n + (c.toNat - 48)) 0

/-- Source parseSeqFromFilename (ops.ts): match against the anchored
regular expression of sixteen digits followed by a dash, returning the
parsed number or none. -/
def parseSeqFromFilename (name : String) : Option Nat :=
  if (name.data.take 16).length = 16 ∧ (name.data.take 16).all Char.isDigit ∧
      (name.data.drop 16).head? = some ('-') then
    some (natFromDigits (name.data.take 16))
  else none

/-- Maximum sequence number parsed from the filenames of a directory
(the loop body of nextSeq), 0 when nothing parses. -/
def maxParsedSeq (dir : List (String × Op)) : Nat :=
  dir.foldl
    (fun m e =>
      match parseSeqFromFilename e.1 with
      | some s => if s > m then s else m
      | none => m) 0

/-- Source nextSeq (ops.ts): one more than the maximum parsed sequence
number (1 for an empty directory). -/
def nextSeq (dir : List (String × Op)) : Nat :=
  maxParsedSeq dir + 1

/-- Final op filename: <seq zero-padded to 16 digits>-<opId>.json. -/
def opFilename (seq : Nat) (opId : String) : String :=
  padSeq seq ++ "-" ++ opId ++ ".json"

/-- POSIX rename onto the final path: replaces an existing entry with that
name, otherwise creates a new one.  (The temp file is written with an
exclusive-create flag under a fresh name and never survives, so it is not
part of the directory model; sequentially the EEXIST retry loop of the
source runs exactly once.) -/
def renameInto (dir : List (String × Op)) (name : String) (op : Op) : List (String × Op) :=
  setA name op dir

/-- Source appendOp (ops.ts), sequential semantics: read the next sequence
number from the directory, build the envelope (opId and ts are modelled as
caller-supplied, standing for newId() and the current time), and rename the
written file into place.  Returns the new directory and the op. -/
def appendOp (dir : List (String × Op)) (opId ts actorId : String) (payload : OpPayload) :
    List (String × Op) × Op :=
  let seq := nextSeq dir
  let op : Op := { opId := opId, seq := seq, ts := ts, actorId := actorId, payload := payload }
  (renameInto dir (opFilename seq opId) op, op)

/-- Filename order used before parsing (names.sort(localeCompare),
modelled as code-point order). -/
def nameLe (a b : String × Op) : Prop := strLe a.1 b.1

instance : DecidableRel nameLe := fun _a _b => inferInstanceAs (Decidable (strLe _ _))

/-- Canonical total order on ops: seq ascending, then opId ascending
(the comparator a.seq - b.seq || a.opId.localeCompare(b.opId)). -/
def opLe (a b : Op) : Prop := a.seq < b.seq ∨ (a.seq = b.seq ∧ strLe a.opId b.opId)

instance : DecidableRel opLe := fun _a _b => inferInstanceAs (Decidable (_ ∨ _))

/-- Source loadOps (ops.ts): list the op files, sort the names, parse each
file in that order, then sort the parsed ops by (seq, opId). -/
def loadOps (dir : List (String × Op)) : List Op :=
  let sortedByName := List.insertionSort nameLe dir
  List.insertionSort opLe (sortedByName.map Prod.snd)

/-- Source rebuildState as exposed to callers: load the ordered op log of a
directory and fold it (readRepoFormat supplies defaultWorkspaceId). -/
def rebuildFromDir (defaultWorkspaceId : String) (dir : List (String × Op)) : State × Nat :=
  rebuildState defaultWorkspaceId (loadOps dir)

/-
Command layer (commands.ts).  Thrown errors become an error inductive,
one constructor per distinct failure meaning of the thrown messages.
-/

/-- Command-layer failures (the spec's error taxonomy): entity lookup
failure, role check failure, the cross-board move guard, duplicate
membership, and argument validation. -/
inductive CmdError where
  | notFound
  | permissionDenied
  | crossBoardMove
  | alreadyExists
  | invalidArgument
deriving DecidableEq, Repr

/-- Source getBoardRole (commands.ts). -/
def getBoardRole (s : State) (boardId actorId : String) : Option Role :=
  match lookupA boardId s.memberships with
  | none => none
  | some ms => lookupA actorId ms

/-- Source assertCanEditBoard (commands.ts): with no membership records the
bootstrap rule allows every actor; otherwise the actor must hold the editor
role. -/
def assertCanEditBoard (s : State) (boardId actorId : String) : Except CmdError Unit :=
  match lookupA boardId s.memberships with
  | none => .ok ()
  | some ms =>
      if ms.isEmpty then .ok ()
      else
        match getBoardRole s boardId actorId with
        | some .editor => .ok ()
        | _ => .error .permissionDenied

/-- Source nextPosition (commands.ts): running maximum starting at 0 over
the sibling positions, then 1000 if that maximum is 0, else maximum + 1000. -/
def nextPosition (existing : List Int) : Int :=
  let mx := existing.foldl (fun m n => if n > m then n else m) 0
  if mx = 0 then 1000 else mx + 1000

/-- Source createBoard (commands.ts): no rebuild and no permission check
(the board does not exist yet); appends one board.created op.  boardId
stands for the newId() result and workspaceId for
args.workspaceId ?? format.defaultWorkspaceId. -/
def createBoard (dir : List (String × Op)) (workspaceId boardId name actorId opId ts : String) :
    List (String × Op) :=
  (appendOp dir opId ts actorId (.boardCreated workspaceId boardId name)).1

/-- Source createList (commands.ts): rebuild, look up the board, check the
permission, default the position from the sibling lists, append one
list.created op. -/
def createList (dir : List (String × Op)) (defaultWorkspaceId boardId name actorId : String)
    (positionArg : Option Int) (listId opId ts : String) :
    Except CmdError (List (String × Op)) :=
  match lookupA boardId (rebuildFromDir defaultWorkspaceId dir).1.boards with
  | none => .error .notFound
  | some board =>
      match assertCanEditBoard (rebuildFromDir defaultWorkspaceId dir).1 boardId actorId with
      | .error e => .error e
      | .ok _ =>
          let position := positionArg.getD
            (nextPosition (board.listIds.map
              (fun id => listPosOf (rebuildFromDir defaultWorkspaceId dir).1 id)))
          .ok (appendOp dir opId ts actorId (.listCreated boardId listId name position)).1

/-- Source createCard (commands.ts): rebuild, look up the list, check that
it belongs to the given board, check the permission, default the position
from the sibling cards, append one card.created op. -/
def createCard (dir : List (String × Op)) (defaultWorkspaceId boardId listId title actorId : String)
    (positionArg : Option Int) (cardId opId ts : String) :
    Except CmdError (List (String × Op)) :=
  match lookupA listId (rebuildFromDir defaultWorkspaceId dir).1.lists with
  | none => .error .notFound
  | some list =>
      if list.boardId ≠ boardId then .error .invalidArgument
      else
        match assertCanEditBoard (rebuildFromDir defaultWorkspaceId dir).1 boardId actorId with
        | .error e => .error e
        | .ok _ =>
            let position := positionArg.getD
              (nextPosition (list.cardIds.map
                (fun id => cardPosOf (rebuildFromDir defaultWorkspaceId dir).1 id)))
            .ok (appendOp dir opId ts actorId (.cardCreated boardId listId cardId title position)).1

/-- Source moveCard (commands.ts): rebuild, look up the card, check the
permission on the card's board, look up the destination list, refuse a
cross-board move, default the position from the destination's cards, append
one card.moved op recording the card's current list as fromListId. -/
def moveCard (dir : List (String × Op)) (defaultWorkspaceId cardId toListId actorId : String)
    (positionArg : Option Int) (opId ts : String) :
    Except CmdError (List (String × Op)) :=
  match lookupA cardId (rebuildFromDir defaultWorkspaceId dir).1.cards with
  | none => .error .notFound
  | some card =>
      match assertCanEditBoard (rebuildFromDir defaultWorkspaceId dir).1 card.boardId actorId with
      | .error e => .error e
      | .ok _ =>
          match lookupA toListId (rebuildFromDir defaultWorkspaceId dir).1.lists with
          | none => .error .notFound
          | some toList =>
              if toList.boardId ≠ card.boardId then .error .crossBoardMove
              else
                let position := positionArg.getD
                  (nextPosition (toList.cardIds.map
                    (fun id => cardPosOf (rebuildFromDir defaultWorkspaceId dir).1 id)))
                .ok (appendOp dir opId ts actorId
                  (.cardMoved cardId card.listId toListId position)).1

/-
Search (search.ts).
-/

/-- One search hit (search.ts CardSearchResult). -/
structure CardSearchResult where
  cardId : String
  boardId : String
  listId : String
  title : String
deriving DecidableEq, Repr

/-- Whitespace trim of both ends of a character list (String.prototype.trim). -/
def trimChars (l : List Char) : List Char :=
  ((l.dropWhile Char.isWhitespace).reverse.dropWhile Char.isWhitespace).reverse

/-- Split of a character list at every whitespace character, keeping empty
pieces, as String.prototype.split does per separator occurrence; the
filter of normalizeQuery then drops the empties, which together is the
same token list as splitting on whitespace runs. -/
def splitWs : List Char → List (List Char)
  | [] => [[]]
  | c :: t =>
      if c.isWhitespace then [] :: splitWs t
      else
        match splitWs t with
        | [] => [[c]]
        | g :: gs => (c :: g) :: gs

/-- Lower-casing of a character list (toLowerCase; the code base only
exercises ASCII, which Char.toLower covers). -/
def lowerChars (l : List Char) : List Char :=
  l.map Char.toLower

/-- Source normalizeQuery (search.ts): trim, lower-case, split on
whitespace, drop empty tokens. -/
def normalizeQuery (query : String) : List String :=
  ((splitWs (lowerChars (trimChars query.data))).filter (fun t => !t.isEmpty)).map String.mk

/-- Join of character lists with a separator (Array.prototype.join). -/
def joinSep (sep : List Char) : List (List Char) → List Char
  | [] => []
  | [x] => x
  | x :: xs => x ++ sep ++ joinSep sep xs

/-- Haystack for one card: title, description and each label joined by
newlines, lower-cased (search.ts builds [title, description, ...labels],
joins with a newline and lower-cases). -/
def cardHay (card : Card) : String :=
  String.mk (lowerChars (joinSep ['\n'] ((card.title :: card.description :: card.labels).map String.data)))

/-- Search result order (search.ts comparator): boardId, listId, card
position read from state, then cardId, all ascending. -/
def searchLe (s : State) (a b : CardSearchResult) : Prop :=
  strLt a.boardId b.boardId ∨
    (a.boardId = b.boardId ∧
      (strLt a.listId b.listId ∨
        (a.listId = b.listId ∧
          (cardPosOf s a.cardId < cardPosOf s b.cardId ∨
            (cardPosOf s a.cardId = cardPosOf s b.cardId ∧ strLe a.cardId b.cardId)))))

instance (s : State) : DecidableRel (searchLe s) := fun _a _b =>
  inferInstanceAs (Decidable (_ ∨ _))

/-- The search hit built from one cards-map entry. -/
def searchHit (kv : String × Card) : CardSearchResult :=
  { cardId := kv.1, boardId := kv.2.boardId, listId := kv.2.listId, title := kv.2.title }

/-- Source searchCards (search.ts), with the rebuild factored out: keep the
non-archived cards whose haystack contains every needle as a substring
(a query with no tokens matches every non-archived card), then sort by the
deterministic (boardId, listId, position, cardId) order. -/
def searchCards (s : State) (query : String) : List CardSearchResult :=
  List.insertionSort (searchLe s)
    (s.cards.filterMap (fun kv =>
      if kv.2.archived then none
      else
        if (normalizeQuery query).length > 0 ∧
            ¬ (∀ n ∈ normalizeQuery query, List.IsInfix n.data (cardHay kv.2).data) then none
        else some (searchHit kv)))

/-
Definitions supporting the claim statements and witnesses.
-/

/-- Membership records of a board as the permission check sees them
(an absent record and an empty object both mean no memberships). -/
def boardMemberships (s : State) (boardId : String) : List (String × Role) :=
  (lookupA boardId s.memberships).getD []

instance {ε α : Type} [DecidableEq ε] [DecidableEq α] : DecidableEq (Except ε α)
  | .error e, .error f =>
      if h : e = f then .isTrue (h ▸ rfl) else .isFalse (fun hh => h (Except.error.inj hh))
  | .error _, .ok _ => .isFalse (fun hh => Except.noConfusion hh)
  | .ok _, .error _ => .isFalse (fun hh => Except.noConfusion hh)
  | .ok x, .ok y =>
      if h : x = y then .isTrue (h ▸ rfl) else .isFalse (fun hh => h (Except.ok.inj hh))

/-- Directory after creating the board of the C9 three-card scenario. -/
def c9dir1 : List (String × Op) :=
  createBoard [] ("w") ("B") ("Board") ("alice") ("a1") ("t1")

/-- Directory after creating the list of the C9 three-card scenario. -/
def c9dir2 : List (String × Op) :=
  (createList c9dir1 ("w") ("B") ("Todo") ("alice") none ("L") ("a2") ("t2")).toOption.getD []

/-- Directory after the first default-position card creation. -/
def c9dir3 : List (String × Op) :=
  (createCard c9dir2 ("w") ("B") ("L") ("T1") ("alice") none ("c1") ("a3") ("t3")).toOption.getD []

/-- Directory after the second default-position card creation. -/
def c9dir4 : List (String × Op) :=
  (createCard c9dir3 ("w") ("B") ("L") ("T2") ("alice") none ("c2") ("a4") ("t4")).toOption.getD []

/-- Directory after the third default-position card creation. -/
def c9dir5 : List (String × Op) :=
  (createCard c9dir4 ("w") ("B") ("L") ("T3") ("alice") none ("c3") ("a5") ("t5")).toOption.getD []

/-- All writes of a group of ops targeting one (entityType, entityId,
field) key, in group order: the contributing writes of the claim. -/
def keyWrites (t e f : String) (ops : List Op) : List Write :=
  (ops.flatMap writesForOp).filter (fun w => decide (conflictKey w = (t, e, f)))

/-- Recorded role of a member on a board (how the permission layer and the
fold read memberships). -/
def roleOf (s : State) (b m : String) : Option Role :=
  lookupA m ((lookupA b s.memberships).getD [])

/-- Modelled from the spec words of the search claim: a card matches when
every query token is a substring of the lower-cased concatenation of title,
description and labels (no separators).  Compared against the code, which
joins the parts with newlines. -/
def specSearchMatches (card : Card) (query : String) : Prop :=
  ∀ tok ∈ normalizeQuery query,
    List.IsInfix tok.data
      (lowerChars (card.title ++ card.description ++ String.join card.labels).data)

instance (card : Card) (query : String) : Decidable (specSearchMatches card query) :=
  inferInstanceAs (Decidable (∀ tok ∈ normalizeQuery query, List.IsInfix tok.data
    (lowerChars (card.title ++ card.description ++ String.join card.labels).data)))

/-- The code's match condition on a card for a tokenized query: an empty
token list matches everything, otherwise every token must be a substring of
the newline-joined haystack. -/
def tokensMatchHay (needles : List String) (card : Card) : Prop :=
  needles = [] ∨ ∀ n ∈ needles, List.IsInfix n.data (cardHay card).data

instance (needles : List String) (card : Card) : Decidable (tokensMatchHay needles card) :=
  inferInstanceAs (Decidable (_ ∨ _))

/-- Card whose title and description abut at a token of the C8
counterexample query. -/
def c8card : Card :=
  { id := "x", boardId := "B", listId := "L", title := "ab", description := "cd",
    dueDate := none, labels := [], archived := false, position := 1000, checklist := [] }

/-- One-card state of the C8 counterexample. -/
def c8state : State :=
  { defaultWorkspaceId := "w", workspaces := [], boards := [], lists := [], cards := [("x", c8card)],
    memberships := [], commentsByCardId := [], conflicts := [] }

/-- Card titled Fix login bug of the spec's search example. -/
def c8cardFix : Card :=
  { id := "c1", boardId := "B", listId := "L", title := "Fix login bug", description := "",
    dueDate := none, labels := [], archived := false, position := 1000, checklist := [] }

/-- Card titled Write docs of the spec's search example. -/
def c8cardDocs : Card :=
  { id := "c2", boardId := "B", listId := "L", title := "Write docs", description := "",
    dueDate := none, labels := [], archived := false, position := 2000, checklist := [] }

/-- Two-card state of the spec's search example. -/
def c8state2 : State :=
  { defaultWorkspaceId := "w", workspaces := [], boards := [], lists := [],
    cards := [("c1", c8cardFix), ("c2", c8cardDocs)],
    memberships := [], commentsByCardId := [], conflicts := [] }

/-- Same-seq group of the spec's conflict test: two card.updated ops at one
seq setting different titles on the same card. -/
def c2group : List Op :=
  [mkOp ("a") 4 ("t1") ("u1") (.cardUpdated ("c1") (some ("One")) none none none),
   mkOp ("b") 4 ("t2") ("u2") (.cardUpdated ("c1") (some ("Two")) none none none)]

/-- Two-board op log for C7: board A (owned by actor o, so A has a
membership record) holding card c on list LA, and board B holding list LB. -/
def c7dir : List (String × Op) :=
  [(opFilename 1 "a1", mkOp ("a1") 1 ("t1") ("o") (.boardCreated ("w") ("A") ("BoardA"))),
   (opFilename 2 "a2", mkOp ("a2") 2 ("t2") ("o") (.listCreated ("A") ("LA") ("Todo") 1000)),
   (opFilename 3 "a3", mkOp ("a3") 3 ("t3") ("o") (.cardCreated ("A") ("LA") ("c") ("T") 1000)),
   (opFilename 4 "a4", mkOp ("a4") 4 ("t4") ("o") (.boardCreated ("w") ("B") ("BoardB"))),
   (opFilename 5 "a5", mkOp ("a5") 5 ("t5") ("o") (.listCreated ("B") ("LB") ("Other") 1000))]

/-- The card entity of the C7 scenario as the rebuilt state holds it. -/
def c7card : Card :=
  { id := "c", boardId := "A", listId := "LA", title := "T", description := "",
    dueDate := none, labels := [], archived := false, position := 1000, checklist := [] }

/-- The destination list entity of the C7 scenario. -/
def c7toList : BoardList :=
  { id := "LB", boardId := "B", name := "Other", position := 1000, cardIds := [] }

/-- First op of the C1 witness directory. -/
def claim1WitnessOp1 : Op :=
  { opId := "a", seq := 1, ts := "t1", actorId := "alice",
    payload := .boardCreated "w" "B" "Board" }

/-- Second op of the C1 witness directory. -/
def claim1WitnessOp2 : Op :=
  { opId := "b", seq := 2, ts := "t2", actorId := "alice",
    payload := .listCreated "B" "L" "Todo" 1000 }

/-
C3 support.  A field reference names one state location targeted by a
conflict-detection write key, together with the function reading it back,
so that last-write-wins can be stated per key.
-/

/-- One addressable state field, mirroring the (entityType, entityId,
field) keys that writesForOp emits. -/
inductive FieldRef where
  | boardName (boardId : String)
  | listName (listId : String)
  | listPos (listId : String)
  | cardTitle (cardId : String)
  | cardDescription (cardId : String)
  | cardDue (cardId : String)
  | cardLabels (cardId : String)
  | cardArchived (cardId : String)
  | cardList (cardId : String)
  | cardPos (cardId : String)
  | memberRole (boardId memberId : String)
deriving DecidableEq, Repr

/-- The conflict-detection key that writesForOp attaches to writes of the
referenced field. -/
def refKey : FieldRef → String × String × String
  | .boardName b => ("board", b, "name")
  | .listName l => ("list", l, "name")
  | .listPos l => ("list", l, "position")
  | .cardTitle c => ("card", c, "title")
  | .cardDescription c => ("card", c, "description")
  | .cardDue c => ("card", c, "dueDate")
  | .cardLabels c => ("card", c, "labels")
  | .cardArchived c => ("card", c, "archived")
  | .cardList c => ("card", c, "listId")
  | .cardPos c => ("card", c, "position")
  | .memberRole b m => ("membership", b ++ ":" ++ m, "role")

/-- Read the referenced field from the state, as the Value a write of that
field would record. -/
def readField (s : State) : FieldRef → Option Value
  | .boardName b => (lookupA b s.boards).map (fun bd => .str bd.name)
  | .listName l => (lookupA l s.lists).map (fun l0 => .str l0.name)
  | .listPos l => (lookupA l s.lists).map (fun l0 => .num l0.position)
  | .cardTitle c => (lookupA c s.cards).map (fun c0 => .str c0.title)
  | .cardDescription c => (lookupA c s.cards).map (fun c0 => .str c0.description)
  | .cardDue c => (lookupA c s.cards).map (fun c0 =>
      match c0.dueDate with | some d => .str d | none => .null)
  | .cardLabels c => (lookupA c s.cards).map (fun c0 => .list c0.labels)
  | .cardArchived c => (lookupA c s.cards).map (fun c0 => .bool c0.archived)
  | .cardList c => (lookupA c s.cards).map (fun c0 => .str c0.listId)
  | .cardPos c => (lookupA c s.cards).map (fun c0 => .num c0.position)
  | .memberRole b m =>
      (lookupA m ((lookupA b s.memberships).getD [])).map (fun r => .str (roleString r))

/-- The writes of one op that target the given field reference. -/
def writesRef (op : Op) (r : FieldRef) : List Write :=
  (writesForOp op).filter (fun w => decide (conflictKey w = refKey r))

/-- The referenced field is present (its entity exists) in the state. -/
def keyReady (s : State) (r : FieldRef) : Prop := (readField s r).isSome

instance (s : State) (r : FieldRef) : Decidable (keyReady s r) :=
  inferInstanceAs (Decidable ((readField s r).isSome = true))

/-- Existence guards an op needs so that the fold does not drop it:
card.moved needs the card and both lists, the member ops need the board.
(The other guarded ops only need their own target, which keyReady already
supplies.) -/
def guardsOk (s : State) (op : Op) : Prop :=
  match op.payload with
  | .cardMoved cardId fromListId toListId _ =>
      (lookupA cardId s.cards).isSome = true ∧ (lookupA fromListId s.lists).isSome = true ∧
        (lookupA toListId s.lists).isSome = true
  | .memberAdded boardId _ _ => (lookupA boardId s.boards).isSome = true
  | .memberRoleChanged boardId _ _ => (lookupA boardId s.boards).isSome = true
  | _ => True

instance (s : State) (op : Op) : Decidable (guardsOk s op) := by
  unfold guardsOk
  cases op.payload <;> exact inferInstance

/-- Colon-freeness of the board id of a member op, making the joined
membership write key unambiguous. -/
def opClean (op : Op) : Prop :=
  match op.payload with
  | .memberAdded boardId _ _ => (':') ∉ boardId.data
  | .memberRoleChanged boardId _ _ => (':') ∉ boardId.data
  | _ => True

instance (op : Op) : Decidable (opClean op) := by
  unfold opClean
  cases op.payload <;> exact inferInstance

/-- Colon-freeness of the board id of a membership field reference. -/
def refClean : FieldRef → Prop
  | .memberRole b _ => (':') ∉ b.data
  | _ => True

instance (r : FieldRef) : Decidable (refClean r) := by
  unfold refClean
  cases r <;> exact inferInstance

/-- First op of the C3 counterexample log: board B created at seq 1 by
actor u (which records u as editor). -/
def c3op1 : Op := mkOp "a1" 1 "t1" "u" (.boardCreated "w" "B" "N")

/-- Second op (first of the seq-2 group, opId a): change u's role to
viewer. -/
def c3op2 : Op := mkOp "a" 2 "t2" "u" (.memberRoleChanged "B" "u" Role.viewer)

/-- Third op (last of the seq-2 group, opId b): re-add u as editor, which
the fold ignores because a role is already recorded. -/
def c3op3 : Op := mkOp "b" 2 "t3" "u" (.memberAdded "B" "u" Role.editor)

/-- The C3 counterexample log, sorted by (seq, opId). -/
def c3ops : List Op := [c3op1, c3op2, c3op3]

/-- First op of the C3 witness log. -/
def c3wop1 : Op := mkOp "a1" 1 "t1" "u" (.boardCreated "w" "B" "N")

/-- Second op of the C3 witness log: seq-2 group, opId a, role to viewer. -/
def c3wop2 : Op := mkOp "a" 2 "t2" "u" (.memberRoleChanged "B" "u" Role.viewer)

/-- Third op of the C3 witness log: seq-2 group, opId b, role to editor. -/
def c3wop3 : Op := mkOp "b" 2 "t3" "u" (.memberRoleChanged "B" "u" Role.editor)

/-- The C3 witness log, sorted by (seq, opId). -/
def c3wops : List Op := [c3wop1, c3wop2, c3wop3]

/-
C4 support.  The card-placement invariant relates the lists and cards
components: every cardIds entry points back to a card whose listId names
that list, every card sits in its list's cardIds, and each cardIds array
is duplicate-free and sorted by (position, id).
-/

/-- Position of a card id as read from a cards table (cardPosOf with the
state projected away). -/
def posOfC (cs : List (String × Card)) (cid : String) : Int :=
  match lookupA cid cs with
  | some c => c.position
  | none => 0

/-- The card-placement invariant over the lists and cards tables. -/
def listCardInv (ls : List (String × BoardList)) (cs : List (String × Card)) : Prop :=
  (ls.map Prod.fst).Nodup ∧ (cs.map Prod.fst).Nodup ∧
  (∀ p ∈ ls, ∀ cid ∈ p.2.cardIds, (lookupA cid cs).map Card.listId = some p.1) ∧
  (∀ q ∈ cs, (lookupA q.2.listId ls).map (fun l => decide (q.1 ∈ l.cardIds)) = some true) ∧
  (∀ p ∈ ls, p.2.cardIds.Nodup) ∧
  (∀ p ∈ ls, List.Pairwise (posIdLe (posOfC cs)) p.2.cardIds)

instance (ls : List (String × BoardList)) (cs : List (String × Card)) :
    Decidable (listCardInv ls cs) := by
  unfold listCardInv
  exact inferInstance

/-- The card-placement invariant of a state. -/
def StateInv (s : State) : Prop := listCardInv s.lists s.cards

instance (s : State) : Decidable (StateInv s) :=
  inferInstanceAs (Decidable (listCardInv s.lists s.cards))

/-- Consistency guard of one fold step: a card.moved op that will apply
(card and both lists present) must name the card's current list as
fromListId.  Every other op is unconstrained. -/
def moveOk (s : State) (op : Op) : Bool :=
  match op.payload with
  | .cardMoved cardId fromListId toListId _ =>
      match lookupA cardId s.cards, lookupA fromListId s.lists, lookupA toListId s.lists with
      | some c, some _, some _ => decide (fromListId = c.listId)
      | _, _, _ => true
  | _ => true

/-- The consistency guard along a whole fold. -/
def movesConsistent : State → List Op → Bool
  | _, [] => true
  | s, op :: t => moveOk s op && movesConsistent (applyOp s op) t

/-- C4 counterexample log, ops 1-4: board B with lists L and M and card c
on L. -/
def c4op1 : Op := mkOp "a1" 1 "t1" "u" (.boardCreated "w" "B" "N")

/-- Second op of the C4 counterexample log. -/
def c4op2 : Op := mkOp "a2" 2 "t2" "u" (.listCreated "B" "L" "Lname" 1000)

/-- Third op of the C4 counterexample log. -/
def c4op3 : Op := mkOp "a3" 3 "t3" "u" (.listCreated "B" "M" "Mname" 2000)

/-- Fourth op of the C4 counterexample log. -/
def c4op4 : Op := mkOp "a4" 4 "t4" "u" (.cardCreated "B" "L" "c" "T" 1000)

/-- Fifth op of the C4 counterexample log: a card.moved whose fromListId M
is stale (the card lives on L), as a concurrent writer can produce. -/
def c4op5 : Op := mkOp "a5" 5 "t5" "u" (.cardMoved "c" "M" "M" 500)

/-- The C4 counterexample log. -/
def c4ops : List Op := [c4op1, c4op2, c4op3, c4op4, c4op5]

/-- The C4 witness log: the same scenario with a consistent card.moved
(fromListId L, destination M). -/
def c4wops : List Op :=
  [c4op1, c4op2, c4op3, c4op4, mkOp "a5" 5 "t5" "u" (.cardMoved "c" "L" "M" 500)]

/-
Code-point order toolkit.
-/

theorem chLeB_total (a : List Char) : ∀ b, chLeB a b = true ∨ chLeB b a = true := by
  induction a with
  | nil => intro b; left; rfl
  | cons c t ih =>
      intro b
      cases b with
      | nil => right; rfl
      | cons d u =>
          rcases lt_trichotomy c d with h | h | h
          · left; simp [chLeB, h]
          · subst h
            rcases ih u with h2 | h2
            · left; simp [chLeB, lt_irrefl, h2]
            · right; simp [chLeB, lt_irrefl, h2]
          · right; simp [chLeB, h]

theorem chLeB_trans (a : List Char) :
    ∀ b c, chLeB a b = true → chLeB b c = true → chLeB a c = true := by
  induction a with
  | nil => intro b c _ _; rfl
  | cons x t ih =>
      intro b c hab hbc
      cases b with
      | nil => simp [chLeB] at hab
      | cons y u =>
          cases c with
          | nil => simp [chLeB] at hbc
          | cons z v =>
              rcases lt_trichotomy x y with hxy | hxy | hxy
              · rcases lt_trichotomy y z with hyz | hyz | hyz
                · simp [chLeB, hxy.trans hyz]
                · subst hyz; simp [chLeB, hxy]
                · simp [chLeB, hyz, asymm hyz] at hbc
              · subst hxy
                rcases lt_trichotomy x z with hxz | hxz | hxz
                · simp [chLeB, hxz]
                · subst hxz
                  simp [chLeB, lt_irrefl] at hab hbc ⊢
                  exact ih u v hab hbc
                · simp [chLeB, hxz, asymm hxz] at hbc
              · simp [chLeB, hxy, asymm hxy] at hab

theorem chLeB_antisymm (a : List Char) :
    ∀ b, chLeB a b = true → chLeB b a = true → a = b := by
  induction a with
  | nil =>
      intro b _ hba
      cases b with
      | nil => rfl
      | cons d u => simp [chLeB] at hba
  | cons c t ih =>
      intro b hab hba
      cases b with
      | nil => simp [chLeB] at hab
      | cons d u =>
          rcases lt_trichotomy c d with h | h | h
          · simp [chLeB, h, asymm h] at hba
          · subst h
            simp [chLeB, lt_irrefl] at hab hba
            rw [ih u hab hba]
          · simp [chLeB, h, asymm h] at hab

theorem chLtB_false_antisymm (a : List Char) :
    ∀ b, chLtB a b = false → chLtB b a = false → a = b := by
  induction a with
  | nil =>
      intro b hab _
      cases b with
      | nil => rfl
      | cons d u => simp [chLtB] at hab
  | cons c t ih =>
      intro b hab hba
      cases b with
      | nil => simp [chLtB] at hba
      | cons d u =>
          rcases lt_trichotomy c d with h | h | h
          · simp [chLtB, h] at hab
          · subst h
            simp [chLtB, lt_irrefl] at hab hba
            rw [ih u hab hba]
          · simp [chLtB, h] at hba

theorem chLtB_trans (a : List Char) :
    ∀ b c, chLtB a b = true → chLtB b c = true → chLtB a c = true := by
  induction a with
  | nil =>
      intro b c _ hbc
      cases b with
      | nil => cases c <;> simp_all [chLtB]
      | cons y u =>
          cases c with
          | nil => simp [chLtB] at hbc
          | cons z v => rfl
  | cons x t ih =>
      intro b c hab hbc
      cases b with
      | nil => simp [chLtB] at hab
      | cons y u =>
          cases c with
          | nil => simp [chLtB] at hbc
          | cons z v =>
              rcases lt_trichotomy x y with hxy | hxy | hxy
              · rcases lt_trichotomy y z with hyz | hyz | hyz
                · simp [chLtB, hxy.trans hyz]
                · subst hyz; simp [chLtB, hxy]
                · rcases lt_trichotomy x z with hxz | hxz | hxz
                  · simp [chLtB, hxz]
                  · subst hxz; simp [chLtB, hyz, asymm hyz] at hbc
                  · simp [chLtB, hyz, asymm hyz] at hbc
              · subst hxy
                rcases lt_trichotomy x z with hxz | hxz | hxz
                · simp [chLtB, hxz]
                · subst hxz
                  simp [chLtB, lt_irrefl] at hab hbc ⊢
                  exact ih u v hab hbc
                · simp [chLtB, hxz, asymm hxz] at hbc
              · simp [chLtB, hxy, asymm hxy] at hab

theorem chLtB_le_of_not (a : List Char) : ∀ b, chLtB a b = false → chLeB b a = true := by
  induction a with
  | nil =>
      intro b hab
      cases b with
      | nil => rfl
      | cons d u => simp [chLtB] at hab
  | cons c t ih =>
      intro b hab
      cases b with
      | nil => rfl
      | cons d u =>
          rcases lt_trichotomy c d with h | h | h
          · simp [chLtB, h] at hab
          · subst h
            simp [chLtB, lt_irrefl] at hab
            simp [chLeB, lt_irrefl]
            exact ih u hab
          · simp [chLeB, h]

theorem strLe_total (a b : String) : strLe a b ∨ strLe b a := chLeB_total a.data b.data

theorem strLe_trans {a b c : String} (h1 : strLe a b) (h2 : strLe b c) : strLe a c :=
  chLeB_trans a.data b.data c.data h1 h2

theorem strLe_antisymm {a b : String} (h1 : strLe a b) (h2 : strLe b a) : a = b :=
  String.ext (chLeB_antisymm a.data b.data h1 h2)

theorem strLt_trans {a b c : String} (h1 : strLt a b) (h2 : strLt b c) : strLt a c :=
  chLtB_trans a.data b.data c.data h1 h2

theorem strLt_false_antisymm {a b : String} (h1 : ¬ strLt a b) (h2 : ¬ strLt b a) : a = b :=
  String.ext (chLtB_false_antisymm a.data b.data (by simpa [strLt] using h1)
    (by simpa [strLt] using h2))

theorem strLe_of_not_lt {a b : String} (h : ¬ strLt a b) : strLe b a :=
  chLtB_le_of_not a.data b.data (by simpa [strLt] using h)

/-
Association-list toolkit used throughout the proofs.
-/

theorem lookupA_setA_self {κ : Type} [DecidableEq κ] (k : κ) (v : β) (l : List (κ × β)) :
    lookupA k (setA k v l) = some v := by
  induction l with
  | nil => simp [setA, lookupA]
  | cons h t ih =>
      obtain ⟨k1, v1⟩ := h
      by_cases hk : k1 = k
      · simp [setA, hk, lookupA]
      · simp [setA, hk, lookupA, ih]

theorem lookupA_setA_ne {κ : Type} [DecidableEq κ] (k k1 : κ) (v : β) (l : List (κ × β)) (h : k1 ≠ k) :
    lookupA k1 (setA k v l) = lookupA k1 l := by
  induction l with
  | nil =>
      show (if k = k1 then some v else none) = none
      rw [if_neg (fun hh => h hh.symm)]
  | cons hd t ih =>
      obtain ⟨k2, v2⟩ := hd
      show lookupA k1 (if k2 = k then (k, v) :: t else (k2, v2) :: setA k v t) = _
      by_cases hk : k2 = k
      · rw [if_pos hk]
        show (if k = k1 then some v else lookupA k1 t) =
          (if k2 = k1 then some v2 else lookupA k1 t)
        rw [if_neg (fun hh => h hh.symm), if_neg (fun hh => h (hk ▸ hh : k = k1).symm)]
      · rw [if_neg hk]
        show (if k2 = k1 then some v2 else lookupA k1 (setA k v t)) =
          (if k2 = k1 then some v2 else lookupA k1 t)
        by_cases hk1 : k2 = k1
        · rw [if_pos hk1, if_pos hk1]
        · rw [if_neg hk1, if_neg hk1, ih]

theorem setA_lookup_eq_self {κ : Type} [DecidableEq κ] (k : κ) (v : β) (l : List (κ × β))
    (h : lookupA k l = some v) : setA k v l = l := by
  induction l with
  | nil => simp [lookupA] at h
  | cons hd t ih =>
      obtain ⟨k1, v1⟩ := hd
      by_cases hk : k1 = k
      · subst hk
        simp [lookupA] at h
        simp [setA, h]
      · simp [lookupA, hk] at h
        simp [setA, hk, ih h]

theorem setA_absent_eq_append {κ : Type} [DecidableEq κ] (k : κ) (v : β) (l : List (κ × β))
    (h : lookupA k l = none) : setA k v l = l ++ [(k, v)] := by
  induction l with
  | nil => simp [setA]
  | cons hd t ih =>
      obtain ⟨k1, v1⟩ := hd
      by_cases hk : k1 = k
      · subst hk; simp [lookupA] at h
      · simp [lookupA, hk] at h
        simp [setA, hk, ih h]

theorem lookupA_isSome_setA {κ : Type} [DecidableEq κ] (k k1 : κ) (v : β) (l : List (κ × β))
    (h : (lookupA k1 l).isSome) : (lookupA k1 (setA k v l)).isSome := by
  by_cases hk : k1 = k
  · subst hk; simp [lookupA_setA_self]
  · rwa [lookupA_setA_ne _ _ _ _ hk]

theorem lookupA_append_left {κ : Type} [DecidableEq κ] (k : κ) (l1 l2 : List (κ × β))
    (h : lookupA k l1 = some v) : lookupA k (l1 ++ l2) = some v := by
  induction l1 with
  | nil => simp [lookupA] at h
  | cons hd t ih =>
      obtain ⟨k1, v1⟩ := hd
      by_cases hk : k1 = k
      · subst hk; simp_all [lookupA]
      · simp [lookupA, hk] at h ⊢; exact ih h

/-
C5.  Sequence assignment and freshness of the append path.
-/

theorem digitChar_isDigit (d : Nat) (h : d < 10) : (digitChar d).isDigit = true := by
  interval_cases d <;> decide

theorem digitChar_toNat (d : Nat) (h : d < 10) : (digitChar d).toNat = 48 + d := by
  interval_cases d <;> decide

theorem natDigitsGo_all_digits (fuel : Nat) :
    ∀ n, n < fuel → ∀ c ∈ natDigitsGo fuel n, c.isDigit = true := by
  induction fuel with
  | zero => intro n h; omega
  | succ f ih =>
      intro n h c hc
      by_cases h10 : n < 10
      · simp [natDigitsGo, h10] at hc
        exact hc ▸ digitChar_isDigit n h10
      · simp [natDigitsGo, h10] at hc
        rcases hc with hc | hc
        · have hdiv : n / 10 < n := Nat.div_lt_self (by omega) (by omega)
          exact ih (n / 10) (by omega) c hc
        · exact hc ▸ digitChar_isDigit (n % 10) (Nat.mod_lt n (by omega))

theorem natFromDigits_append (ds : List Char) (c : Char) :
    natFromDigits (ds ++ [c]) = 10 * natFromDigits ds + (c.toNat - 48) := by
  unfold natFromDigits
  rw [List.foldl_append]
  rfl

theorem natFromDigits_natDigitsGo (fuel : Nat) :
    ∀ n, n < fuel → natFromDigits (natDigitsGo fuel n) = n := by
  induction fuel with
  | zero => intro n h; omega
  | succ f ih =>
      intro n h
      by_cases h10 : n < 10
      · show natFromDigits (natDigitsGo (f + 1) n) = n
        rw [show natDigitsGo (f + 1) n = [digitChar n] by simp [natDigitsGo, h10]]
        show 10 * 0 + ((digitChar n).toNat - 48) = n
        rw [digitChar_toNat n h10]
        omega
      · have hdiv : n / 10 < n := Nat.div_lt_self (by omega) (by omega)
        rw [show natDigitsGo (f + 1) n = natDigitsGo f (n / 10) ++ [digitChar (n % 10)] by
          simp [natDigitsGo, h10]]
        rw [natFromDigits_append, ih (n / 10) (by omega),
          digitChar_toNat (n % 10) (Nat.mod_lt n (by omega))]
        omega

theorem natDigitsGo_length (fuel : Nat) :
    ∀ n k, n < fuel → n < 10 ^ k → 1 ≤ k → (natDigitsGo fuel n).length ≤ k := by
  induction fuel with
  | zero => intro n k h; omega
  | succ f ih =>
      intro n k h hk h1
      by_cases h10 : n < 10
      · rw [show natDigitsGo (f + 1) n = [digitChar n] by simp [natDigitsGo, h10]]
        simpa using h1
      · have hdiv : n / 10 < n := Nat.div_lt_self (by omega) (by omega)
        rw [show natDigitsGo (f + 1) n = natDigitsGo f (n / 10) ++ [digitChar (n % 10)] by
          simp [natDigitsGo, h10]]
        cases k with
        | zero => omega
        | succ k1 =>
            have hk1 : 1 ≤ k1 := by
              by_contra hcon
              have : k1 = 0 := by omega
              subst this
              simp at hk
              omega
            have hdivk : n / 10 < 10 ^ k1 := by
              refine Nat.div_lt_of_lt_mul ?_
              calc n < 10 ^ (k1 + 1) := hk
                _ = 10 * 10 ^ k1 := by ring
            have := ih (n / 10) k1 (by omega) hdivk hk1
            simp [List.length_append]
            omega

theorem natDigits_all_digits (n : Nat) : ∀ c ∈ natDigits n, c.isDigit = true :=
  natDigitsGo_all_digits (n + 1) n (Nat.lt_succ_self n)

theorem natFromDigits_natDigits (n : Nat) : natFromDigits (natDigits n) = n :=
  natFromDigits_natDigitsGo (n + 1) n (Nat.lt_succ_self n)

theorem natDigits_length (n k : Nat) (hk : n < 10 ^ k) (h1 : 1 ≤ k) :
    (natDigits n).length ≤ k :=
  natDigitsGo_length (n + 1) n k (Nat.lt_succ_self n) hk h1

theorem natFromDigits_replicate_zero (m : Nat) :
    natFromDigits (List.replicate m '0') = 0 := by
  induction m with
  | zero => rfl
  | succ m1 ih =>
      show natFromDigits (List.replicate (m1 + 1) '0') = 0
      rw [List.replicate_succ]
      show List.foldl _ (10 * 0 + ('0'.toNat - 48)) (List.replicate m1 '0') = 0
      exact ih

theorem natFromDigits_pad (m : Nat) (ds : List Char) :
    natFromDigits (List.replicate m '0' ++ ds) = natFromDigits ds := by
  unfold natFromDigits
  rw [List.foldl_append]
  rw [show List.foldl _ 0 (List.replicate m '0') = 0 from natFromDigits_replicate_zero m]

theorem padSeq_data (s : Nat) :
    (padSeq s).data = List.replicate (16 - (natDigits s).length) '0' ++ natDigits s := rfl

theorem padSeq_length (s : Nat) (h : s < 10 ^ 16) : (padSeq s).data.length = 16 := by
  rw [padSeq_data]
  have := natDigits_length s 16 h (by omega)
  simp [List.length_append, List.length_replicate]
  omega

/-- Parsing the generated filename recovers the sequence number, for any
sequence number whose decimal form fits in the sixteen-digit padding. -/
theorem parse_opFilename (s : Nat) (opId : String) (h : s < 10 ^ 16) :
    parseSeqFromFilename (opFilename s opId) = some s := by
  have hdata : (opFilename s opId).data =
      (padSeq s).data ++ ('-' :: (opId.data ++ ['.', 'j', 's', 'o', 'n'])) := by
    unfold opFilename
    rw [String.data_append, String.data_append, String.data_append]
    simp
  unfold parseSeqFromFilename
  rw [hdata]
  have hlen : (padSeq s).data.length = 16 := padSeq_length s h
  rw [show List.take 16 ((padSeq s).data ++ ('-' :: (opId.data ++ ['.', 'j', 's', 'o', 'n']))) =
        (padSeq s).data by rw [← hlen]; exact List.take_left _ _]
  rw [show List.drop 16 ((padSeq s).data ++ ('-' :: (opId.data ++ ['.', 'j', 's', 'o', 'n']))) =
        ('-' :: (opId.data ++ ['.', 'j', 's', 'o', 'n'])) by rw [← hlen]; exact List.drop_left _ _]
  have hdig : (padSeq s).data.all Char.isDigit = true := by
    rw [padSeq_data]
    rw [List.all_eq_true]
    intro c hc
    rcases List.mem_append.mp hc with hc | hc
    · rw [List.eq_of_mem_replicate hc]; decide
    · exact natDigits_all_digits s c hc
  rw [if_pos ⟨hlen, hdig, rfl⟩]
  rw [padSeq_data, natFromDigits_pad, natFromDigits_natDigits]

theorem foldlMax_init_le (dir : List (String × Op)) : ∀ acc : Nat,
    acc ≤ dir.foldl (fun m e =>
      match parseSeqFromFilename e.1 with
      | some s => if s > m then s else m
      | none => m) acc := by
  induction dir with
  | nil => intro acc; exact le_refl acc
  | cons e t ih =>
      intro acc
      rw [List.foldl_cons]
      refine le_trans ?_ (ih _)
      cases hp : parseSeqFromFilename e.1 with
      | none => simp [hp]
      | some k =>
          by_cases hk : k > acc
          · simp [hp, hk]; omega
          · simp [hp, hk]

theorem parsed_le_foldlMax (dir : List (String × Op)) : ∀ (acc k : Nat) (e : String × Op),
    e ∈ dir → parseSeqFromFilename e.1 = some k →
    k ≤ dir.foldl (fun m e =>
      match parseSeqFromFilename e.1 with
      | some s => if s > m then s else m
      | none => m) acc := by
  induction dir with
  | nil => intro _ _ _ h; simp at h
  | cons hd t ih =>
      intro acc k e he hp
      rw [List.foldl_cons]
      rcases List.mem_cons.mp he with he | he
      · subst he
        refine le_trans ?_ (foldlMax_init_le t _)
        rw [hp]
        by_cases hk : k > acc
        · simp [hk]
        · simp [hk]; omega
      · exact ih _ k e he hp

theorem maxParsedSeq_zero_or_mem (dir : List (String × Op)) :
    maxParsedSeq dir = 0 ∨
      ∃ e ∈ dir, parseSeqFromFilename e.1 = some (maxParsedSeq dir) := by
  unfold maxParsedSeq
  suffices h : ∀ acc : Nat,
      dir.foldl (fun m e =>
        match parseSeqFromFilename e.1 with
        | some s => if s > m then s else m
        | none => m) acc = acc ∨
      ∃ e ∈ dir, parseSeqFromFilename e.1 = some
        (dir.foldl (fun m e =>
          match parseSeqFromFilename e.1 with
          | some s => if s > m then s else m
          | none => m) acc) by
    rcases h 0 with h0 | h0
    · exact Or.inl h0
    · exact Or.inr h0
  induction dir with
  | nil => intro acc; exact Or.inl rfl
  | cons hd t ih =>
      intro acc
      cases hp : parseSeqFromFilename hd.1 with
      | none =>
          rcases ih acc with h1 | h1
          · exact Or.inl (by simpa [List.foldl_cons, hp] using h1)
          · refine Or.inr ?_
            obtain ⟨e, he, hpe⟩ := h1
            exact ⟨e, List.mem_cons_of_mem hd he, by simpa [List.foldl_cons, hp] using hpe⟩
      | some k =>
          by_cases hk : k > acc
          · rcases ih k with h1 | h1
            · refine Or.inr ⟨hd, List.mem_cons_self hd t, ?_⟩
              rw [hp]
              congr 1
              simpa [List.foldl_cons, hp, hk] using h1.symm
            · obtain ⟨e, he, hpe⟩ := h1
              exact Or.inr ⟨e, List.mem_cons_of_mem hd he,
                by simpa [List.foldl_cons, hp, hk] using hpe⟩
          · rcases ih acc with h1 | h1
            · exact Or.inl (by simpa [List.foldl_cons, hp, hk] using h1)
            · obtain ⟨e, he, hpe⟩ := h1
              exact Or.inr ⟨e, List.mem_cons_of_mem hd he,
                by simpa [List.foldl_cons, hp, hk] using hpe⟩

theorem lookupA_eq_none_iff {κ : Type} [DecidableEq κ] (k : κ) (l : List (κ × β)) :
    lookupA k l = none ↔ k ∉ l.map Prod.fst := by
  induction l with
  | nil => simp [lookupA]
  | cons hd t ih =>
      obtain ⟨k1, v1⟩ := hd
      by_cases hk : k1 = k
      · subst hk; simp [lookupA]
      · have hkk : ¬ k = k1 := fun h => hk h.symm
        show (if k1 = k then some v1 else lookupA k t) = none ↔ _
        rw [if_neg hk, ih]
        simp [not_or, hkk]

/-- Core freshness property of the append path, shared by several claims:
the assigned seq, the non-existence of the target filename, and the
append-only shape of the new directory. -/
theorem appendOp_fresh (dir : List (String × Op)) (opId ts actorId : String)
    (payload : OpPayload)
    (hbound : ∀ e ∈ dir, ∀ k, parseSeqFromFilename e.1 = some k → k < 10 ^ 16 - 1) :
    (appendOp dir opId ts actorId payload).2.seq = maxParsedSeq dir + 1 ∧
    (dir = [] → (appendOp dir opId ts actorId payload).2.seq = 1) ∧
    opFilename (appendOp dir opId ts actorId payload).2.seq opId ∉ dir.map Prod.fst ∧
    (appendOp dir opId ts actorId payload).1 =
      dir ++ [(opFilename (appendOp dir opId ts actorId payload).2.seq opId,
        (appendOp dir opId ts actorId payload).2)] := by
  have hseq : (appendOp dir opId ts actorId payload).2.seq = maxParsedSeq dir + 1 := rfl
  have hmaxlt : maxParsedSeq dir + 1 < 10 ^ 16 := by
    rcases maxParsedSeq_zero_or_mem dir with h0 | ⟨e, he, hpe⟩
    · rw [h0]; norm_num
    · have := hbound e he _ hpe
      omega
  have hfresh : opFilename (maxParsedSeq dir + 1) opId ∉ dir.map Prod.fst := by
    intro hmem
    obtain ⟨e, he, hee⟩ := List.mem_map.mp hmem
    have hpe : parseSeqFromFilename e.1 = some (maxParsedSeq dir + 1) := by
      rw [hee]
      exact parse_opFilename _ _ hmaxlt
    have hle := parsed_le_foldlMax dir 0 _ e he hpe
    have hdef : maxParsedSeq dir = dir.foldl
        (fun m e =>
          match parseSeqFromFilename e.1 with
          | some s => if s > m then s else m
          | none => m) 0 := rfl
    omega
  refine ⟨hseq, fun _ => by subst ‹dir = []›; rfl, hseq ▸ hfresh, ?_⟩
  show renameInto dir (opFilename (maxParsedSeq dir + 1) opId) _ = _
  unfold renameInto
  rw [setA_absent_eq_append _ _ _ ((lookupA_eq_none_iff _ _).mpr hfresh)]
  rfl

/-- C5: appendOp assigns the new op the sequence number one plus the
maximum parsed from the existing filenames (1 for an empty directory), its
target filename does not already exist in the directory, and the new
directory is the old one with exactly the one new file appended, every
pre-existing file keeping its content.  The bound keeps the padded decimal
form inside sixteen digits, where filename parsing is exact. -/
theorem claim5_appendOp_fresh (dir : List (String × Op)) (opId ts actorId : String)
    (payload : OpPayload)
    (hbound : ∀ e ∈ dir, ∀ k, parseSeqFromFilename e.1 = some k → k < 10 ^ 16 - 1) :
    (appendOp dir opId ts actorId payload).2.seq = maxParsedSeq dir + 1 ∧
    (dir = [] → (appendOp dir opId ts actorId payload).2.seq = 1) ∧
    opFilename (appendOp dir opId ts actorId payload).2.seq opId ∉ dir.map Prod.fst ∧
    (appendOp dir opId ts actorId payload).1 =
      dir ++ [(opFilename (appendOp dir opId ts actorId payload).2.seq opId,
        (appendOp dir opId ts actorId payload).2)] :=
  appendOp_fresh dir opId ts actorId payload hbound

/-- Closed witness for C5: appending to a one-file directory yields seq 2
and leaves the existing file untouched. -/
theorem claim5_witness :
    (appendOp [(opFilename 1 "a", claim1WitnessOp1)] ("b") ("t2") ("alice")
        (.listCreated "B" "L" "Todo" 1000)).2.seq = maxParsedSeq [(opFilename 1 "a", claim1WitnessOp1)] + 1 ∧
    ([(opFilename 1 "a", claim1WitnessOp1)] = ([] : List (String × Op)) →
      (appendOp [(opFilename 1 "a", claim1WitnessOp1)] ("b") ("t2") ("alice")
        (.listCreated "B" "L" "Todo" 1000)).2.seq = 1) ∧
    opFilename (appendOp [(opFilename 1 "a", claim1WitnessOp1)] ("b") ("t2") ("alice")
        (.listCreated "B" "L" "Todo" 1000)).2.seq ("b") ∉
      [(opFilename 1 "a", claim1WitnessOp1)].map Prod.fst ∧
    (appendOp [(opFilename 1 "a", claim1WitnessOp1)] ("b") ("t2") ("alice")
        (.listCreated "B" "L" "Todo" 1000)).1 =
      [(opFilename 1 "a", claim1WitnessOp1)] ++
        [(opFilename (appendOp [(opFilename 1 "a", claim1WitnessOp1)] ("b") ("t2") ("alice")
            (.listCreated "B" "L" "Todo" 1000)).2.seq ("b"),
          (appendOp [(opFilename 1 "a", claim1WitnessOp1)] ("b") ("t2") ("alice")
            (.listCreated "B" "L" "Todo" 1000)).2)] :=
  claim5_appendOp_fresh [(opFilename 1 "a", claim1WitnessOp1)] ("b") ("t2") ("alice")
    (.listCreated "B" "L" "Todo" 1000) (by decide)

/-
Frame lemmas for the in-place entity modifiers.
-/

@[simp] theorem modifyList_memberships (lid : String) (f : BoardList → BoardList) (s : State) :
    (modifyList lid f s).memberships = s.memberships := by
  unfold modifyList
  cases lookupA lid s.lists <;> rfl

@[simp] theorem modifyList_boards (lid : String) (f : BoardList → BoardList) (s : State) :
    (modifyList lid f s).boards = s.boards := by
  unfold modifyList
  cases lookupA lid s.lists <;> rfl

@[simp] theorem modifyList_cards (lid : String) (f : BoardList → BoardList) (s : State) :
    (modifyList lid f s).cards = s.cards := by
  unfold modifyList
  cases lookupA lid s.lists <;> rfl

@[simp] theorem modifyList_workspaces (lid : String) (f : BoardList → BoardList) (s : State) :
    (modifyList lid f s).workspaces = s.workspaces := by
  unfold modifyList
  cases lookupA lid s.lists <;> rfl

@[simp] theorem modifyList_comments (lid : String) (f : BoardList → BoardList) (s : State) :
    (modifyList lid f s).commentsByCardId = s.commentsByCardId := by
  unfold modifyList
  cases lookupA lid s.lists <;> rfl

@[simp] theorem modifyList_conflicts (lid : String) (f : BoardList → BoardList) (s : State) :
    (modifyList lid f s).conflicts = s.conflicts := by
  unfold modifyList
  cases lookupA lid s.lists <;> rfl

@[simp] theorem modifyBoard_memberships (bid : String) (f : Board → Board) (s : State) :
    (modifyBoard bid f s).memberships = s.memberships := by
  unfold modifyBoard
  cases lookupA bid s.boards <;> rfl

@[simp] theorem modifyBoard_lists (bid : String) (f : Board → Board) (s : State) :
    (modifyBoard bid f s).lists = s.lists := by
  unfold modifyBoard
  cases lookupA bid s.boards <;> rfl

@[simp] theorem modifyBoard_cards (bid : String) (f : Board → Board) (s : State) :
    (modifyBoard bid f s).cards = s.cards := by
  unfold modifyBoard
  cases lookupA bid s.boards <;> rfl

@[simp] theorem modifyBoard_workspaces (bid : String) (f : Board → Board) (s : State) :
    (modifyBoard bid f s).workspaces = s.workspaces := by
  unfold modifyBoard
  cases lookupA bid s.boards <;> rfl

@[simp] theorem modifyBoard_conflicts (bid : String) (f : Board → Board) (s : State) :
    (modifyBoard bid f s).conflicts = s.conflicts := by
  unfold modifyBoard
  cases lookupA bid s.boards <;> rfl

@[simp] theorem modifyBoard_comments (bid : String) (f : Board → Board) (s : State) :
    (modifyBoard bid f s).commentsByCardId = s.commentsByCardId := by
  unfold modifyBoard
  cases lookupA bid s.boards <;> rfl

@[simp] theorem modifyCard_memberships (cid : String) (f : Card → Card) (s : State) :
    (modifyCard cid f s).memberships = s.memberships := by
  unfold modifyCard
  cases lookupA cid s.cards <;> rfl

@[simp] theorem modifyCard_lists (cid : String) (f : Card → Card) (s : State) :
    (modifyCard cid f s).lists = s.lists := by
  unfold modifyCard
  cases lookupA cid s.cards <;> rfl

@[simp] theorem modifyCard_boards (cid : String) (f : Card → Card) (s : State) :
    (modifyCard cid f s).boards = s.boards := by
  unfold modifyCard
  cases lookupA cid s.cards <;> rfl

@[simp] theorem modifyCard_workspaces (cid : String) (f : Card → Card) (s : State) :
    (modifyCard cid f s).workspaces = s.workspaces := by
  unfold modifyCard
  cases lookupA cid s.cards <;> rfl

@[simp] theorem modifyCard_conflicts (cid : String) (f : Card → Card) (s : State) :
    (modifyCard cid f s).conflicts = s.conflicts := by
  unfold modifyCard
  cases lookupA cid s.cards <;> rfl

@[simp] theorem modifyCard_comments (cid : String) (f : Card → Card) (s : State) :
    (modifyCard cid f s).commentsByCardId = s.commentsByCardId := by
  unfold modifyCard
  cases lookupA cid s.cards <;> rfl

@[simp] theorem modifyWorkspace_memberships (wid : String) (f : Workspace → Workspace) (s : State) :
    (modifyWorkspace wid f s).memberships = s.memberships := by
  unfold modifyWorkspace
  cases lookupA wid s.workspaces <;> rfl

@[simp] theorem modifyWorkspace_lists (wid : String) (f : Workspace → Workspace) (s : State) :
    (modifyWorkspace wid f s).lists = s.lists := by
  unfold modifyWorkspace
  cases lookupA wid s.workspaces <;> rfl

@[simp] theorem modifyWorkspace_boards (wid : String) (f : Workspace → Workspace) (s : State) :
    (modifyWorkspace wid f s).boards = s.boards := by
  unfold modifyWorkspace
  cases lookupA wid s.workspaces <;> rfl

@[simp] theorem modifyWorkspace_cards (wid : String) (f : Workspace → Workspace) (s : State) :
    (modifyWorkspace wid f s).cards = s.cards := by
  unfold modifyWorkspace
  cases lookupA wid s.workspaces <;> rfl

@[simp] theorem modifyWorkspace_conflicts (wid : String) (f : Workspace → Workspace) (s : State) :
    (modifyWorkspace wid f s).conflicts = s.conflicts := by
  unfold modifyWorkspace
  cases lookupA wid s.workspaces <;> rfl

@[simp] theorem modifyWorkspace_comments (wid : String) (f : Workspace → Workspace) (s : State) :
    (modifyWorkspace wid f s).commentsByCardId = s.commentsByCardId := by
  unfold modifyWorkspace
  cases lookupA wid s.workspaces <;> rfl

/-
C2.  Conflict detection for one seq group.
-/

theorem addWrite_lookup (w : Write) (k : String × String × String) :
    ∀ acc, lookupA k (addWrite acc w) =
      if k = conflictKey w then some ((lookupA k acc).getD [] ++ [w]) else lookupA k acc := by
  intro acc
  induction acc with
  | nil =>
      by_cases hk : k = conflictKey w
      · simp [addWrite, lookupA, hk]
      · rw [if_neg hk]
        show (if conflictKey w = k then some [w] else none) = none
        rw [if_neg (fun h => hk h.symm)]
  | cons hd t ih =>
      obtain ⟨k1, g⟩ := hd
      by_cases h1 : k1 = conflictKey w
      · show lookupA k (if k1 = conflictKey w then (k1, g ++ [w]) :: t else _) = _
        rw [if_pos h1]
        by_cases hk2 : k1 = k
        · subst hk2
          rw [if_pos h1]
          simp [lookupA]
        · have hk3 : ¬ k = conflictKey w := fun h => hk2 (h1.trans h.symm)
          rw [if_neg hk3]
          simp [lookupA, hk2]
      · show lookupA k (if k1 = conflictKey w then _ else (k1, g) :: addWrite t w) = _
        rw [if_neg h1]
        by_cases hk2 : k1 = k
        · subst hk2
          have hk3 : ¬ k1 = conflictKey w := h1
          rw [if_neg hk3]
          simp [lookupA]
        · show (if k1 = k then some g else lookupA k (addWrite t w)) = _
          rw [if_neg hk2, ih]
          by_cases hk4 : k = conflictKey w
          · rw [if_pos hk4, if_pos hk4]
            show _ = some ((if k1 = k then some g else lookupA k t).getD [] ++ [w])
            rw [if_neg hk2]
          · rw [if_neg hk4, if_neg hk4]
            show lookupA k t = (if k1 = k then some g else lookupA k t)
            rw [if_neg hk2]

theorem foldl_addWrite_lookup (ws : List Write) :
    ∀ (acc : List ((String × String × String) × List Write)) (k : String × String × String),
      lookupA k (ws.foldl addWrite acc) =
        match lookupA k acc with
        | some g => some (g ++ ws.filter (fun w => decide (conflictKey w = k)))
        | none =>
            if ws.filter (fun w => decide (conflictKey w = k)) = [] then none
            else some (ws.filter (fun w => decide (conflictKey w = k))) := by
  induction ws with
  | nil =>
      intro acc k
      cases hacc : lookupA k acc with
      | some g => simp [hacc]
      | none => simp [hacc]
  | cons w rest ih =>
      intro acc k
      rw [List.foldl_cons, ih]
      by_cases hk : conflictKey w = k
      · rw [addWrite_lookup w k acc, if_pos hk.symm]
        rw [show rest.filter (fun w2 => decide (conflictKey w2 = k)) =
          ((w :: rest).filter (fun w2 => decide (conflictKey w2 = k))).tail by
            simp [List.filter_cons, hk]]
        cases hacc : lookupA k acc with
        | some g => simp [List.filter_cons, hk]
        | none => simp [List.filter_cons, hk]
      · rw [addWrite_lookup w k acc, if_neg (fun h => hk h.symm)]
        rw [show (w :: rest).filter (fun w2 => decide (conflictKey w2 = k)) =
          rest.filter (fun w2 => decide (conflictKey w2 = k)) by simp [List.filter_cons, hk]]

theorem groupWrites_lookup (ws : List Write) (k : String × String × String) :
    lookupA k (groupWrites ws) =
      if ws.filter (fun w => decide (conflictKey w = k)) = [] then none
      else some (ws.filter (fun w => decide (conflictKey w = k))) := by
  unfold groupWrites
  rw [foldl_addWrite_lookup ws [] k]
  rfl

theorem addWrite_keys (w : Write) :
    ∀ acc, (addWrite acc w).map Prod.fst =
      if (lookupA (conflictKey w) acc).isSome then acc.map Prod.fst
      else acc.map Prod.fst ++ [conflictKey w] := by
  intro acc
  induction acc with
  | nil => simp [addWrite, lookupA]
  | cons hd t ih =>
      obtain ⟨k1, g⟩ := hd
      by_cases h1 : k1 = conflictKey w
      · show ((if k1 = conflictKey w then (k1, g ++ [w]) :: t else _).map Prod.fst) = _
        rw [if_pos h1]
        have : (lookupA (conflictKey w) ((k1, g) :: t)).isSome = true := by
          simp [lookupA, h1]
        rw [this]
        simp
      · show ((if k1 = conflictKey w then _ else (k1, g) :: addWrite t w).map Prod.fst) = _
        rw [if_neg h1]
        have hl : lookupA (conflictKey w) ((k1, g) :: t) = lookupA (conflictKey w) t := by
          simp [lookupA, h1]
        rw [hl]
        cases ht : (lookupA (conflictKey w) t).isSome with
        | true => simp [ih, ht]
        | false => simp [ih, ht]

theorem foldl_addWrite_keys_nodup (ws : List Write) :
    ∀ acc, ((acc.map Prod.fst).Nodup) → (((ws.foldl addWrite acc).map Prod.fst).Nodup) := by
  induction ws with
  | nil => intro acc h; exact h
  | cons w rest ih =>
      intro acc h
      rw [List.foldl_cons]
      refine ih _ ?_
      rw [addWrite_keys w acc]
      cases hs : (lookupA (conflictKey w) acc).isSome with
      | true => simpa [hs] using h
      | false =>
          have hnone : lookupA (conflictKey w) acc = none := by
            cases hl : lookupA (conflictKey w) acc with
            | none => rfl
            | some g => rw [hl] at hs; simp at hs
          have hnot : conflictKey w ∉ acc.map Prod.fst :=
            (lookupA_eq_none_iff _ _).mp hnone
          simp [hs, List.nodup_append, h, hnot]

theorem groupWrites_keys_nodup (ws : List Write) :
    ((groupWrites ws).map Prod.fst).Nodup :=
  foldl_addWrite_keys_nodup ws [] (by simp)

theorem mem_iff_lookupA {κ : Type} [DecidableEq κ] (l : List (κ × β))
    (hnd : (l.map Prod.fst).Nodup) (k : κ) (v : β) :
    (k, v) ∈ l ↔ lookupA k l = some v := by
  induction l with
  | nil => simp [lookupA]
  | cons hd t ih =>
      obtain ⟨k1, v1⟩ := hd
      have hnd1 : (k1 :: t.map Prod.fst).Nodup := by simpa using hnd
      have hihnd : (t.map Prod.fst).Nodup := (List.nodup_cons.mp hnd1).2
      by_cases hk : k1 = k
      · subst hk
        show _ ↔ (if k1 = k1 then some v1 else lookupA k1 t) = some v
        rw [if_pos rfl]
        constructor
        · intro h
          rcases List.mem_cons.mp h with h | h
          · have hv : v = v1 := congrArg Prod.snd h
            rw [hv]
          · exact absurd (List.mem_map_of_mem Prod.fst h)
              (by simpa using (List.nodup_cons.mp hnd1).1)
        · intro h
          have hv : v1 = v := Option.some.inj h
          subst hv
          exact List.mem_cons_self _ _
      · show _ ↔ (if k1 = k then some v1 else lookupA k t) = some v
        rw [if_neg hk, ← ih hihnd]
        constructor
        · intro h
          rcases List.mem_cons.mp h with h | h
          · exact absurd (congrArg Prod.fst h).symm hk
          · exact h
        · exact fun h => List.mem_cons_of_mem _ h

theorem countP_filterMap {α β : Type} (f : α → Option β) (p : β → Bool) (l : List α) :
    (l.filterMap f).countP p = l.countP (fun a => ((f a).map p).getD false) := by
  induction l with
  | nil => rfl
  | cons hd t ih =>
      cases hf : f hd with
      | none => simp [List.filterMap_cons, hf, List.countP_cons, ih]
      | some b => simp [List.filterMap_cons, hf, List.countP_cons, ih]

theorem countP_assoc_unique {κ : Type} [DecidableEq κ] (l : List (κ × β)) (k : κ)
    (hnd : (l.map Prod.fst).Nodup) (q : κ × β → Bool)
    (hq : ∀ p, q p = true → p.1 = k) :
    l.countP q =
      match lookupA k l with
      | some v => if q (k, v) then 1 else 0
      | none => 0 := by
  induction l with
  | nil => rfl
  | cons hd t ih =>
      obtain ⟨k1, v1⟩ := hd
      have hnd1 : (k1 :: t.map Prod.fst).Nodup := by simpa using hnd
      by_cases hk : k1 = k
      · subst hk
        show List.countP q ((k1, v1) :: t) =
          match lookupA k1 ((k1, v1) :: t) with
          | some v => if q (k1, v) then 1 else 0
          | none => 0
        have htz : t.countP q = 0 := by
          rw [List.countP_eq_zero]
          intro p hp hqp
          have := hq p hqp
          have hmem := List.mem_map_of_mem Prod.fst hp
          rw [this] at hmem
          exact absurd hmem (by simpa using (List.nodup_cons.mp hnd1).1)
        rw [List.countP_cons, htz]
        show 0 + _ = match (if k1 = k1 then some v1 else lookupA k1 t) with
          | some v => if q (k1, v) then 1 else 0
          | none => 0
        rw [if_pos rfl]
        cases hq2 : q (k1, v1) <;> simp [hq2]
      · show List.countP q ((k1, v1) :: t) = _
        have hq1 : q (k1, v1) = false := by
          cases hqv : q (k1, v1) with
          | false => rfl
          | true => exact absurd (hq _ hqv) hk
        rw [List.countP_cons, hq1]
        show t.countP q + 0 = match (if k1 = k then some v1 else lookupA k t) with
          | some v => if q (k, v) then 1 else 0
          | none => 0
        rw [if_neg hk]
        rw [ih (by simpa using (List.nodup_cons.mp hnd1).2)]
        omega

theorem conflictForGroup_some_iff (k : String × String × String) (g : List Write) (c : Conflict) :
    conflictForGroup (k, g) = some c ↔
      (2 ≤ g.length ∧ 2 ≤ distinctValueCount g ∧
        ∃ sample rest, g = sample :: rest ∧ c = mkConflict k g sample) := by
  unfold conflictForGroup
  by_cases h1 : g.length ≤ 1
  · simp only [if_pos h1]
    constructor
    · intro h; exact absurd h (by simp)
    · rintro ⟨h2, _⟩; omega
  · simp only [if_neg h1]
    by_cases h2 : distinctValueCount g ≤ 1
    · simp only [if_pos h2]
      constructor
      · intro h; exact absurd h (by simp)
      · rintro ⟨_, h3, _⟩; omega
    · simp only [if_neg h2]
      cases g with
      | nil => simp at h1
      | cons sample rest =>
          simp only [Option.some_inj]
          constructor
          · intro h
            exact ⟨by omega, by omega, sample, rest, rfl, h.symm⟩
          · rintro ⟨_, _, s2, r2, hg, hc⟩
            obtain ⟨hs, hr⟩ := List.cons.inj hg
            subst hs
            exact hc.symm

theorem countP_assoc_unique_none {κ : Type} [DecidableEq κ] (l : List (κ × β)) (k : κ)
    (hnd : (l.map Prod.fst).Nodup) (q : κ × β → Bool)
    (hq : ∀ p, q p = true → p.1 = k) (hl : lookupA k l = none) :
    l.countP q = 0 := by
  have h := countP_assoc_unique l k hnd q hq
  rw [hl] at h
  exact h

theorem countP_assoc_unique_some {κ : Type} [DecidableEq κ] (l : List (κ × β)) (k : κ) (v : β)
    (hnd : (l.map Prod.fst).Nodup) (q : κ × β → Bool)
    (hq : ∀ p, q p = true → p.1 = k) (hl : lookupA k l = some v) :
    l.countP q = if q (k, v) then 1 else 0 := by
  have h := countP_assoc_unique l k hnd q hq
  rw [hl] at h
  exact h

theorem length_filter_le_one_of_keys_pairwise (l : List Write) (k : String × String × String)
    (h : List.Pairwise (fun a b => conflictKey a ≠ conflictKey b) l) :
    (l.filter (fun w => decide (conflictKey w = k))).length ≤ 1 := by
  induction l with
  | nil => simp
  | cons w t ih =>
      have hpw := List.pairwise_cons.mp h
      by_cases hk : conflictKey w = k
      · have htz : t.filter (fun w2 => decide (conflictKey w2 = k)) = [] := by
          rw [List.filter_eq_nil_iff]
          intro w2 hw2
          simp only [decide_eq_true_eq]
          intro hk2
          exact hpw.1 w2 hw2 (hk.trans hk2.symm)
        simp [List.filter_cons, hk, htz]
      · simp only [List.filter_cons, decide_eq_true_eq, hk, if_false]
        exact ih hpw.2

theorem writesForOp_keys_pairwise (op : Op) :
    List.Pairwise (fun a b => conflictKey a ≠ conflictKey b) (writesForOp op) := by
  obtain ⟨opId, seq, ts, actorId, payload⟩ := op
  cases payload with
  | cardUpdated cardId title description dueDate labels =>
      rcases title with _ | tt <;> rcases description with _ | dd <;>
        rcases dueDate with _ | (_ | ds) <;> rcases labels with _ | ls <;>
        simp [writesForOp, conflictKey, mkWrite]
  | cardMoved cardId fromListId toListId position =>
      simp [writesForOp, conflictKey, mkWrite]
  | _ => simp [writesForOp]

theorem writesForOp_key_count (op : Op) (k : String × String × String) :
    ((writesForOp op).filter (fun w => decide (conflictKey w = k))).length ≤ 1 :=
  length_filter_le_one_of_keys_pairwise _ k (writesForOp_keys_pairwise op)

/-- C2: for every op group and every conflict key, detection emits exactly
one Conflict with that (entityType, entityId, field) when the group has at
least two writes to the key spanning at least two distinct
stable-serialized values, and none otherwise; and any such emitted Conflict
carries every contributing write in group order. -/
theorem claim2_conflict_detection_iff (ops : List Op) (t e f : String) :
    ((detectConflictsForSeqGroup ops).countP
        (fun c => decide (c.entityType = t ∧ c.entityId = e ∧ c.field = f)) =
      if 2 ≤ (keyWrites t e f ops).length ∧ 2 ≤ distinctValueCount (keyWrites t e f ops)
      then 1 else 0) ∧
    (∀ c ∈ detectConflictsForSeqGroup ops,
      c.entityType = t → c.entityId = e → c.field = f →
      c.ops = (keyWrites t e f ops).map writeRef) := by
  have hkweq : keyWrites t e f ops =
      (ops.flatMap writesForOp).filter (fun w => decide (conflictKey w = (t, e, f))) := rfl
  constructor
  · by_cases hlen : ops.length ≤ 1
    · rw [show detectConflictsForSeqGroup ops = [] by
        unfold detectConflictsForSeqGroup; rw [if_pos hlen]]
      have hkw : (keyWrites t e f ops).length ≤ 1 := by
        cases ops with
        | nil => simp [keyWrites]
        | cons op rest =>
            have hr : rest = [] := by
              cases rest with
              | nil => rfl
              | cons b r => simp at hlen
            subst hr
            rw [hkweq]
            simpa using writesForOp_key_count op (t, e, f)
      rw [if_neg (fun hcond => by omega)]
      rfl
    · rw [show detectConflictsForSeqGroup ops =
          List.insertionSort conflictIdLe
            ((groupWrites (ops.flatMap writesForOp)).filterMap conflictForGroup) by
        unfold detectConflictsForSeqGroup; rw [if_neg hlen]]
      rw [(List.perm_insertionSort conflictIdLe _).countP_eq]
      rw [countP_filterMap]
      have hq : ∀ p : (String × String × String) × List Write,
          ((Option.map (fun c => decide (c.entityType = t ∧ c.entityId = e ∧ c.field = f))
            (conflictForGroup p)).getD false) = true → p.1 = (t, e, f) := by
        rintro ⟨k, g⟩ hq
        cases hcg : conflictForGroup (k, g) with
        | none => rw [hcg] at hq; simp at hq
        | some c =>
            rw [hcg] at hq
            simp only [Option.map_some', Option.getD_some, decide_eq_true_eq] at hq
            obtain ⟨_, _, sample, rest, hg, hcm⟩ := (conflictForGroup_some_iff k g c).mp hcg
            subst hcm
            simp only [mkConflict] at hq
            obtain ⟨h1, h2, h3⟩ := hq
            obtain ⟨k1, k2, k3⟩ := k
            simp only at h1 h2 h3
            rw [h1, h2, h3]
      have hbk := groupWrites_lookup (ops.flatMap writesForOp) (t, e, f)
      by_cases hnil : (ops.flatMap writesForOp).filter
          (fun w => decide (conflictKey w = (t, e, f))) = []
      · have hlook : lookupA (t, e, f) (groupWrites (ops.flatMap writesForOp)) = none := by
          rw [hbk, if_pos hnil]
        rw [countP_assoc_unique_none _ _ (groupWrites_keys_nodup _) _ hq hlook]
        rw [if_neg (fun hcond => by rw [hkweq, hnil] at hcond; simp at hcond)]
      · have hlook : lookupA (t, e, f) (groupWrites (ops.flatMap writesForOp)) =
            some (keyWrites t e f ops) := by
          rw [hbk, if_neg hnil, hkweq]
        rw [countP_assoc_unique_some _ _ _ (groupWrites_keys_nodup _) _ hq hlook]
        by_cases hcond : 2 ≤ (keyWrites t e f ops).length ∧
            2 ≤ distinctValueCount (keyWrites t e f ops)
        · rw [if_pos hcond]
          rcases hkw2 : keyWrites t e f ops with _ | ⟨sample, rest⟩
          · rw [hkweq] at hkw2; exact absurd hkw2 hnil
          · have hsome : conflictForGroup ((t, e, f), keyWrites t e f ops) =
                some (mkConflict (t, e, f) (keyWrites t e f ops) sample) := by
              rw [conflictForGroup_some_iff]
              exact ⟨hcond.1, hcond.2, sample, rest, hkw2, rfl⟩
            rw [← hkw2, hsome]
            simp [mkConflict]
        · rw [if_neg hcond]
          have hnone : conflictForGroup ((t, e, f), keyWrites t e f ops) = none := by
            cases hcg : conflictForGroup ((t, e, f), keyWrites t e f ops) with
            | none => rfl
            | some c =>
                obtain ⟨h1, h2, _⟩ := (conflictForGroup_some_iff _ _ c).mp hcg
                exact absurd ⟨h1, h2⟩ hcond
          rw [hnone]
          simp
  · intro c hc hct hce hcf
    by_cases hlen : ops.length ≤ 1
    · rw [show detectConflictsForSeqGroup ops = [] by
        unfold detectConflictsForSeqGroup; rw [if_pos hlen]] at hc
      exact absurd hc (by simp)
    · rw [show detectConflictsForSeqGroup ops =
          List.insertionSort conflictIdLe
            ((groupWrites (ops.flatMap writesForOp)).filterMap conflictForGroup) by
        unfold detectConflictsForSeqGroup; rw [if_neg hlen]] at hc
      have hc2 := (List.perm_insertionSort conflictIdLe _).mem_iff.mp hc
      obtain ⟨⟨k, g⟩, hkg, hcg⟩ := List.mem_filterMap.mp hc2
      obtain ⟨hg2, hd2, sample, rest, hgeq, hcm⟩ := (conflictForGroup_some_iff k g c).mp hcg
      have hk : k = (t, e, f) := by
        obtain ⟨k1, k2, k3⟩ := k
        subst hcm
        simp only [mkConflict] at hct hce hcf
        rw [hct, hce, hcf]
      subst hk
      have hlook : lookupA (t, e, f) (groupWrites (ops.flatMap writesForOp)) = some g :=
        (mem_iff_lookupA _ (groupWrites_keys_nodup _) _ _).mp hkg
      rw [groupWrites_lookup] at hlook
      have hgeq2 : g = keyWrites t e f ops := by
        by_cases hnil : (ops.flatMap writesForOp).filter
            (fun w => decide (conflictKey w = (t, e, f))) = []
        · rw [if_pos hnil] at hlook; exact absurd hlook (by simp)
        · rw [if_neg hnil] at hlook
          rw [hkweq]
          exact (Option.some.inj hlook).symm
      subst hcm
      show (g.map writeRef) = _
      rw [hgeq2]

/-- Closed witness for C2: the spec's example group (equal seq, two
card.updated ops with different titles on one card) produces exactly one
title conflict listing both writes. -/
theorem claim2_witness :
    (detectConflictsForSeqGroup c2group).countP
        (fun c => decide (c.entityType = "card" ∧ c.entityId = "c1" ∧ c.field = "title")) = 1 ∧
    (∀ c ∈ detectConflictsForSeqGroup c2group,
      c.entityType = "card" → c.entityId = "c1" → c.field = "title" →
      c.ops = (keyWrites ("card") ("c1") ("title") c2group).map writeRef) := by
  have h := claim2_conflict_detection_iff c2group ("card") ("c1") ("title")
  exact ⟨h.1.trans (by decide), h.2⟩

/-
C10.  Membership fold rules: member.added is first-write-wins.
-/

theorem roleOf_preserved (s : State) (b m : String) (r : Role) (op : Op)
    (hr : roleOf s b m = some r)
    (hnot : ∀ role2 : Role, op.payload ≠ .memberRoleChanged b m role2) :
    roleOf (applyOp s op) b m = some r := by
  obtain ⟨opId, seqn, ts, actorId, payload⟩ := op
  unfold roleOf at hr ⊢
  cases payload with
  | boardCreated wsId bId nm =>
      by_cases hbb : bId = b
      · subst hbb
        cases hw : lookupA wsId s.workspaces <;> cases hb : lookupA bId s.boards <;>
        · simp only [applyOp, hw, hb, modifyWorkspace_memberships]
          rw [lookupA_setA_self]
          simp only [Option.getD_some]
          cases hact : lookupA actorId ((lookupA bId s.memberships).getD []) with
          | some r2 => exact hr
          | none =>
              by_cases ham : m = actorId
              · subst ham
                rw [hact] at hr
                exact absurd hr (by simp)
              · show lookupA m
                  (setA actorId Role.editor ((lookupA bId s.memberships).getD [])) = some r
                rw [lookupA_setA_ne _ _ _ _ ham]
                exact hr
      · cases hw : lookupA wsId s.workspaces <;> cases hb : lookupA bId s.boards <;>
        · simp only [applyOp, hw, hb, modifyWorkspace_memberships]
          rw [lookupA_setA_ne _ _ _ _ (fun h => hbb h.symm)]
          exact hr
  | boardRenamed bId nm =>
      simpa only [applyOp, roleOf, modifyBoard_memberships] using hr
  | listCreated bId lId nm posn =>
      cases hb : lookupA bId s.boards with
      | none => simpa only [applyOp, hb] using hr
      | some b0 =>
          cases hl : lookupA lId s.lists with
          | none =>
              simpa only [applyOp, hb, hl, roleOf, modifyBoard_memberships] using hr
          | some l0 =>
              simpa only [applyOp, hb, hl, roleOf, modifyBoard_memberships] using hr
  | listRenamed lId nm =>
      simpa only [applyOp, roleOf, modifyList_memberships] using hr
  | listMoved lId posn =>
      cases hl : lookupA lId s.lists with
      | none => simpa only [applyOp, hl] using hr
      | some l0 =>
          cases hb : lookupA l0.boardId
              ({ s with lists := setA lId { l0 with position := posn } s.lists } : State).boards with
          | none => simpa only [applyOp, hl, hb, roleOf] using hr
          | some b0 =>
              simpa only [applyOp, hl, hb, roleOf, modifyBoard_memberships] using hr
  | cardCreated bId lId cId ttl posn =>
      cases hl : lookupA lId s.lists with
      | none => simpa only [applyOp, hl] using hr
      | some l0 =>
          cases hc : lookupA cId s.cards with
          | none =>
              simpa only [applyOp, hl, hc, roleOf, modifyList_memberships] using hr
          | some c0 =>
              simpa only [applyOp, hl, hc, roleOf, modifyList_memberships] using hr
  | cardMoved cId fId tId posn =>
      cases hc : lookupA cId s.cards with
      | none => simpa only [applyOp, hc] using hr
      | some c0 =>
          cases hf : lookupA fId s.lists with
          | none => simpa only [applyOp, hc, hf] using hr
          | some f0 =>
              cases ht : lookupA tId s.lists with
              | none => simpa only [applyOp, hc, hf, ht] using hr
              | some t0 =>
                  simpa only [applyOp, hc, hf, ht, roleOf, modifyList_memberships,
                    modifyCard_memberships] using hr
  | cardUpdated cId ttl dsc dd lbls =>
      cases hc : lookupA cId s.cards with
      | none => simpa only [applyOp, hc] using hr
      | some c0 => simpa only [applyOp, hc, roleOf] using hr
  | cardArchived cId arch =>
      simpa only [applyOp, roleOf, modifyCard_memberships] using hr
  | commentAdded cId cmId txt =>
      cases hc : lookupA cId s.cards with
      | none => simpa only [applyOp, hc] using hr
      | some c0 => simpa only [applyOp, hc, roleOf] using hr
  | checklistItemAdded cId iId txt posn =>
      simpa only [applyOp, roleOf, modifyCard_memberships] using hr
  | checklistItemToggled cId iId chk =>
      simpa only [applyOp, roleOf, modifyCard_memberships] using hr
  | checklistItemRenamed cId iId txt =>
      simpa only [applyOp, roleOf, modifyCard_memberships] using hr
  | checklistItemRemoved cId iId =>
      simpa only [applyOp, roleOf, modifyCard_memberships] using hr
  | memberAdded bId mId r2 =>
      cases hb : lookupA bId s.boards with
      | none => simpa only [applyOp, hb] using hr
      | some b0 =>
          by_cases hbb : bId = b
          · subst hbb
            simp only [applyOp, hb]
            rw [lookupA_setA_self]
            simp only [Option.getD_some]
            cases hmi : lookupA mId ((lookupA bId s.memberships).getD []) with
            | some r3 => exact hr
            | none =>
                have hmm2 : m ≠ mId := by
                  intro h
                  rw [h, hmi] at hr
                  exact absurd hr (by simp)
                show lookupA m
                  (setA mId r2 ((lookupA bId s.memberships).getD [])) = some r
                rw [lookupA_setA_ne _ _ _ _ hmm2]
                exact hr
          · simp only [applyOp, hb]
            rw [lookupA_setA_ne _ _ _ _ (fun h => hbb h.symm)]
            exact hr
  | memberRoleChanged bId mId r2 =>
      cases hb : lookupA bId s.boards with
      | none => simpa only [applyOp, hb] using hr
      | some b0 =>
          by_cases hbb : bId = b
          · subst hbb
            have hmm2 : mId ≠ m := by
              intro h
              exact hnot r2 (by rw [h])
            simp only [applyOp, hb, roleOf]
            rw [lookupA_setA_self]
            simp only [Option.getD_some]
            rw [lookupA_setA_ne _ _ _ _ (fun h => hmm2 h.symm)]
            exact hr
          · simp only [applyOp, hb, roleOf]
            rw [lookupA_setA_ne _ _ _ _ (fun h => hbb h.symm)]
            exact hr

/-- C10: when a role is already recorded for (board, member), a member.added
op for that pair leaves the whole state unchanged, even with a different
role; member.roleChanged overwrites the role unconditionally (given the
board exists); and no op other than a member.roleChanged for exactly that
pair ever changes a recorded role. -/
theorem claim10_memberAdded_first_write_wins (s : State) (b m : String) (r : Role)
    (opId ts actorId : String) (seqn : Nat) :
    (∀ role2 : Role, roleOf s b m = some r →
      applyOp s (mkOp opId seqn ts actorId (.memberAdded b m role2)) = s) ∧
    (∀ role2 : Role, (lookupA b s.boards).isSome →
      roleOf (applyOp s (mkOp opId seqn ts actorId (.memberRoleChanged b m role2))) b m =
        some role2) ∧
    (∀ op : Op, roleOf s b m = some r →
      (∀ role2 : Role, op.payload ≠ .memberRoleChanged b m role2) →
      roleOf (applyOp s op) b m = some r) := by
  refine ⟨?_, ?_, fun op hr hnot => roleOf_preserved s b m r op hr hnot⟩
  · intro role2 hr
    cases hb : lookupA b s.boards with
    | none => simp only [applyOp, mkOp, hb]
    | some b0 =>
        cases hms : lookupA b s.memberships with
        | none =>
            rw [roleOf, hms] at hr
            simp [lookupA] at hr
        | some ms0 =>
            rw [roleOf, hms] at hr
            simp only [Option.getD_some] at hr
            simp only [applyOp, mkOp, hb, hms, Option.getD_some, hr]
            rw [setA_lookup_eq_self b ms0 s.memberships hms]
  · intro role2 hb
    cases hbs : lookupA b s.boards with
    | none => rw [hbs] at hb; simp at hb
    | some b0 =>
        simp only [applyOp, mkOp, hbs, roleOf]
        rw [lookupA_setA_self]
        simp only [Option.getD_some]
        rw [lookupA_setA_self]

/-- Closed witness for C10 at a concrete state: a member.added carrying the
viewer role does not disturb an existing editor membership, while a
member.roleChanged does overwrite it. -/
theorem claim10_witness :
    (applyOp
        { defaultWorkspaceId := "w", workspaces := [], boards := [("B", { id := "B", workspaceId := "w", name := "N", listIds := [] })], lists := [], cards := [],
          memberships := [("B", [("m", Role.editor)])], commentsByCardId := [], conflicts := [] }
        (mkOp ("x") 9 ("t") ("a") (.memberAdded ("B") ("m") Role.viewer)) =
      { defaultWorkspaceId := "w", workspaces := [], boards := [("B", { id := "B", workspaceId := "w", name := "N", listIds := [] })], lists := [], cards := [],
        memberships := [("B", [("m", Role.editor)])], commentsByCardId := [], conflicts := [] }) ∧
    roleOf (applyOp
        { defaultWorkspaceId := "w", workspaces := [], boards := [("B", { id := "B", workspaceId := "w", name := "N", listIds := [] })], lists := [], cards := [],
          memberships := [("B", [("m", Role.editor)])], commentsByCardId := [], conflicts := [] }
        (mkOp ("x") 9 ("t") ("a") (.memberRoleChanged ("B") ("m") Role.viewer))) ("B") ("m") =
      some Role.viewer := by
  have h := claim10_memberAdded_first_write_wins
    { defaultWorkspaceId := "w", workspaces := [], boards := [("B", { id := "B", workspaceId := "w", name := "N", listIds := [] })], lists := [], cards := [],
      memberships := [("B", [("m", Role.editor)])], commentsByCardId := [], conflicts := [] }
    ("B") ("m") Role.editor ("x") ("t") ("a") 9
  exact ⟨h.1 Role.viewer (by decide), h.2.1 Role.viewer (by decide)⟩

/-
C8.  Deterministic search.
-/

instance (s : State) : IsTotal CardSearchResult (searchLe s) where
  total a b := by
    by_cases h1 : strLt a.boardId b.boardId
    · exact Or.inl (Or.inl h1)
    · by_cases h2 : strLt b.boardId a.boardId
      · exact Or.inr (Or.inl h2)
      · have hbe : a.boardId = b.boardId := strLt_false_antisymm h1 h2
        by_cases h3 : strLt a.listId b.listId
        · exact Or.inl (Or.inr ⟨hbe, Or.inl h3⟩)
        · by_cases h4 : strLt b.listId a.listId
          · exact Or.inr (Or.inr ⟨hbe.symm, Or.inl h4⟩)
          · have hle : a.listId = b.listId := strLt_false_antisymm h3 h4
            rcases lt_trichotomy (cardPosOf s a.cardId) (cardPosOf s b.cardId) with h5 | h5 | h5
            · exact Or.inl (Or.inr ⟨hbe, Or.inr ⟨hle, Or.inl h5⟩⟩)
            · rcases strLe_total a.cardId b.cardId with h6 | h6
              · exact Or.inl (Or.inr ⟨hbe, Or.inr ⟨hle, Or.inr ⟨h5, h6⟩⟩⟩)
              · exact Or.inr (Or.inr ⟨hbe.symm, Or.inr ⟨hle.symm, Or.inr ⟨h5.symm, h6⟩⟩⟩)
            · exact Or.inr (Or.inr ⟨hbe.symm, Or.inr ⟨hle.symm, Or.inl h5⟩⟩)

instance (s : State) : IsTrans CardSearchResult (searchLe s) where
  trans a b c h1 h2 := by
    rcases h1 with h1 | ⟨hbe1, h1⟩
    · rcases h2 with h2 | ⟨hbe2, _⟩
      · exact Or.inl (strLt_trans h1 h2)
      · exact Or.inl (hbe2 ▸ h1)
    · rcases h2 with h2 | ⟨hbe2, h2⟩
      · exact Or.inl (hbe1 ▸ h2)
      · refine Or.inr ⟨hbe1.trans hbe2, ?_⟩
        rcases h1 with h1 | ⟨hle1, h1⟩
        · rcases h2 with h2 | ⟨hle2, _⟩
          · exact Or.inl (strLt_trans h1 h2)
          · exact Or.inl (hle2 ▸ h1)
        · rcases h2 with h2 | ⟨hle2, h2⟩
          · exact Or.inl (hle1 ▸ h2)
          · refine Or.inr ⟨hle1.trans hle2, ?_⟩
            rcases h1 with h1 | ⟨hpe1, h1⟩
            · rcases h2 with h2 | ⟨hpe2, _⟩
              · exact Or.inl (h1.trans h2)
              · exact Or.inl (hpe2 ▸ h1)
            · rcases h2 with h2 | ⟨hpe2, h2⟩
              · exact Or.inl (hpe1 ▸ h2)
              · exact Or.inr ⟨hpe1.trans hpe2, strLe_trans h1 h2⟩

theorem searchCards_hits_eq (query : String) (l : List (String × Card)) :
    l.filterMap (fun kv =>
      if kv.2.archived then none
      else
        if (normalizeQuery query).length > 0 ∧
            ¬ (∀ n ∈ normalizeQuery query, List.IsInfix n.data (cardHay kv.2).data) then none
        else some (searchHit kv)) =
    (l.filter (fun kv =>
      decide (¬ kv.2.archived ∧ tokensMatchHay (normalizeQuery query) kv.2))).map searchHit := by
  induction l with
  | nil => rfl
  | cons kv rest ih =>
      by_cases ha : kv.2.archived
      · have hcond : ¬ (¬ kv.2.archived ∧ tokensMatchHay (normalizeQuery query) kv.2) :=
          fun h => h.1 ha
        have hf : (if kv.2.archived = true then (none : Option CardSearchResult)
            else if (normalizeQuery query).length > 0 ∧
                ¬ (∀ n ∈ normalizeQuery query, List.IsInfix n.data (cardHay kv.2).data) then none
            else some (searchHit kv)) = none := if_pos ha
        rw [List.filterMap_cons, List.filter_cons, hf, decide_eq_false hcond]
        exact ih
      · by_cases hm : (normalizeQuery query).length > 0 ∧
            ¬ (∀ n ∈ normalizeQuery query, List.IsInfix n.data (cardHay kv.2).data)
        · have hnm : ¬ tokensMatchHay (normalizeQuery query) kv.2 := by
            intro hc
            rcases hc with hc | hc
            · rw [hc] at hm; simp at hm
            · exact hm.2 hc
          have hcond : ¬ (¬ kv.2.archived ∧ tokensMatchHay (normalizeQuery query) kv.2) :=
            fun h => hnm h.2
          have hf : (if kv.2.archived = true then (none : Option CardSearchResult)
              else if (normalizeQuery query).length > 0 ∧
                  ¬ (∀ n ∈ normalizeQuery query, List.IsInfix n.data (cardHay kv.2).data) then none
              else some (searchHit kv)) = none := by
            rw [if_neg ha]
            exact if_pos hm
          rw [List.filterMap_cons, List.filter_cons, hf, decide_eq_false hcond]
          exact ih
        · have htm : tokensMatchHay (normalizeQuery query) kv.2 := by
            by_cases hz : (normalizeQuery query).length > 0
            · right
              by_contra hall
              exact hm ⟨hz, hall⟩
            · left
              have hz0 : (normalizeQuery query).length = 0 := by omega
              exact List.length_eq_zero.mp hz0
          have hcond : (¬ kv.2.archived ∧ tokensMatchHay (normalizeQuery query) kv.2) :=
            ⟨ha, htm⟩
          have hf : (if kv.2.archived = true then (none : Option CardSearchResult)
              else if (normalizeQuery query).length > 0 ∧
                  ¬ (∀ n ∈ normalizeQuery query, List.IsInfix n.data (cardHay kv.2).data) then none
              else some (searchHit kv)) = some (searchHit kv) := by
            rw [if_neg ha]
            exact if_neg hm
          rw [List.filterMap_cons, List.filter_cons, hf, decide_eq_true hcond]
          exact congrArg (List.cons (searchHit kv)) ih

/-- C8 (amended): searchCards returns exactly the non-archived cards for
which every query token is a substring of the lower-cased newline-joined
title, description and labels (every token trivially matching when the
query has no tokens), as a permutation of the matching entries, sorted by
(boardId, listId, position, cardId) ascending; archived cards never appear. -/
theorem claim8_searchCards_spec (s : State) (query : String) :
    (searchCards s query).Perm
      ((s.cards.filter (fun kv =>
        decide (¬ kv.2.archived ∧ tokensMatchHay (normalizeQuery query) kv.2))).map searchHit) ∧
    (searchCards s query).Sorted (searchLe s) ∧
    (∀ r ∈ searchCards s query, ∃ kv ∈ s.cards,
      kv.1 = r.cardId ∧ ¬ kv.2.archived ∧ tokensMatchHay (normalizeQuery query) kv.2 ∧
        r = searchHit kv) := by
  have hfm : searchCards s query = List.insertionSort (searchLe s)
      ((s.cards.filter (fun kv =>
        decide (¬ kv.2.archived ∧ tokensMatchHay (normalizeQuery query) kv.2))).map searchHit) := by
    unfold searchCards
    rw [searchCards_hits_eq query s.cards]
  refine ⟨?_, ?_, ?_⟩
  · rw [hfm]
    exact List.perm_insertionSort _ _
  · rw [hfm]
    exact List.sorted_insertionSort _ _
  · intro r hr
    rw [hfm] at hr
    have := (List.perm_insertionSort (searchLe s) _).mem_iff.mp hr
    obtain ⟨kv, hkv, hmk⟩ := List.mem_map.mp this
    have hfil := List.mem_filter.mp hkv
    have hcond := of_decide_eq_true hfil.2
    exact ⟨kv, hfil.1, by rw [← hmk]; rfl, hcond.1, hcond.2, hmk.symm⟩

/-- Counterexample to C8 as stated: with title ab and description cd, the
token bc is a substring of the claim's plain concatenation abcd, the card
is not archived, yet searchCards returns nothing because the code joins the
haystack parts with newline separators. -/
theorem claim8_counterexample :
    specSearchMatches c8card ("bc") ∧ ¬ c8card.archived ∧ searchCards c8state ("bc") = [] := by
  refine ⟨by decide, by decide, by decide⟩

/-- Closed witness for C8: the spec's example returns exactly the card
titled Fix login bug for the query login fix, in sorted order. -/
theorem claim8_witness :
    searchCards c8state2 ("login fix") =
      [{ cardId := "c1", boardId := "B", listId := "L", title := "Fix login bug" }] ∧
    (searchCards c8state2 ("login fix")).Sorted (searchLe c8state2) := by
  have h := claim8_searchCards_spec c8state2 ("login fix")
  exact ⟨by decide, h.2.1⟩

/-
C7.  Cross-board move guard.
-/

/-- C7 (amended): for an existing card and existing destination list, when
the permission check on the card's board passes, a destination on a
different board makes moveCard fail with CrossBoardMoveNotSupported (no
directory is returned, so no op is appended), and a destination on the same
board makes it append exactly one card.moved op recording the card's
current list. -/
theorem claim7_moveCard_crossBoard (dir : List (String × Op))
    (w cardId toListId actorId : String) (pos : Option Int) (opId ts : String)
    (card : Card) (toList : BoardList)
    (hbound : ∀ e ∈ dir, ∀ k, parseSeqFromFilename e.1 = some k → k < 10 ^ 16 - 1)
    (hcard : lookupA cardId (rebuildFromDir w dir).1.cards = some card)
    (hlist : lookupA toListId (rebuildFromDir w dir).1.lists = some toList)
    (hperm : assertCanEditBoard (rebuildFromDir w dir).1 card.boardId actorId = .ok ()) :
    (toList.boardId ≠ card.boardId →
      moveCard dir w cardId toListId actorId pos opId ts = .error .crossBoardMove) ∧
    (toList.boardId = card.boardId →
      moveCard dir w cardId toListId actorId pos opId ts =
        .ok (dir ++ [(opFilename (nextSeq dir) opId,
          { opId := opId, seq := nextSeq dir, ts := ts, actorId := actorId,
            payload := .cardMoved cardId card.listId toListId
              (pos.getD (nextPosition (toList.cardIds.map
                (fun id => cardPosOf (rebuildFromDir w dir).1 id)))) })])) := by
  have happ := appendOp_fresh dir opId ts actorId
    (.cardMoved cardId card.listId toListId
      (pos.getD (nextPosition (toList.cardIds.map
        (fun id => cardPosOf (rebuildFromDir w dir).1 id))))) hbound
  constructor
  · intro hne
    simp only [moveCard, hcard, hperm, hlist]
    rw [if_pos hne]
  · intro heq
    simp only [moveCard, hcard, hperm, hlist]
    rw [if_neg (by rw [heq]; exact fun h => h rfl)]
    exact congrArg Except.ok happ.2.2.2

/-- Counterexample to C7 as stated: with the destination list on another
board but the acting actor lacking the editor role on the card's board
(board A has a membership record naming only actor o), moveCard fails with
PermissionDenied, not CrossBoardMoveNotSupported, although the claim's
premises (card exists, destination list exists, boards differ) all hold. -/
theorem claim7_counterexample :
    lookupA ("c") (rebuildFromDir ("w") c7dir).1.cards = some c7card ∧
    lookupA ("LB") (rebuildFromDir ("w") c7dir).1.lists = some c7toList ∧
    c7toList.boardId ≠ c7card.boardId ∧
    moveCard c7dir ("w") ("c") ("LB") ("v") none ("mx") ("tx") = .error .permissionDenied ∧
    CmdError.permissionDenied ≠ CmdError.crossBoardMove := by
  refine ⟨by decide, by decide, by decide, by decide, by decide⟩

/-- Closed witness for C7: the board owner moving the card across boards
gets CrossBoardMoveNotSupported. -/
theorem claim7_witness :
    moveCard c7dir ("w") ("c") ("LB") ("o") none ("mx") ("tx") = .error .crossBoardMove :=
  (claim7_moveCard_crossBoard c7dir ("w") ("c") ("LB") ("o") none ("mx") ("tx")
    c7card c7toList (by decide) (by decide) (by decide) (by decide)).1 (by decide)

/-
C9.  Default ordering-key computation.
-/

theorem foldlIntMax_init_le (l : List Int) :
    ∀ acc : Int, acc ≤ l.foldl (fun m n => if n > m then n else m) acc := by
  induction l with
  | nil => intro acc; exact le_refl acc
  | cons x t ih =>
      intro acc
      rw [List.foldl_cons]
      refine le_trans ?_ (ih _)
      by_cases hx : x > acc
      · simp [hx]; omega
      · simp [hx]

theorem mem_le_foldlIntMax (l : List Int) :
    ∀ (acc x : Int), x ∈ l → x ≤ l.foldl (fun m n => if n > m then n else m) acc := by
  induction l with
  | nil => intro _ _ h; simp at h
  | cons y t ih =>
      intro acc x hx
      rw [List.foldl_cons]
      rcases List.mem_cons.mp hx with hx | hx
      · subst hx
        refine le_trans ?_ (foldlIntMax_init_le t _)
        by_cases hy : x > acc
        · simp [hy]
        · simp [hy]; omega
      · exact ih _ x hx

theorem foldlIntMax_init_or_mem (l : List Int) :
    ∀ acc : Int, l.foldl (fun m n => if n > m then n else m) acc = acc ∨
      l.foldl (fun m n => if n > m then n else m) acc ∈ l := by
  induction l with
  | nil => intro acc; exact Or.inl rfl
  | cons y t ih =>
      intro acc
      rw [List.foldl_cons]
      by_cases hy : y > acc
      · rw [if_pos hy]
        rcases ih y with h | h
        · exact Or.inr (by rw [h]; exact List.mem_cons_self y t)
        · exact Or.inr (List.mem_cons_of_mem y h)
      · rw [if_neg hy]
        rcases ih acc with h | h
        · exact Or.inl h
        · exact Or.inr (List.mem_cons_of_mem y h)

/-- C9 (amended): with no explicit position, the computed default is 1000
when no sibling position is positive (in particular when the sibling set is
empty), and otherwise the maximum sibling position plus 1000; and the
concrete three-card scenario (board, list, three createCard calls without
positions) appends card.created ops carrying positions 1000, 2000, 3000. -/
theorem claim9_nextPosition_default (l : List Int) :
    ((∀ x ∈ l, x ≤ 0) → nextPosition l = 1000) ∧
    ((∃ x ∈ l, 0 < x) →
      ∃ m ∈ l, (∀ x ∈ l, x ≤ m) ∧ nextPosition l = m + 1000) ∧
    ((createCard c9dir2 ("w") ("B") ("L") ("T1") ("alice") none ("c1") ("a3") ("t3") = .ok c9dir3 ∧
        (c9dir3.map (fun e => e.2.payload)).getLast? =
          some (.cardCreated ("B") ("L") ("c1") ("T1") 1000)) ∧
      (createCard c9dir3 ("w") ("B") ("L") ("T2") ("alice") none ("c2") ("a4") ("t4") = .ok c9dir4 ∧
        (c9dir4.map (fun e => e.2.payload)).getLast? =
          some (.cardCreated ("B") ("L") ("c2") ("T2") 2000)) ∧
      (createCard c9dir4 ("w") ("B") ("L") ("T3") ("alice") none ("c3") ("a5") ("t5") = .ok c9dir5 ∧
        (c9dir5.map (fun e => e.2.payload)).getLast? =
          some (.cardCreated ("B") ("L") ("c3") ("T3") 3000))) := by
  refine ⟨?_, ?_, by decide, by decide, by decide⟩
  · intro hall
    have hle : l.foldl (fun m n => if n > m then n else m) 0 ≤ 0 := by
      rcases foldlIntMax_init_or_mem l 0 with h | h
      · omega
      · exact hall _ h
    have hge : (0 : Int) ≤ l.foldl (fun m n => if n > m then n else m) 0 :=
      foldlIntMax_init_le l 0
    have hz : l.foldl (fun m n => if n > m then n else m) 0 = 0 := le_antisymm hle hge
    unfold nextPosition
    rw [hz]
    rfl
  · rintro ⟨x, hx, hxpos⟩
    have hxle := mem_le_foldlIntMax l 0 x hx
    have hnz : l.foldl (fun m n => if n > m then n else m) 0 ≠ 0 := by omega
    rcases foldlIntMax_init_or_mem l 0 with h | h
    · exact absurd h hnz
    · refine ⟨_, h, fun y hy => mem_le_foldlIntMax l 0 y hy, ?_⟩
      unfold nextPosition
      rw [if_neg hnz]

/-- Counterexample to C9 as stated: a sibling set whose single position is
negative yields 1000, not max(sibling positions) + 1000 = 500. -/
theorem claim9_counterexample :
    nextPosition [(-500 : Int)] = 1000 ∧ nextPosition [(-500 : Int)] ≠ (-500 : Int) + 1000 := by
  exact ⟨by decide, by decide⟩

/-- Closed witness for C9: the empty sibling set yields 1000. -/
theorem claim9_witness :
    nextPosition ([] : List Int) = 1000 :=
  (claim9_nextPosition_default []).1 (by decide)

/-
C6.  Permission check: bootstrap rule and editor requirement.
-/

/-- C6: for every state, board and actor, the mutating-command permission
check succeeds for every actor when the board has no membership records at
all; once at least one membership exists it succeeds if and only if the
actor's recorded role is editor, and otherwise fails with PermissionDenied;
in particular a viewer is always denied. -/
theorem claim6_assertCanEditBoard_spec (s : State) (boardId actorId : String) :
    (boardMemberships s boardId = [] → assertCanEditBoard s boardId actorId = .ok ()) ∧
    (boardMemberships s boardId ≠ [] →
      (assertCanEditBoard s boardId actorId = .ok () ↔
        getBoardRole s boardId actorId = some .editor)) ∧
    (boardMemberships s boardId ≠ [] → getBoardRole s boardId actorId = some .viewer →
      assertCanEditBoard s boardId actorId = .error .permissionDenied) ∧
    (assertCanEditBoard s boardId actorId = .ok () ∨
      assertCanEditBoard s boardId actorId = .error .permissionDenied) := by
  unfold assertCanEditBoard boardMemberships getBoardRole
  cases hm : lookupA boardId s.memberships with
  | none => simp
  | some ms =>
      cases ms with
      | nil => simp
      | cons hd t =>
          cases hr : lookupA actorId (hd :: t) with
          | none => simp [hr]
          | some r => cases r <;> simp [hr]

/-- Closed witness for C6 at a concrete state: a board whose only
membership gives the actor the viewer role denies that actor. -/
theorem claim6_witness :
    (boardMemberships
        { defaultWorkspaceId := "w", workspaces := [], boards := [], lists := [], cards := [],
          memberships := [("B", [("v", Role.viewer)])], commentsByCardId := [], conflicts := [] }
        ("B") ≠ []) ∧
    assertCanEditBoard
        { defaultWorkspaceId := "w", workspaces := [], boards := [], lists := [], cards := [],
          memberships := [("B", [("v", Role.viewer)])], commentsByCardId := [], conflicts := [] }
        ("B") ("v") = .error .permissionDenied := by
  refine ⟨by decide, ?_⟩
  exact (claim6_assertCanEditBoard_spec _ ("B") ("v")).2.2.1 (by decide) (by decide)

/-
C1.  Order invariance of loadOps and rebuild under directory enumeration
order.
-/

instance : IsTotal (String × Op) nameLe := ⟨fun a b => strLe_total a.1 b.1⟩

instance : IsTrans (String × Op) nameLe := ⟨fun _a _b _c h1 h2 => strLe_trans h1 h2⟩

instance : IsTotal Op opLe where
  total a b := by
    rcases Nat.lt_trichotomy a.seq b.seq with h | h | h
    · exact Or.inl (Or.inl h)
    · rcases strLe_total a.opId b.opId with h2 | h2
      · exact Or.inl (Or.inr ⟨h, h2⟩)
      · exact Or.inr (Or.inr ⟨h.symm, h2⟩)
    · exact Or.inr (Or.inl h)

instance : IsTrans Op opLe where
  trans a b c h1 h2 := by
    rcases h1 with h1 | ⟨he1, ho1⟩
    · rcases h2 with h2 | ⟨he2, ho2⟩
      · exact Or.inl (h1.trans h2)
      · exact Or.inl (he2 ▸ h1)
    · rcases h2 with h2 | ⟨he2, ho2⟩
      · exact Or.inl (he1 ▸ h2)
      · exact Or.inr ⟨he1.trans he2, strLe_trans ho1 ho2⟩

/-- A list sorted by filename whose filenames are pairwise distinct is the
unique such arrangement of its entries: two sorted, mutually permuted lists
with duplicate-free names coincide. -/
theorem sorted_nodup_names_unique (l1 l2 : List (String × Op)) (hp : l1.Perm l2)
    (hnd : (l1.map Prod.fst).Nodup) (hs1 : l1.Sorted nameLe) (hs2 : l2.Sorted nameLe) :
    l1 = l2 := by
  induction l1 generalizing l2 with
  | nil => exact ((List.perm_nil.mp hp.symm)).symm ▸ rfl
  | cons a t1 ih =>
      cases l2 with
      | nil => exact absurd hp.symm (by simp [List.perm_nil])
      | cons b t2 =>
          have hnd1 : (a.1 :: t1.map Prod.fst).Nodup := by simpa using hnd
          have hab : a = b := by
            by_contra hne
            have ha2 : a ∈ b :: t2 := hp.mem_iff.mp (List.mem_cons_self a t1)
            have hat2 : a ∈ t2 := by
              cases List.mem_cons.mp ha2 with
              | inl h => exact absurd h hne
              | inr h => exact h
            have hba : nameLe b a := List.rel_of_sorted_cons hs2 a hat2
            have hb1 : b ∈ a :: t1 := hp.symm.mem_iff.mp (List.mem_cons_self b t2)
            have hbt1 : b ∈ t1 := by
              cases List.mem_cons.mp hb1 with
              | inl h => exact absurd h.symm hne
              | inr h => exact h
            have hab2 : nameLe a b := List.rel_of_sorted_cons hs1 b hbt1
            have hkey : a.1 = b.1 := strLe_antisymm hab2 hba
            have hna : a.1 ∉ t1.map Prod.fst := (List.nodup_cons.mp hnd1).1
            exact hna (hkey ▸ List.mem_map_of_mem Prod.fst hbt1)
          subst hab
          have hpt : t1.Perm t2 := hp.cons_inv
          have := ih t2 hpt (by simpa using (List.nodup_cons.mp hnd1).2)
            hs1.of_cons hs2.of_cons
          rw [this]

/-- C1: loadOps sorts the parsed ops by (seq ascending, opId ascending),
and for any two enumeration orders of the same set of op files (same
multiset of filename-content pairs, filenames pairwise distinct) it returns
the same list, so the rebuilt state and conflicts do not depend on the
directory listing order. -/
theorem claim1_loadOps_order_invariance (w : String) (d1 d2 : List (String × Op))
    (hp : d1.Perm d2) (hnd : (d1.map Prod.fst).Nodup) :
    loadOps d1 = loadOps d2 ∧ rebuildFromDir w d1 = rebuildFromDir w d2 ∧
      (loadOps d1).Sorted opLe := by
  have hs1 : (List.insertionSort nameLe d1) = (List.insertionSort nameLe d2) := by
    refine sorted_nodup_names_unique _ _ ?_ ?_ ?_ ?_
    · exact (List.perm_insertionSort nameLe d1).trans
        (hp.trans (List.perm_insertionSort nameLe d2).symm)
    · exact ((List.perm_insertionSort nameLe d1).map Prod.fst).nodup_iff.mpr hnd
    · exact List.sorted_insertionSort nameLe d1
    · exact List.sorted_insertionSort nameLe d2
  have hload : loadOps d1 = loadOps d2 := by
    unfold loadOps
    rw [hs1]
  exact ⟨hload, by unfold rebuildFromDir; rw [hload],
    List.sorted_insertionSort opLe _⟩

/-- Closed witness for C1: two enumerations of the same two op files give
the same loadOps result. -/
theorem claim1_witness :
    loadOps [(opFilename 2 "b", claim1WitnessOp2), (opFilename 1 "a", claim1WitnessOp1)] =
      loadOps [(opFilename 1 "a", claim1WitnessOp1), (opFilename 2 "b", claim1WitnessOp2)] ∧
    rebuildFromDir "w" [(opFilename 2 "b", claim1WitnessOp2), (opFilename 1 "a", claim1WitnessOp1)] =
      rebuildFromDir "w" [(opFilename 1 "a", claim1WitnessOp1), (opFilename 2 "b", claim1WitnessOp2)] ∧
    (loadOps [(opFilename 2 "b", claim1WitnessOp2), (opFilename 1 "a", claim1WitnessOp1)]).Sorted opLe :=
  claim1_loadOps_order_invariance "w" _ _ (by decide) (by decide)

/-
C3.  Replay fold structure: maximal same-seq groups, apply-after-detect,
and last-write-wins per field key.
First: applyOp neither reads nor writes the conflicts list, so the
interleaved conflict appends of rebuildState commute with the op fold.
-/

theorem modifyList_cc (lid : String) (f : BoardList → BoardList) (s : State)
    (c : List Conflict) :
    { modifyList lid f s with conflicts := c } = modifyList lid f { s with conflicts := c } := by
  unfold modifyList
  dsimp only
  split <;> rfl

theorem modifyBoard_cc (bid : String) (f : Board → Board) (s : State) (c : List Conflict) :
    { modifyBoard bid f s with conflicts := c } = modifyBoard bid f { s with conflicts := c } := by
  unfold modifyBoard
  dsimp only
  split <;> rfl

theorem modifyCard_cc (cid : String) (f : Card → Card) (s : State) (c : List Conflict) :
    { modifyCard cid f s with conflicts := c } = modifyCard cid f { s with conflicts := c } := by
  unfold modifyCard
  dsimp only
  split <;> rfl

theorem modifyWorkspace_cc (wid : String) (f : Workspace → Workspace) (s : State)
    (c : List Conflict) :
    { modifyWorkspace wid f s with conflicts := c } =
      modifyWorkspace wid f { s with conflicts := c } := by
  unfold modifyWorkspace
  dsimp only
  split <;> rfl

theorem modifyList_defaultWorkspaceId (lid : String) (f : BoardList → BoardList) (s : State) :
    (modifyList lid f s).defaultWorkspaceId = s.defaultWorkspaceId := by
  unfold modifyList
  split <;> rfl

theorem modifyBoard_defaultWorkspaceId (bid : String) (f : Board → Board) (s : State) :
    (modifyBoard bid f s).defaultWorkspaceId = s.defaultWorkspaceId := by
  unfold modifyBoard
  split <;> rfl

theorem modifyCard_defaultWorkspaceId (cid : String) (f : Card → Card) (s : State) :
    (modifyCard cid f s).defaultWorkspaceId = s.defaultWorkspaceId := by
  unfold modifyCard
  split <;> rfl

theorem modifyWorkspace_defaultWorkspaceId (wid : String) (f : Workspace → Workspace)
    (s : State) :
    (modifyWorkspace wid f s).defaultWorkspaceId = s.defaultWorkspaceId := by
  unfold modifyWorkspace
  split <;> rfl

theorem modifyList_lists_eq (lid : String) (f : BoardList → BoardList) (s : State) :
    (modifyList lid f s).lists =
      match lookupA lid s.lists with
      | none => s.lists
      | some l => setA lid (f l) s.lists := by
  unfold modifyList
  split <;> rfl

theorem modifyBoard_boards_eq (bid : String) (f : Board → Board) (s : State) :
    (modifyBoard bid f s).boards =
      match lookupA bid s.boards with
      | none => s.boards
      | some b => setA bid (f b) s.boards := by
  unfold modifyBoard
  split <;> rfl

theorem modifyCard_cards_eq (cid : String) (f : Card → Card) (s : State) :
    (modifyCard cid f s).cards =
      match lookupA cid s.cards with
      | none => s.cards
      | some c => setA cid (f c) s.cards := by
  unfold modifyCard
  split <;> rfl

theorem modifyWorkspace_workspaces_eq (wid : String) (f : Workspace → Workspace) (s : State) :
    (modifyWorkspace wid f s).workspaces =
      match lookupA wid s.workspaces with
      | none => s.workspaces
      | some w => setA wid (f w) s.workspaces := by
  unfold modifyWorkspace
  split <;> rfl

theorem cardPosOf_eq (s : State) :
    cardPosOf s = fun id =>
      match lookupA id s.cards with
      | some c => c.position
      | none => 0 := rfl

theorem listPosOf_eq (s : State) :
    listPosOf s = fun id =>
      match lookupA id s.lists with
      | some l => l.position
      | none => 0 := rfl

theorem applyOp_conflictsUpdate (s : State) (c : List Conflict) (op : Op) :
    { applyOp s op with conflicts := c } = applyOp { s with conflicts := c } op := by
  obtain ⟨opId, seqn, ts, actorId, payload⟩ := op
  cases payload with
  | boardCreated wsId bId nm =>
      cases hw : lookupA wsId s.workspaces <;>
        cases hb : lookupA bId s.boards <;>
          cases hact : lookupA actorId ((lookupA bId s.memberships).getD []) <;>
            simp [applyOp, modifyWorkspace, hw, hb, hact, lookupA_setA_self]
  | boardRenamed bId nm => exact modifyBoard_cc bId _ s c
  | listCreated bId lId nm pos =>
      cases hb : lookupA bId s.boards with
      | none => simp [applyOp, hb]
      | some b0 =>
          cases hl : lookupA lId s.lists <;>
            simp [applyOp, modifyBoard, hb, hl, listPosOf_eq, lookupA_setA_self]
  | listRenamed lId nm => exact modifyList_cc lId _ s c
  | listMoved lId pos =>
      cases hl : lookupA lId s.lists with
      | none => simp [applyOp, hl]
      | some l0 =>
          cases hb : lookupA l0.boardId s.boards <;>
            simp [applyOp, modifyBoard, hl, hb, listPosOf_eq, lookupA_setA_self]
  | cardCreated bId lId cId ttl pos =>
      cases hl : lookupA lId s.lists with
      | none => simp [applyOp, hl]
      | some l0 =>
          cases hc : lookupA cId s.cards <;>
            simp [applyOp, modifyList, hl, hc, cardPosOf_eq, lookupA_setA_self]
  | cardMoved cId fId tId pos =>
      cases hc : lookupA cId s.cards <;> cases hf : lookupA fId s.lists <;>
        cases ht : lookupA tId s.lists
      case some.some.some cv fv tv =>
        by_cases hft : fId = tId
        · subst hft
          simp [applyOp, modifyList, modifyCard, hc, hf, ht, cardPosOf_eq,
            lookupA_setA_self]
        · have h1 : fId ≠ tId := hft
          have h2 : tId ≠ fId := fun h => hft h.symm
          simp [applyOp, modifyList, modifyCard, hc, hf, ht, cardPosOf_eq,
            lookupA_setA_self, lookupA_setA_ne, h1, h2]
      all_goals simp [applyOp, hc, hf, ht]
  | cardUpdated cId ttl dsc dd lbls =>
      cases hc : lookupA cId s.cards <;> simp [applyOp, hc]
  | cardArchived cId arch => exact modifyCard_cc cId _ s c
  | commentAdded cId cmId txt =>
      cases hc : lookupA cId s.cards <;> simp [applyOp, hc]
  | checklistItemAdded cId iId txt pos => exact modifyCard_cc cId _ s c
  | checklistItemToggled cId iId chk => exact modifyCard_cc cId _ s c
  | checklistItemRenamed cId iId txt => exact modifyCard_cc cId _ s c
  | checklistItemRemoved cId iId => exact modifyCard_cc cId _ s c
  | memberAdded bId mId rl =>
      cases hb : lookupA bId s.boards <;> simp [applyOp, hb]
  | memberRoleChanged bId mId rl =>
      cases hb : lookupA bId s.boards <;> simp [applyOp, hb]

theorem applyOp_conflicts (s : State) (op : Op) : (applyOp s op).conflicts = s.conflicts :=
  (congrArg State.conflicts (applyOp_conflictsUpdate s s.conflicts op)).symm

theorem foldl_applyOp_conflictsUpdate (l : List Op) : ∀ (s : State) (c : List Conflict),
    l.foldl applyOp { s with conflicts := c } = { l.foldl applyOp s with conflicts := c } := by
  induction l with
  | nil => intro s c; rfl
  | cons op t ih =>
      intro s c
      show t.foldl applyOp (applyOp { s with conflicts := c } op) = _
      rw [← applyOp_conflictsUpdate, ih (applyOp s op) c]
      rfl

theorem foldl_applyOp_conflicts (l : List Op) : ∀ s : State,
    (l.foldl applyOp s).conflicts = s.conflicts := by
  induction l with
  | nil => intro s; rfl
  | cons op t ih => intro s; rw [List.foldl_cons, ih, applyOp_conflicts]

/-
Grouping by seq: fuel irrelevance, flattening, and structure of the
groups.
-/

theorem groupBySeqGo_fuel_irrel (f1 : Nat) : ∀ (f2 : Nat) (ops : List Op),
    ops.length ≤ f1 → ops.length ≤ f2 → groupBySeqGo f1 ops = groupBySeqGo f2 ops := by
  induction f1 with
  | zero =>
      intro f2 ops h1 _h2
      have hops : ops = [] := List.length_eq_zero.mp (Nat.le_zero.mp h1)
      subst hops
      cases f2 <;> rfl
  | succ f ih =>
      intro f2 ops h1 h2
      cases ops with
      | nil => cases f2 <;> rfl
      | cons op rest =>
          cases f2 with
          | zero => simp at h2
          | succ f2 =>
              show (op :: rest.takeWhile (fun o => o.seq = op.seq)) ::
                  groupBySeqGo f (rest.dropWhile (fun o => o.seq = op.seq)) =
                (op :: rest.takeWhile (fun o => o.seq = op.seq)) ::
                  groupBySeqGo f2 (rest.dropWhile (fun o => o.seq = op.seq))
              have hd : (rest.dropWhile (fun o => decide (o.seq = op.seq))).length ≤
                  rest.length := (List.dropWhile_suffix _).sublist.length_le
              have h1r : rest.length ≤ f := by simp [List.length_cons] at h1; omega
              have h2r : rest.length ≤ f2 := by simp [List.length_cons] at h2; omega
              rw [ih f2 _ (le_trans hd h1r) (le_trans hd h2r)]

theorem groupBySeqGo_flatten (f : Nat) : ∀ ops : List Op, ops.length ≤ f →
    (groupBySeqGo f ops).flatten = ops := by
  induction f with
  | zero =>
      intro ops h
      have hops : ops = [] := List.length_eq_zero.mp (Nat.le_zero.mp h)
      subst hops
      rfl
  | succ f ih =>
      intro ops h
      cases ops with
      | nil => rfl
      | cons op rest =>
          show ((op :: rest.takeWhile (fun o => o.seq = op.seq)) ::
              groupBySeqGo f (rest.dropWhile (fun o => o.seq = op.seq))).flatten = op :: rest
          have hd : (rest.dropWhile (fun o => decide (o.seq = op.seq))).length ≤
              rest.length := (List.dropWhile_suffix _).sublist.length_le
          have h1r : rest.length ≤ f := by simp [List.length_cons] at h; omega
          rw [List.flatten_cons, ih _ (le_trans hd h1r)]
          simp [List.takeWhile_append_dropWhile]

theorem groupBySeq_flatten (ops : List Op) : (groupBySeq ops).flatten = ops :=
  groupBySeqGo_flatten ops.length ops le_rfl

theorem mem_of_mem_groupBySeq (ops : List Op) (g : List Op) (hg : g ∈ groupBySeq ops)
    (o : Op) (ho : o ∈ g) : o ∈ ops := by
  rw [← groupBySeq_flatten ops]
  exact List.mem_flatten.mpr ⟨g, hg, ho⟩

theorem mem_takeWhile_seq (op : Op) (rest : List Op) (o : Op)
    (h : o ∈ rest.takeWhile (fun o => o.seq = op.seq)) : o.seq = op.seq := by
  induction rest with
  | nil => simp [List.takeWhile] at h
  | cons r rs ih =>
      rw [List.takeWhile_cons] at h
      by_cases hr : r.seq = op.seq
      · rw [if_pos (by simpa using hr)] at h
        rcases List.mem_cons.mp h with rfl | h2
        · exact hr
        · exact ih h2
      · rw [if_neg (by simpa using hr)] at h
        simp at h

theorem groupBySeqGo_groups (f : Nat) : ∀ ops : List Op, ops.length ≤ f →
    ∀ g ∈ groupBySeqGo f ops, g ≠ [] ∧ (∀ o1 ∈ g, ∀ o2 ∈ g, o1.seq = o2.seq) := by
  induction f with
  | zero =>
      intro ops h g hg
      have hops : ops = [] := List.length_eq_zero.mp (Nat.le_zero.mp h)
      subst hops
      simp [groupBySeqGo] at hg
  | succ f ih =>
      intro ops h g hg
      cases ops with
      | nil => simp [groupBySeqGo] at hg
      | cons op rest =>
          have hd : (rest.dropWhile (fun o => decide (o.seq = op.seq))).length ≤
              rest.length := (List.dropWhile_suffix _).sublist.length_le
          have h1r : rest.length ≤ f := by simp [List.length_cons] at h; omega
          have hstep : groupBySeqGo (f + 1) (op :: rest) =
              (op :: rest.takeWhile (fun o => o.seq = op.seq)) ::
                groupBySeqGo f (rest.dropWhile (fun o => o.seq = op.seq)) := rfl
          rw [hstep] at hg
          rcases List.mem_cons.mp hg with rfl | htail
          · refine ⟨by simp, ?_⟩
            have hseq : ∀ o ∈ op :: rest.takeWhile (fun o => o.seq = op.seq),
                o.seq = op.seq := by
              intro o ho
              rcases List.mem_cons.mp ho with rfl | hmem
              · rfl
              · exact mem_takeWhile_seq op _ _ hmem
            intro o1 h1 o2 h2
            rw [hseq o1 h1, hseq o2 h2]
          · exact ih _ (le_trans hd h1r) g htail

theorem seq_lt_of_mem_dropWhile (op : Op) : ∀ rest : List Op,
    List.Pairwise opLe (op :: rest) →
    ∀ o ∈ rest.dropWhile (fun o => o.seq = op.seq), op.seq < o.seq := by
  intro rest
  induction rest with
  | nil => intro _ o ho; simp at ho
  | cons r rs ih =>
      intro hs o ho
      by_cases hr : r.seq = op.seq
      · rw [List.dropWhile_cons, if_pos (by simpa using hr)] at ho
        refine ih ?_ o ho
        exact hs.sublist ((rs.sublist_cons_self r).cons₂ op)
      · rw [List.dropWhile_cons, if_neg (by simpa using hr)] at ho
        have hopr : opLe op r := (List.pairwise_cons.mp hs).1 r (by simp)
        have hlt : op.seq < r.seq := by
          rcases hopr with hlt | ⟨he, _⟩
          · exact hlt
          · exact absurd he.symm hr
        rcases List.mem_cons.mp ho with rfl | homem
        · exact hlt
        · have hro : opLe r o :=
            (List.pairwise_cons.mp (List.pairwise_cons.mp hs).2).1 o homem
          have hle : r.seq ≤ o.seq := by
            rcases hro with hlt2 | ⟨he2, _⟩
            · exact le_of_lt hlt2
            · exact le_of_eq he2
          omega

theorem groupBySeqGo_sorted (f : Nat) : ∀ ops : List Op, ops.length ≤ f →
    List.Pairwise opLe ops →
    (∀ g ∈ groupBySeqGo f ops, List.Pairwise opLe g) ∧
    List.Pairwise (fun g1 g2 => ∀ o1 ∈ g1, ∀ o2 ∈ g2, o1.seq < o2.seq)
      (groupBySeqGo f ops) := by
  induction f with
  | zero =>
      intro ops h _hs
      have hops : ops = [] := List.length_eq_zero.mp (Nat.le_zero.mp h)
      subst hops
      exact ⟨by simp [groupBySeqGo], by simp [groupBySeqGo]⟩
  | succ f ih =>
      intro ops h hs
      cases ops with
      | nil => exact ⟨by simp [groupBySeqGo], by simp [groupBySeqGo]⟩
      | cons op rest =>
          have hd : (rest.dropWhile (fun o => decide (o.seq = op.seq))).length ≤
              rest.length := (List.dropWhile_suffix _).sublist.length_le
          have h1r : rest.length ≤ f := by simp [List.length_cons] at h; omega
          have hsdrop : List.Pairwise opLe
              (rest.dropWhile (fun o => o.seq = op.seq)) :=
            hs.sublist ((rest.dropWhile_sublist _).trans (rest.sublist_cons_self op))
          have hih := ih _ (le_trans hd h1r) hsdrop
          have hstep : groupBySeqGo (f + 1) (op :: rest) =
              (op :: rest.takeWhile (fun o => o.seq = op.seq)) ::
                groupBySeqGo f (rest.dropWhile (fun o => o.seq = op.seq)) := rfl
          rw [hstep]
          have hheadseq : ∀ o ∈ op :: rest.takeWhile (fun o => o.seq = op.seq),
              o.seq = op.seq := by
            intro o ho
            rcases List.mem_cons.mp ho with rfl | hmem
            · rfl
            · exact mem_takeWhile_seq op _ _ hmem
          constructor
          · intro g hg
            rcases List.mem_cons.mp hg with rfl | htail
            · exact hs.sublist ((rest.takeWhile_sublist _).cons₂ op)
            · exact hih.1 g htail
          · rw [List.pairwise_cons]
            refine ⟨?_, hih.2⟩
            intro g2 hg2 o1 h1 o2 h2
            have ho2drop : o2 ∈ rest.dropWhile (fun o => o.seq = op.seq) := by
              rw [← groupBySeqGo_flatten f _ (le_trans hd h1r)]
              exact List.mem_flatten.mpr ⟨g2, hg2, h2⟩
            have := seq_lt_of_mem_dropWhile op rest hs o2 ho2drop
            rw [hheadseq o1 h1]
            exact this

/-
The while loop of rebuildState, characterised: state is the plain op fold
(conflicts never block application), conflicts are the per-group
detections appended in group order.
-/

theorem rebuildLoop_spec (f : Nat) : ∀ ops : List Op, ops.length ≤ f →
    ∀ (s : State) (n : Nat),
    rebuildLoop f s n ops =
      ({ ops.foldl applyOp s with
          conflicts := s.conflicts ++
            (groupBySeqGo f ops).flatMap detectConflictsForSeqGroup },
        ops.foldl (fun m o => if o.seq > m then o.seq else m) n) := by
  induction f with
  | zero =>
      intro ops h s n
      have hops : ops = [] := List.length_eq_zero.mp (Nat.le_zero.mp h)
      subst hops
      show (s, n) = _
      simp [groupBySeqGo]
  | succ f ih =>
      intro ops h s n
      cases ops with
      | nil =>
          show (s, n) = _
          simp [groupBySeqGo]
      | cons op rest =>
          have hd : (rest.dropWhile (fun o => decide (o.seq = op.seq))).length ≤
              rest.length := (List.dropWhile_suffix _).sublist.length_le
          have h1r : rest.length ≤ f := by simp [List.length_cons] at h; omega
          show rebuildLoop f
              ((op :: rest.takeWhile (fun o => o.seq = op.seq)).foldl applyOp
                { s with conflicts := s.conflicts ++ detectConflictsForSeqGroup (op :: rest.takeWhile (fun o => o.seq = op.seq)) })
              ((op :: rest.takeWhile (fun o => o.seq = op.seq)).foldl
                (fun m o => if o.seq > m then o.seq else m) n)
              (rest.dropWhile (fun o => o.seq = op.seq)) = _
          rw [ih _ (le_trans hd h1r)]
          have hgs : groupBySeqGo (f + 1) (op :: rest) =
              (op :: rest.takeWhile (fun o => o.seq = op.seq)) ::
                groupBySeqGo f (rest.dropWhile (fun o => o.seq = op.seq)) := rfl
          have hsplit : (op :: rest.takeWhile (fun o => o.seq = op.seq)) ++
              rest.dropWhile (fun o => o.seq = op.seq) = op :: rest := by
            simp [List.takeWhile_append_dropWhile]
          have hfoldA : (rest.dropWhile (fun o => o.seq = op.seq)).foldl applyOp
              ((op :: rest.takeWhile (fun o => o.seq = op.seq)).foldl applyOp s) =
              (op :: rest).foldl applyOp s := by
            rw [← List.foldl_append, hsplit]
          have hfoldN : (rest.dropWhile (fun o => o.seq = op.seq)).foldl
              (fun m o => if o.seq > m then o.seq else m)
              ((op :: rest.takeWhile (fun o => o.seq = op.seq)).foldl
                (fun m o => if o.seq > m then o.seq else m) n) =
              (op :: rest).foldl (fun m o => if o.seq > m then o.seq else m) n := by
            rw [← List.foldl_append, hsplit]
          simp only [foldl_applyOp_conflictsUpdate, foldl_applyOp_conflicts, hgs,
            List.flatMap_cons, hfoldA, hfoldN, List.append_assoc, Prod.mk.injEq]

theorem rebuildState_spec (w : String) (ops : List Op) :
    rebuildState w ops =
      ({ ops.foldl applyOp (createEmptyState w) with
          conflicts := (groupBySeq ops).flatMap detectConflictsForSeqGroup },
        ops.foldl (fun m o => if o.seq > m then o.seq else m) 0) := by
  unfold rebuildState
  rw [rebuildLoop_spec ops.length ops le_rfl]
  rfl

/-
readField: how each write key reads back from the state, with frame and
write lemmas for every op.
-/

theorem lookupA_modifyCard_self (cid : String) (f : Card → Card) (s : State) :
    lookupA cid (modifyCard cid f s).cards = (lookupA cid s.cards).map f := by
  unfold modifyCard
  cases hc : lookupA cid s.cards with
  | none => simp [hc]
  | some c0 => simp [hc, lookupA_setA_self]

theorem lookupA_modifyCard_ne (cid : String) (f : Card → Card) (s : State) (x : String)
    (h : x ≠ cid) : lookupA x (modifyCard cid f s).cards = lookupA x s.cards := by
  unfold modifyCard
  cases hc : lookupA cid s.cards with
  | none => simp [hc]
  | some c0 => simp [hc, lookupA_setA_ne _ _ _ _ h]

theorem lookupA_modifyList_self (lid : String) (f : BoardList → BoardList) (s : State) :
    lookupA lid (modifyList lid f s).lists = (lookupA lid s.lists).map f := by
  unfold modifyList
  cases hl : lookupA lid s.lists with
  | none => simp [hl]
  | some l0 => simp [hl, lookupA_setA_self]

theorem lookupA_modifyList_ne (lid : String) (f : BoardList → BoardList) (s : State)
    (x : String) (h : x ≠ lid) :
    lookupA x (modifyList lid f s).lists = lookupA x s.lists := by
  unfold modifyList
  cases hl : lookupA lid s.lists with
  | none => simp [hl]
  | some l0 => simp [hl, lookupA_setA_ne _ _ _ _ h]

theorem lookupA_modifyBoard_self (bid : String) (f : Board → Board) (s : State) :
    lookupA bid (modifyBoard bid f s).boards = (lookupA bid s.boards).map f := by
  unfold modifyBoard
  cases hb : lookupA bid s.boards with
  | none => simp [hb]
  | some b0 => simp [hb, lookupA_setA_self]

theorem lookupA_modifyBoard_ne (bid : String) (f : Board → Board) (s : State) (x : String)
    (h : x ≠ bid) : lookupA x (modifyBoard bid f s).boards = lookupA x s.boards := by
  unfold modifyBoard
  cases hb : lookupA bid s.boards with
  | none => simp [hb]
  | some b0 => simp [hb, lookupA_setA_ne _ _ _ _ h]

/-- Frame for the membership field: every op except a member.roleChanged
for exactly that (board, member) pair preserves a recorded role, via the
first-write-wins analysis of roleOf_preserved. -/
theorem readField_frame_member (s : State) (op : Op) (b m : String) (v : Value)
    (hw : writesRef op (.memberRole b m) = [])
    (hv : readField s (.memberRole b m) = some v) :
    readField (applyOp s op) (.memberRole b m) = some v := by
  simp only [readField] at hv ⊢
  cases hr0 : lookupA m ((lookupA b s.memberships).getD []) with
  | none => rw [hr0] at hv; simp at hv
  | some r0 =>
      rw [hr0] at hv
      have hnot : ∀ role2 : Role, op.payload ≠ .memberRoleChanged b m role2 := by
        intro role2 hcontra
        simp [writesRef, writesForOp, hcontra, conflictKey, refKey, mkWrite] at hw
      have hpres := roleOf_preserved s b m r0 op (by simpa [roleOf] using hr0) hnot
      rw [roleOf] at hpres
      rw [hpres]
      simpa using hv

theorem readField_modifyWorkspace (wid : String) (f : Workspace → Workspace) (s : State)
    (r : FieldRef) : readField (modifyWorkspace wid f s) r = readField s r := by
  cases r <;> simp [readField]

/-- Frame through modifyCard for a mutator that preserves every
conflict-tracked card field (the checklist and comment mutators). -/
theorem readField_modifyCard_pres (cid : String) (f : Card → Card) (s : State) (r : FieldRef)
    (v : Value)
    (hf : ∀ c, (f c).title = c.title ∧ (f c).description = c.description ∧
      (f c).dueDate = c.dueDate ∧ (f c).labels = c.labels ∧ (f c).archived = c.archived ∧
      (f c).listId = c.listId ∧ (f c).position = c.position)
    (hv : readField s r = some v) : readField (modifyCard cid f s) r = some v := by
  cases r with
  | boardName b => simpa [readField] using hv
  | listName l => simpa [readField] using hv
  | listPos l => simpa [readField] using hv
  | memberRole b m => simpa [readField] using hv
  | cardTitle c =>
      simp only [readField] at hv ⊢
      by_cases hcc : c = cid
      · subst hcc
        rw [lookupA_modifyCard_self]
        cases hc0 : lookupA c s.cards with
        | none => rw [hc0] at hv; simp at hv
        | some c0 =>
            rw [hc0] at hv
            simp [(hf c0).1]
            simpa using hv
      · rw [lookupA_modifyCard_ne _ _ _ _ hcc]
        exact hv
  | cardDescription c =>
      simp only [readField] at hv ⊢
      by_cases hcc : c = cid
      · subst hcc
        rw [lookupA_modifyCard_self]
        cases hc0 : lookupA c s.cards with
        | none => rw [hc0] at hv; simp at hv
        | some c0 =>
            rw [hc0] at hv
            simp [(hf c0).2.1]
            simpa using hv
      · rw [lookupA_modifyCard_ne _ _ _ _ hcc]
        exact hv
  | cardDue c =>
      simp only [readField] at hv ⊢
      by_cases hcc : c = cid
      · subst hcc
        rw [lookupA_modifyCard_self]
        cases hc0 : lookupA c s.cards with
        | none => rw [hc0] at hv; simp at hv
        | some c0 =>
            rw [hc0] at hv
            simp [(hf c0).2.2.1]
            simpa using hv
      · rw [lookupA_modifyCard_ne _ _ _ _ hcc]
        exact hv
  | cardLabels c =>
      simp only [readField] at hv ⊢
      by_cases hcc : c = cid
      · subst hcc
        rw [lookupA_modifyCard_self]
        cases hc0 : lookupA c s.cards with
        | none => rw [hc0] at hv; simp at hv
        | some c0 =>
            rw [hc0] at hv
            simp [(hf c0).2.2.2.1]
            simpa using hv
      · rw [lookupA_modifyCard_ne _ _ _ _ hcc]
        exact hv
  | cardArchived c =>
      simp only [readField] at hv ⊢
      by_cases hcc : c = cid
      · subst hcc
        rw [lookupA_modifyCard_self]
        cases hc0 : lookupA c s.cards with
        | none => rw [hc0] at hv; simp at hv
        | some c0 =>
            rw [hc0] at hv
            simp [(hf c0).2.2.2.2.1]
            simpa using hv
      · rw [lookupA_modifyCard_ne _ _ _ _ hcc]
        exact hv
  | cardList c =>
      simp only [readField] at hv ⊢
      by_cases hcc : c = cid
      · subst hcc
        rw [lookupA_modifyCard_self]
        cases hc0 : lookupA c s.cards with
        | none => rw [hc0] at hv; simp at hv
        | some c0 =>
            rw [hc0] at hv
            simp [(hf c0).2.2.2.2.2.1]
            simpa using hv
      · rw [lookupA_modifyCard_ne _ _ _ _ hcc]
        exact hv
  | cardPos c =>
      simp only [readField] at hv ⊢
      by_cases hcc : c = cid
      · subst hcc
        rw [lookupA_modifyCard_self]
        cases hc0 : lookupA c s.cards with
        | none => rw [hc0] at hv; simp at hv
        | some c0 =>
            rw [hc0] at hv
            simp [(hf c0).2.2.2.2.2.2]
            simpa using hv
      · rw [lookupA_modifyCard_ne _ _ _ _ hcc]
        exact hv

/-- Frame through modifyList for a mutator preserving name and position
(the cardIds re-sorters). -/
theorem readField_modifyList_pres (lid : String) (f : BoardList → BoardList) (s : State)
    (r : FieldRef) (v : Value)
    (hf : ∀ l, (f l).name = l.name ∧ (f l).position = l.position)
    (hv : readField s r = some v) : readField (modifyList lid f s) r = some v := by
  cases r with
  | boardName b => simpa [readField] using hv
  | memberRole b m => simpa [readField] using hv
  | cardTitle c => simpa [readField] using hv
  | cardDescription c => simpa [readField] using hv
  | cardDue c => simpa [readField] using hv
  | cardLabels c => simpa [readField] using hv
  | cardArchived c => simpa [readField] using hv
  | cardList c => simpa [readField] using hv
  | cardPos c => simpa [readField] using hv
  | listName l =>
      simp only [readField] at hv ⊢
      by_cases hll : l = lid
      · subst hll
        rw [lookupA_modifyList_self]
        cases hl0 : lookupA l s.lists with
        | none => rw [hl0] at hv; simp at hv
        | some l0 =>
            rw [hl0] at hv
            simp [(hf l0).1]
            simpa using hv
      · rw [lookupA_modifyList_ne _ _ _ _ hll]
        exact hv
  | listPos l =>
      simp only [readField] at hv ⊢
      by_cases hll : l = lid
      · subst hll
        rw [lookupA_modifyList_self]
        cases hl0 : lookupA l s.lists with
        | none => rw [hl0] at hv; simp at hv
        | some l0 =>
            rw [hl0] at hv
            simp [(hf l0).2]
            simpa using hv
      · rw [lookupA_modifyList_ne _ _ _ _ hll]
        exact hv

/-- Frame through modifyBoard for a mutator preserving the name (the
listIds re-sorters). -/
theorem readField_modifyBoard_pres (bid : String) (f : Board → Board) (s : State)
    (r : FieldRef) (v : Value)
    (hf : ∀ b, (f b).name = b.name)
    (hv : readField s r = some v) : readField (modifyBoard bid f s) r = some v := by
  cases r with
  | memberRole b m => simpa [readField] using hv
  | listName l => simpa [readField] using hv
  | listPos l => simpa [readField] using hv
  | cardTitle c => simpa [readField] using hv
  | cardDescription c => simpa [readField] using hv
  | cardDue c => simpa [readField] using hv
  | cardLabels c => simpa [readField] using hv
  | cardArchived c => simpa [readField] using hv
  | cardList c => simpa [readField] using hv
  | cardPos c => simpa [readField] using hv
  | boardName b =>
      simp only [readField] at hv ⊢
      by_cases hbb : b = bid
      · subst hbb
        rw [lookupA_modifyBoard_self]
        cases hb0 : lookupA b s.boards with
        | none => rw [hb0] at hv; simp at hv
        | some b0 =>
            rw [hb0] at hv
            simp [hf b0]
            simpa using hv
      · rw [lookupA_modifyBoard_ne _ _ _ _ hbb]
        exact hv

/-- A comments-only update is invisible to every field reference. -/
theorem readField_com_update (s : State) (x : List (String × List Comment)) (r : FieldRef) :
    readField { s with commentsByCardId := x } r = readField s r := by
  cases r <;> simp [readField]

/-- Adding a list under a fresh key preserves every readable field. -/
theorem readField_lists_fresh (s : State) (lId : String) (l0 : BoardList) (r : FieldRef)
    (v : Value) (hfresh : lookupA lId s.lists = none) (hv : readField s r = some v) :
    readField { s with lists := setA lId l0 s.lists } r = some v := by
  cases r with
  | listName l =>
      simp only [readField] at hv ⊢
      by_cases hll : l = lId
      · subst hll
        rw [hfresh] at hv
        simp at hv
      · rw [show lookupA l (setA lId l0 s.lists) = lookupA l s.lists from
          lookupA_setA_ne _ _ _ _ hll]
        exact hv
  | listPos l =>
      simp only [readField] at hv ⊢
      by_cases hll : l = lId
      · subst hll
        rw [hfresh] at hv
        simp at hv
      · rw [show lookupA l (setA lId l0 s.lists) = lookupA l s.lists from
          lookupA_setA_ne _ _ _ _ hll]
        exact hv
  | boardName b => simpa [readField] using hv
  | cardTitle c => simpa [readField] using hv
  | cardDescription c => simpa [readField] using hv
  | cardDue c => simpa [readField] using hv
  | cardLabels c => simpa [readField] using hv
  | cardArchived c => simpa [readField] using hv
  | cardList c => simpa [readField] using hv
  | cardPos c => simpa [readField] using hv
  | memberRole b m => simpa [readField] using hv

/-- Adding a card under a fresh key preserves every readable field. -/
theorem readField_cards_fresh (s : State) (cId : String) (c0 : Card) (r : FieldRef)
    (v : Value) (hfresh : lookupA cId s.cards = none) (hv : readField s r = some v) :
    readField { s with cards := setA cId c0 s.cards } r = some v := by
  cases r with
  | boardName b => simpa [readField] using hv
  | listName l => simpa [readField] using hv
  | listPos l => simpa [readField] using hv
  | memberRole b m => simpa [readField] using hv
  | cardTitle c =>
      simp only [readField] at hv ⊢
      by_cases hcc : c = cId
      · subst hcc; rw [hfresh] at hv; simp at hv
      · rw [show lookupA c (setA cId c0 s.cards) = lookupA c s.cards from
          lookupA_setA_ne _ _ _ _ hcc]
        exact hv
  | cardDescription c =>
      simp only [readField] at hv ⊢
      by_cases hcc : c = cId
      · subst hcc; rw [hfresh] at hv; simp at hv
      · rw [show lookupA c (setA cId c0 s.cards) = lookupA c s.cards from
          lookupA_setA_ne _ _ _ _ hcc]
        exact hv
  | cardDue c =>
      simp only [readField] at hv ⊢
      by_cases hcc : c = cId
      · subst hcc; rw [hfresh] at hv; simp at hv
      · rw [show lookupA c (setA cId c0 s.cards) = lookupA c s.cards from
          lookupA_setA_ne _ _ _ _ hcc]
        exact hv
  | cardLabels c =>
      simp only [readField] at hv ⊢
      by_cases hcc : c = cId
      · subst hcc; rw [hfresh] at hv; simp at hv
      · rw [show lookupA c (setA cId c0 s.cards) = lookupA c s.cards from
          lookupA_setA_ne _ _ _ _ hcc]
        exact hv
  | cardArchived c =>
      simp only [readField] at hv ⊢
      by_cases hcc : c = cId
      · subst hcc; rw [hfresh] at hv; simp at hv
      · rw [show lookupA c (setA cId c0 s.cards) = lookupA c s.cards from
          lookupA_setA_ne _ _ _ _ hcc]
        exact hv
  | cardList c =>
      simp only [readField] at hv ⊢
      by_cases hcc : c = cId
      · subst hcc; rw [hfresh] at hv; simp at hv
      · rw [show lookupA c (setA cId c0 s.cards) = lookupA c s.cards from
          lookupA_setA_ne _ _ _ _ hcc]
        exact hv
  | cardPos c =>
      simp only [readField] at hv ⊢
      by_cases hcc : c = cId
      · subst hcc; rw [hfresh] at hv; simp at hv
      · rw [show lookupA c (setA cId c0 s.cards) = lookupA c s.cards from
          lookupA_setA_ne _ _ _ _ hcc]
        exact hv

/-- The position rewrite of list.moved preserves every field other than
that list's own position. -/
theorem readField_listMoved_set (s : State) (lId : String) (l0 : BoardList) (pos : Int)
    (r : FieldRef) (v : Value) (hl : lookupA lId s.lists = some l0)
    (hnp : r ≠ FieldRef.listPos lId) (hv : readField s r = some v) :
    readField { s with lists := setA lId { l0 with position := pos } s.lists } r = some v := by
  cases r with
  | listName l =>
      simp only [readField] at hv ⊢
      by_cases hll : l = lId
      · subst hll
        rw [hl] at hv
        rw [lookupA_setA_self]
        simpa using hv
      · rw [show lookupA l (setA lId { l0 with position := pos } s.lists) =
            lookupA l s.lists from lookupA_setA_ne _ _ _ _ hll]
        exact hv
  | listPos l =>
      simp only [readField] at hv ⊢
      have hll : l ≠ lId := fun h => hnp (by rw [h])
      rw [show lookupA l (setA lId { l0 with position := pos } s.lists) =
          lookupA l s.lists from lookupA_setA_ne _ _ _ _ hll]
      exact hv
  | boardName b => simpa [readField] using hv
  | cardTitle c => simpa [readField] using hv
  | cardDescription c => simpa [readField] using hv
  | cardDue c => simpa [readField] using hv
  | cardLabels c => simpa [readField] using hv
  | cardArchived c => simpa [readField] using hv
  | cardList c => simpa [readField] using hv
  | cardPos c => simpa [readField] using hv
  | memberRole b m => simpa [readField] using hv

/-- The listId-and-position rewrite of card.moved preserves every field
other than that card's own listId and position. -/
theorem readField_cardMoved_set (s : State) (cid toL : String) (pos : Int) (r : FieldRef)
    (v : Value) (h1 : r ≠ FieldRef.cardList cid) (h2 : r ≠ FieldRef.cardPos cid)
    (hv : readField s r = some v) :
    readField (modifyCard cid (fun c => { c with listId := toL, position := pos }) s) r =
      some v := by
  cases r with
  | boardName b => simpa [readField] using hv
  | listName l => simpa [readField] using hv
  | listPos l => simpa [readField] using hv
  | memberRole b m => simpa [readField] using hv
  | cardTitle c =>
      simp only [readField] at hv ⊢
      by_cases hcc : c = cid
      · subst hcc
        rw [lookupA_modifyCard_self]
        cases hc0 : lookupA c s.cards with
        | none => rw [hc0] at hv; simp at hv
        | some c0 => rw [hc0] at hv; simpa using hv
      · rw [lookupA_modifyCard_ne _ _ _ _ hcc]
        exact hv
  | cardDescription c =>
      simp only [readField] at hv ⊢
      by_cases hcc : c = cid
      · subst hcc
        rw [lookupA_modifyCard_self]
        cases hc0 : lookupA c s.cards with
        | none => rw [hc0] at hv; simp at hv
        | some c0 => rw [hc0] at hv; simpa using hv
      · rw [lookupA_modifyCard_ne _ _ _ _ hcc]
        exact hv
  | cardDue c =>
      simp only [readField] at hv ⊢
      by_cases hcc : c = cid
      · subst hcc
        rw [lookupA_modifyCard_self]
        cases hc0 : lookupA c s.cards with
        | none => rw [hc0] at hv; simp at hv
        | some c0 => rw [hc0] at hv; simpa using hv
      · rw [lookupA_modifyCard_ne _ _ _ _ hcc]
        exact hv
  | cardLabels c =>
      simp only [readField] at hv ⊢
      by_cases hcc : c = cid
      · subst hcc
        rw [lookupA_modifyCard_self]
        cases hc0 : lookupA c s.cards with
        | none => rw [hc0] at hv; simp at hv
        | some c0 => rw [hc0] at hv; simpa using hv
      · rw [lookupA_modifyCard_ne _ _ _ _ hcc]
        exact hv
  | cardArchived c =>
      simp only [readField] at hv ⊢
      by_cases hcc : c = cid
      · subst hcc
        rw [lookupA_modifyCard_self]
        cases hc0 : lookupA c s.cards with
        | none => rw [hc0] at hv; simp at hv
        | some c0 => rw [hc0] at hv; simpa using hv
      · rw [lookupA_modifyCard_ne _ _ _ _ hcc]
        exact hv
  | cardList c =>
      simp only [readField] at hv ⊢
      have hcc : c ≠ cid := fun h => h1 (by rw [h])
      rw [lookupA_modifyCard_ne _ _ _ _ hcc]
      exact hv
  | cardPos c =>
      simp only [readField] at hv ⊢
      have hcc : c ≠ cid := fun h => h2 (by rw [h])
      rw [lookupA_modifyCard_ne _ _ _ _ hcc]
      exact hv

/-- The archived rewrite of card.archived preserves every field other than
that card's own archived flag. -/
theorem readField_cardArchived_set (s : State) (cid : String) (a : Bool) (r : FieldRef)
    (v : Value) (h1 : r ≠ FieldRef.cardArchived cid) (hv : readField s r = some v) :
    readField (modifyCard cid (fun c => { c with archived := a }) s) r = some v := by
  cases r with
  | boardName b => simpa [readField] using hv
  | listName l => simpa [readField] using hv
  | listPos l => simpa [readField] using hv
  | memberRole b m => simpa [readField] using hv
  | cardTitle c =>
      simp only [readField] at hv ⊢
      by_cases hcc : c = cid
      · subst hcc
        rw [lookupA_modifyCard_self]
        cases hc0 : lookupA c s.cards with
        | none => rw [hc0] at hv; simp at hv
        | some c0 => rw [hc0] at hv; simpa using hv
      · rw [lookupA_modifyCard_ne _ _ _ _ hcc]
        exact hv
  | cardDescription c =>
      simp only [readField] at hv ⊢
      by_cases hcc : c = cid
      · subst hcc
        rw [lookupA_modifyCard_self]
        cases hc0 : lookupA c s.cards with
        | none => rw [hc0] at hv; simp at hv
        | some c0 => rw [hc0] at hv; simpa using hv
      · rw [lookupA_modifyCard_ne _ _ _ _ hcc]
        exact hv
  | cardDue c =>
      simp only [readField] at hv ⊢
      by_cases hcc : c = cid
      · subst hcc
        rw [lookupA_modifyCard_self]
        cases hc0 : lookupA c s.cards with
        | none => rw [hc0] at hv; simp at hv
        | some c0 => rw [hc0] at hv; simpa using hv
      · rw [lookupA_modifyCard_ne _ _ _ _ hcc]
        exact hv
  | cardLabels c =>
      simp only [readField] at hv ⊢
      by_cases hcc : c = cid
      · subst hcc
        rw [lookupA_modifyCard_self]
        cases hc0 : lookupA c s.cards with
        | none => rw [hc0] at hv; simp at hv
        | some c0 => rw [hc0] at hv; simpa using hv
      · rw [lookupA_modifyCard_ne _ _ _ _ hcc]
        exact hv
  | cardArchived c =>
      simp only [readField] at hv ⊢
      have hcc : c ≠ cid := fun h => h1 (by rw [h])
      rw [lookupA_modifyCard_ne _ _ _ _ hcc]
      exact hv
  | cardList c =>
      simp only [readField] at hv ⊢
      by_cases hcc : c = cid
      · subst hcc
        rw [lookupA_modifyCard_self]
        cases hc0 : lookupA c s.cards with
        | none => rw [hc0] at hv; simp at hv
        | some c0 => rw [hc0] at hv; simpa using hv
      · rw [lookupA_modifyCard_ne _ _ _ _ hcc]
        exact hv
  | cardPos c =>
      simp only [readField] at hv ⊢
      by_cases hcc : c = cid
      · subst hcc
        rw [lookupA_modifyCard_self]
        cases hc0 : lookupA c s.cards with
        | none => rw [hc0] at hv; simp at hv
        | some c0 => rw [hc0] at hv; simpa using hv
      · rw [lookupA_modifyCard_ne _ _ _ _ hcc]
        exact hv

/-- Frame: an op with no write to the field reference preserves its
readable value. -/
theorem readField_frame (s : State) (op : Op) (r : FieldRef) (v : Value)
    (hw : writesRef op r = []) (hv : readField s r = some v) :
    readField (applyOp s op) r = some v := by
  obtain ⟨opId, seqn, ts, actorId, payload⟩ := op
  cases payload with
  | boardCreated wsId bId nm =>
      have hLists : (applyOp s ⟨opId, seqn, ts, actorId, .boardCreated wsId bId nm⟩).lists =
          s.lists := by
        cases hws : lookupA wsId s.workspaces <;>
          cases hb2 : lookupA bId s.boards <;> simp [applyOp, hws, hb2]
      have hCards : (applyOp s ⟨opId, seqn, ts, actorId, .boardCreated wsId bId nm⟩).cards =
          s.cards := by
        cases hws : lookupA wsId s.workspaces <;>
          cases hb2 : lookupA bId s.boards <;> simp [applyOp, hws, hb2]
      cases r with
      | memberRole b m => exact readField_frame_member s _ b m v hw hv
      | boardName b =>
          simp only [readField] at hv ⊢
          cases hb0 : lookupA b s.boards with
          | none => rw [hb0] at hv; simp at hv
          | some b0 =>
              rw [hb0] at hv
              by_cases hbb : b = bId
              · subst hbb
                have hB : (applyOp s
                    ⟨opId, seqn, ts, actorId, .boardCreated wsId b nm⟩).boards = s.boards := by
                  cases hws : lookupA wsId s.workspaces <;> simp [applyOp, hws, hb0]
                rw [hB, hb0]
                exact hv
              · have hB : lookupA b (applyOp s
                    ⟨opId, seqn, ts, actorId, .boardCreated wsId bId nm⟩).boards =
                    lookupA b s.boards := by
                  cases hws : lookupA wsId s.workspaces <;>
                    cases hb2 : lookupA bId s.boards <;>
                      simp [applyOp, hws, hb2, lookupA_setA_ne _ _ _ _ hbb]
                rw [hB, hb0]
                exact hv
      | listName l => simp only [readField] at hv ⊢; rw [hLists]; exact hv
      | listPos l => simp only [readField] at hv ⊢; rw [hLists]; exact hv
      | cardTitle c => simp only [readField] at hv ⊢; rw [hCards]; exact hv
      | cardDescription c => simp only [readField] at hv ⊢; rw [hCards]; exact hv
      | cardDue c => simp only [readField] at hv ⊢; rw [hCards]; exact hv
      | cardLabels c => simp only [readField] at hv ⊢; rw [hCards]; exact hv
      | cardArchived c => simp only [readField] at hv ⊢; rw [hCards]; exact hv
      | cardList c => simp only [readField] at hv ⊢; rw [hCards]; exact hv
      | cardPos c => simp only [readField] at hv ⊢; rw [hCards]; exact hv
  | boardRenamed bId nm =>
      cases r with
      | memberRole b m => exact readField_frame_member s _ b m v hw hv
      | boardName b =>
          have hne : b ≠ bId := by
            intro h
            subst h
            simp [writesRef, writesForOp, conflictKey, refKey, mkWrite] at hw
          simp only [readField] at hv ⊢
          rw [show applyOp s ⟨opId, seqn, ts, actorId, .boardRenamed bId nm⟩ =
              modifyBoard bId (fun b => { b with name := nm }) s from rfl]
          rw [lookupA_modifyBoard_ne _ _ _ _ hne]
          exact hv
      | listName l => simpa [readField, applyOp] using hv
      | listPos l => simpa [readField, applyOp] using hv
      | cardTitle c => simpa [readField, applyOp] using hv
      | cardDescription c => simpa [readField, applyOp] using hv
      | cardDue c => simpa [readField, applyOp] using hv
      | cardLabels c => simpa [readField, applyOp] using hv
      | cardArchived c => simpa [readField, applyOp] using hv
      | cardList c => simpa [readField, applyOp] using hv
      | cardPos c => simpa [readField, applyOp] using hv
  | listCreated bId lId nm pos =>
      cases hbm : lookupA bId s.boards with
      | none => simpa [applyOp, hbm] using hv
      | some b0 =>
          cases hlm : lookupA lId s.lists with
          | some l0 =>
              simp only [applyOp, hbm, hlm]
              exact readField_modifyBoard_pres _ _ _ _ _ (fun b => rfl) hv
          | none =>
              simp only [applyOp, hbm, hlm]
              exact readField_modifyBoard_pres _ _ _ _ _ (fun b => rfl)
                (readField_modifyBoard_pres _ _ _ _ _ (fun b => rfl)
                  (readField_lists_fresh s lId _ r v hlm hv))
  | listRenamed lId nm =>
      cases r with
      | memberRole b m => exact readField_frame_member s _ b m v hw hv
      | listName l =>
          have hne : l ≠ lId := by
            intro h
            subst h
            simp [writesRef, writesForOp, conflictKey, refKey, mkWrite] at hw
          simp only [readField] at hv ⊢
          rw [show applyOp s ⟨opId, seqn, ts, actorId, .listRenamed lId nm⟩ =
              modifyList lId (fun l => { l with name := nm }) s from rfl]
          rw [lookupA_modifyList_ne _ _ _ _ hne]
          exact hv
      | listPos l =>
          simp only [readField] at hv ⊢
          rw [show applyOp s ⟨opId, seqn, ts, actorId, .listRenamed lId nm⟩ =
              modifyList lId (fun l => { l with name := nm }) s from rfl]
          by_cases hll : l = lId
          · subst hll
            rw [lookupA_modifyList_self]
            cases hl0 : lookupA l s.lists with
            | none => rw [hl0] at hv; simp at hv
            | some l0 => rw [hl0] at hv; simpa using hv
          · rw [lookupA_modifyList_ne _ _ _ _ hll]
            exact hv
      | boardName b => simpa [readField, applyOp] using hv
      | cardTitle c => simpa [readField, applyOp] using hv
      | cardDescription c => simpa [readField, applyOp] using hv
      | cardDue c => simpa [readField, applyOp] using hv
      | cardLabels c => simpa [readField, applyOp] using hv
      | cardArchived c => simpa [readField, applyOp] using hv
      | cardList c => simpa [readField, applyOp] using hv
      | cardPos c => simpa [readField, applyOp] using hv
  | listMoved lId pos =>
      cases hlm : lookupA lId s.lists with
      | none => simpa [applyOp, hlm] using hv
      | some l0 =>
          have hnp : r ≠ FieldRef.listPos lId := by
            rintro rfl
            simp [writesRef, writesForOp, conflictKey, refKey, mkWrite] at hw
          cases hb2 : lookupA l0.boardId s.boards with
          | none =>
              simp only [applyOp, hlm, hb2]
              exact readField_listMoved_set s lId l0 pos r v hlm hnp hv
          | some b2 =>
              simp only [applyOp, hlm, hb2]
              exact readField_modifyBoard_pres _ _ _ _ _ (fun b => rfl)
                (readField_listMoved_set s lId l0 pos r v hlm hnp hv)
  | cardCreated bId lId cId ttl pos =>
      cases hlm : lookupA lId s.lists with
      | none => simpa [applyOp, hlm] using hv
      | some l0 =>
          cases hcm : lookupA cId s.cards with
          | some c0 =>
              simp only [applyOp, hlm, hcm]
              exact readField_modifyList_pres _ _ _ _ _ (fun l => ⟨rfl, rfl⟩) hv
          | none =>
              simp only [applyOp, hlm, hcm]
              exact readField_modifyList_pres _ _ _ _ _ (fun l => ⟨rfl, rfl⟩)
                (readField_modifyList_pres _ _ _ _ _ (fun l => ⟨rfl, rfl⟩)
                  (readField_cards_fresh s cId _ r v hcm hv))
  | cardMoved cId fId tId pos =>
      cases hc : lookupA cId s.cards with
      | none => simpa [applyOp, hc] using hv
      | some c0 =>
          cases hf : lookupA fId s.lists with
          | none => simpa [applyOp, hc, hf] using hv
          | some f0 =>
              cases ht : lookupA tId s.lists with
              | none => simpa [applyOp, hc, hf, ht] using hv
              | some t0 =>
                  have h1 : r ≠ FieldRef.cardList cId := by
                    rintro rfl
                    simp [writesRef, writesForOp, conflictKey, refKey, mkWrite] at hw
                  have h2 : r ≠ FieldRef.cardPos cId := by
                    rintro rfl
                    simp [writesRef, writesForOp, conflictKey, refKey, mkWrite] at hw
                  simp only [applyOp, hc, hf, ht]
                  exact readField_modifyList_pres _ _ _ _ _ (fun l => ⟨rfl, rfl⟩)
                    (readField_modifyList_pres _ _ _ _ _ (fun l => ⟨rfl, rfl⟩)
                      (readField_cardMoved_set _ cId tId pos r v h1 h2
                        (readField_modifyList_pres _ _ _ _ _ (fun l => ⟨rfl, rfl⟩)
                          (readField_modifyList_pres _ _ _ _ _ (fun l => ⟨rfl, rfl⟩) hv))))
  | cardUpdated cId ttl dsc dd lbls =>
      cases hcm : lookupA cId s.cards with
      | none => simpa [applyOp, hcm] using hv
      | some c0 =>
          cases r with
          | memberRole b m => exact readField_frame_member s _ b m v hw hv
          | boardName b => simpa [readField, applyOp, hcm] using hv
          | listName l => simpa [readField, applyOp, hcm] using hv
          | listPos l => simpa [readField, applyOp, hcm] using hv
          | cardTitle c =>
              simp only [readField] at hv ⊢
              by_cases hcc : c = cId
              · subst hcc
                have hto : ttl = none := by
                  cases hto2 : ttl with
                  | none => rfl
                  | some t =>
                      rw [hto2] at hw
                      simp [writesRef, writesForOp, conflictKey, refKey, mkWrite] at hw
                subst hto
                rw [hcm] at hv
                rcases dsc with _ | d <;> rcases dd with _ | dd2 <;> rcases lbls with _ | ls <;>
                  simp [applyOp, hcm, lookupA_setA_self] <;> simpa using hv
              · have hx : lookupA c (applyOp s ⟨opId, seqn, ts, actorId,
                    .cardUpdated cId ttl dsc dd lbls⟩).cards = lookupA c s.cards := by
                  simp [applyOp, hcm, lookupA_setA_ne _ _ _ _ hcc]
                rw [hx]
                exact hv
          | cardDescription c =>
              simp only [readField] at hv ⊢
              by_cases hcc : c = cId
              · subst hcc
                have hdo : dsc = none := by
                  cases hdo2 : dsc with
                  | none => rfl
                  | some d =>
                      rw [hdo2] at hw
                      simp [writesRef, writesForOp, conflictKey, refKey, mkWrite] at hw
                subst hdo
                rw [hcm] at hv
                rcases ttl with _ | t <;> rcases dd with _ | dd2 <;> rcases lbls with _ | ls <;>
                  simp [applyOp, hcm, lookupA_setA_self] <;> simpa using hv
              · have hx : lookupA c (applyOp s ⟨opId, seqn, ts, actorId,
                    .cardUpdated cId ttl dsc dd lbls⟩).cards = lookupA c s.cards := by
                  simp [applyOp, hcm, lookupA_setA_ne _ _ _ _ hcc]
                rw [hx]
                exact hv
          | cardDue c =>
              simp only [readField] at hv ⊢
              by_cases hcc : c = cId
              · subst hcc
                have hdo : dd = none := by
                  cases hdo2 : dd with
                  | none => rfl
                  | some dd3 =>
                      rw [hdo2] at hw
                      cases dd3 <;>
                        simp [writesRef, writesForOp, conflictKey, refKey, mkWrite] at hw
                subst hdo
                rw [hcm] at hv
                rcases ttl with _ | t <;> rcases dsc with _ | d <;> rcases lbls with _ | ls <;>
                  simp [applyOp, hcm, lookupA_setA_self] <;> simpa using hv
              · have hx : lookupA c (applyOp s ⟨opId, seqn, ts, actorId,
                    .cardUpdated cId ttl dsc dd lbls⟩).cards = lookupA c s.cards := by
                  simp [applyOp, hcm, lookupA_setA_ne _ _ _ _ hcc]
                rw [hx]
                exact hv
          | cardLabels c =>
              simp only [readField] at hv ⊢
              by_cases hcc : c = cId
              · subst hcc
                have hlo : lbls = none := by
                  cases hlo2 : lbls with
                  | none => rfl
                  | some ls =>
                      rw [hlo2] at hw
                      simp [writesRef, writesForOp, conflictKey, refKey, mkWrite] at hw
                subst hlo
                rw [hcm] at hv
                rcases ttl with _ | t <;> rcases dsc with _ | d <;> rcases dd with _ | dd2 <;>
                  simp [applyOp, hcm, lookupA_setA_self] <;> simpa using hv
              · have hx : lookupA c (applyOp s ⟨opId, seqn, ts, actorId,
                    .cardUpdated cId ttl dsc dd lbls⟩).cards = lookupA c s.cards := by
                  simp [applyOp, hcm, lookupA_setA_ne _ _ _ _ hcc]
                rw [hx]
                exact hv
          | cardArchived c =>
              simp only [readField] at hv ⊢
              by_cases hcc : c = cId
              · subst hcc
                rw [hcm] at hv
                rcases ttl with _ | t <;> rcases dsc with _ | d <;> rcases dd with _ | dd2 <;>
                  rcases lbls with _ | ls <;>
                  simp [applyOp, hcm, lookupA_setA_self] <;> simpa using hv
              · have hx : lookupA c (applyOp s ⟨opId, seqn, ts, actorId,
                    .cardUpdated cId ttl dsc dd lbls⟩).cards = lookupA c s.cards := by
                  simp [applyOp, hcm, lookupA_setA_ne _ _ _ _ hcc]
                rw [hx]
                exact hv
          | cardList c =>
              simp only [readField] at hv ⊢
              by_cases hcc : c = cId
              · subst hcc
                rw [hcm] at hv
                rcases ttl with _ | t <;> rcases dsc with _ | d <;> rcases dd with _ | dd2 <;>
                  rcases lbls with _ | ls <;>
                  simp [applyOp, hcm, lookupA_setA_self] <;> simpa using hv
              · have hx : lookupA c (applyOp s ⟨opId, seqn, ts, actorId,
                    .cardUpdated cId ttl dsc dd lbls⟩).cards = lookupA c s.cards := by
                  simp [applyOp, hcm, lookupA_setA_ne _ _ _ _ hcc]
                rw [hx]
                exact hv
          | cardPos c =>
              simp only [readField] at hv ⊢
              by_cases hcc : c = cId
              · subst hcc
                rw [hcm] at hv
                rcases ttl with _ | t <;> rcases dsc with _ | d <;> rcases dd with _ | dd2 <;>
                  rcases lbls with _ | ls <;>
                  simp [applyOp, hcm, lookupA_setA_self] <;> simpa using hv
              · have hx : lookupA c (applyOp s ⟨opId, seqn, ts, actorId,
                    .cardUpdated cId ttl dsc dd lbls⟩).cards = lookupA c s.cards := by
                  simp [applyOp, hcm, lookupA_setA_ne _ _ _ _ hcc]
                rw [hx]
                exact hv
  | cardArchived cId a =>
      have h1 : r ≠ FieldRef.cardArchived cId := by
        rintro rfl
        simp [writesRef, writesForOp, conflictKey, refKey, mkWrite] at hw
      rw [show applyOp s ⟨opId, seqn, ts, actorId, .cardArchived cId a⟩ =
          modifyCard cId (fun c => { c with archived := a }) s from rfl]
      exact readField_cardArchived_set s cId a r v h1 hv
  | commentAdded cId cmId txt =>
      cases hcm : lookupA cId s.cards with
      | none => simpa [applyOp, hcm] using hv
      | some c0 =>
          simp only [applyOp, hcm]
          exact (readField_com_update s _ r).trans hv
  | checklistItemAdded cId iId txt pos =>
      simp only [applyOp]
      exact readField_modifyCard_pres _ _ _ _ _
        (fun c => ⟨rfl, rfl, rfl, rfl, rfl, rfl, rfl⟩) hv
  | checklistItemToggled cId iId chk =>
      simp only [applyOp]
      exact readField_modifyCard_pres _ _ _ _ _
        (fun c => ⟨rfl, rfl, rfl, rfl, rfl, rfl, rfl⟩) hv
  | checklistItemRenamed cId iId txt =>
      simp only [applyOp]
      exact readField_modifyCard_pres _ _ _ _ _
        (fun c => ⟨rfl, rfl, rfl, rfl, rfl, rfl, rfl⟩) hv
  | checklistItemRemoved cId iId =>
      simp only [applyOp]
      exact readField_modifyCard_pres _ _ _ _ _
        (fun c => ⟨rfl, rfl, rfl, rfl, rfl, rfl, rfl⟩) hv
  | memberAdded bId mId rl =>
      cases hbm : lookupA bId s.boards with
      | none => simpa [applyOp, hbm] using hv
      | some b0 =>
          cases r with
          | memberRole b m => exact readField_frame_member s _ b m v hw hv
          | boardName b => simpa [readField, applyOp, hbm] using hv
          | listName l => simpa [readField, applyOp, hbm] using hv
          | listPos l => simpa [readField, applyOp, hbm] using hv
          | cardTitle c => simpa [readField, applyOp, hbm] using hv
          | cardDescription c => simpa [readField, applyOp, hbm] using hv
          | cardDue c => simpa [readField, applyOp, hbm] using hv
          | cardLabels c => simpa [readField, applyOp, hbm] using hv
          | cardArchived c => simpa [readField, applyOp, hbm] using hv
          | cardList c => simpa [readField, applyOp, hbm] using hv
          | cardPos c => simpa [readField, applyOp, hbm] using hv
  | memberRoleChanged bId mId rl =>
      cases hbm : lookupA bId s.boards with
      | none => simpa [applyOp, hbm] using hv
      | some b0 =>
          cases r with
          | memberRole b m => exact readField_frame_member s _ b m v hw hv
          | boardName b => simpa [readField, applyOp, hbm] using hv
          | listName l => simpa [readField, applyOp, hbm] using hv
          | listPos l => simpa [readField, applyOp, hbm] using hv
          | cardTitle c => simpa [readField, applyOp, hbm] using hv
          | cardDescription c => simpa [readField, applyOp, hbm] using hv
          | cardDue c => simpa [readField, applyOp, hbm] using hv
          | cardLabels c => simpa [readField, applyOp, hbm] using hv
          | cardArchived c => simpa [readField, applyOp, hbm] using hv
          | cardList c => simpa [readField, applyOp, hbm] using hv
          | cardPos c => simpa [readField, applyOp, hbm] using hv

/-
Write lemmas: an op whose single write targets the reference sets the
readable value to the written value (member.added excluded: its write is
applied only when no role is recorded yet).
-/

theorem append_cons_inj_of_not_mem (sep : Char) : ∀ (as bs xs ys : List Char),
    sep ∉ as → sep ∉ bs → as ++ sep :: xs = bs ++ sep :: ys → as = bs ∧ xs = ys := by
  intro as
  induction as with
  | nil =>
      intro bs xs ys _ha hb h
      cases bs with
      | nil => simpa using h
      | cons b bt =>
          simp only [List.nil_append, List.cons_append, List.cons.injEq] at h
          exact absurd (h.1 ▸ List.mem_cons_self b bt) hb
  | cons a at2 ih =>
      intro bs xs ys ha hb h
      cases bs with
      | nil =>
          simp only [List.nil_append, List.cons_append, List.cons.injEq] at h
          exact absurd (h.1.symm ▸ List.mem_cons_self a at2) ha
      | cons b bt =>
          simp only [List.cons_append, List.cons.injEq] at h
          obtain ⟨rfl, h2⟩ := h
          have hres := ih bt xs ys (fun hm => ha (List.mem_cons_of_mem _ hm))
            (fun hm => hb (List.mem_cons_of_mem _ hm)) h2
          exact ⟨by rw [hres.1], hres.2⟩

theorem append_colon_inj (a b x y : String) (ha : (':') ∉ a.data) (hb : (':') ∉ b.data)
    (h : a ++ ":" ++ x = b ++ ":" ++ y) : a = b ∧ x = y := by
  have hdata : a.data ++ (':') :: x.data = b.data ++ (':') :: y.data := by
    have h2 := congrArg String.data h
    simpa [String.data_append] using h2
  have hres := append_cons_inj_of_not_mem (':') a.data b.data x.data y.data ha hb hdata
  exact ⟨String.ext hres.1, String.ext hres.2⟩

theorem readField_write_boardRenamed (s : State) (opId : String) (seqn : Nat)
    (ts actorId bId nm : String) (r : FieldRef) (w : Write)
    (hw : writesRef ⟨opId, seqn, ts, actorId, .boardRenamed bId nm⟩ r = [w])
    (hk : keyReady s r) :
    readField (applyOp s ⟨opId, seqn, ts, actorId, .boardRenamed bId nm⟩) r = some w.value := by
  cases r
  case boardName b =>
    by_cases hbb : bId = b
    · subst hbb
      have hcomp : writesRef ⟨opId, seqn, ts, actorId, .boardRenamed bId nm⟩
          (.boardName bId) =
          [mkWrite ⟨opId, seqn, ts, actorId, .boardRenamed bId nm⟩ "board" bId "name"
            (.str nm)] := by
        simp [writesRef, writesForOp, conflictKey, refKey, mkWrite]
      rw [hcomp] at hw
      injection hw with hww _
      simp only [keyReady, readField] at hk
      cases hb0 : lookupA bId s.boards with
      | none => rw [hb0] at hk; simp at hk
      | some b0 =>
          simp only [readField]
          rw [show applyOp s ⟨opId, seqn, ts, actorId, .boardRenamed bId nm⟩ =
              modifyBoard bId (fun b => { b with name := nm }) s from rfl]
          rw [lookupA_modifyBoard_self, hb0, ← hww]
          rfl
    · have hcomp : writesRef ⟨opId, seqn, ts, actorId, .boardRenamed bId nm⟩
          (.boardName b) = [] := by
        simp [writesRef, writesForOp, conflictKey, refKey, mkWrite, hbb]
      rw [hcomp] at hw
      exact absurd hw (by simp)
  all_goals simp [writesRef, writesForOp, conflictKey, refKey, mkWrite] at hw

theorem readField_write_listRenamed (s : State) (opId : String) (seqn : Nat)
    (ts actorId lId nm : String) (r : FieldRef) (w : Write)
    (hw : writesRef ⟨opId, seqn, ts, actorId, .listRenamed lId nm⟩ r = [w])
    (hk : keyReady s r) :
    readField (applyOp s ⟨opId, seqn, ts, actorId, .listRenamed lId nm⟩) r = some w.value := by
  cases r
  case listName l =>
    by_cases hll : lId = l
    · subst hll
      have hcomp : writesRef ⟨opId, seqn, ts, actorId, .listRenamed lId nm⟩
          (.listName lId) =
          [mkWrite ⟨opId, seqn, ts, actorId, .listRenamed lId nm⟩ "list" lId "name"
            (.str nm)] := by
        simp [writesRef, writesForOp, conflictKey, refKey, mkWrite]
      rw [hcomp] at hw
      injection hw with hww _
      simp only [keyReady, readField] at hk
      cases hl0 : lookupA lId s.lists with
      | none => rw [hl0] at hk; simp at hk
      | some l0 =>
          simp only [readField]
          rw [show applyOp s ⟨opId, seqn, ts, actorId, .listRenamed lId nm⟩ =
              modifyList lId (fun l => { l with name := nm }) s from rfl]
          rw [lookupA_modifyList_self, hl0, ← hww]
          rfl
    · have hcomp : writesRef ⟨opId, seqn, ts, actorId, .listRenamed lId nm⟩
          (.listName l) = [] := by
        simp [writesRef, writesForOp, conflictKey, refKey, mkWrite, hll]
      rw [hcomp] at hw
      exact absurd hw (by simp)
  all_goals simp [writesRef, writesForOp, conflictKey, refKey, mkWrite] at hw

theorem readField_write_listMoved (s : State) (opId : String) (seqn : Nat)
    (ts actorId lId : String) (pos : Int) (r : FieldRef) (w : Write)
    (hw : writesRef ⟨opId, seqn, ts, actorId, .listMoved lId pos⟩ r = [w])
    (hk : keyReady s r) :
    readField (applyOp s ⟨opId, seqn, ts, actorId, .listMoved lId pos⟩) r = some w.value := by
  cases r
  case listPos l =>
    by_cases hll : lId = l
    · subst hll
      have hcomp : writesRef ⟨opId, seqn, ts, actorId, .listMoved lId pos⟩
          (.listPos lId) =
          [mkWrite ⟨opId, seqn, ts, actorId, .listMoved lId pos⟩ "list" lId "position"
            (.num pos)] := by
        simp [writesRef, writesForOp, conflictKey, refKey, mkWrite]
      rw [hcomp] at hw
      injection hw with hww _
      simp only [keyReady, readField] at hk
      cases hl0 : lookupA lId s.lists with
      | none => rw [hl0] at hk; simp at hk
      | some l0 =>
          cases hb2 : lookupA l0.boardId s.boards with
          | none =>
              simp only [applyOp, hl0, hb2, readField]
              rw [lookupA_setA_self, ← hww]
              rfl
          | some b2 =>
              simp only [applyOp, hl0, hb2, readField, modifyBoard_lists]
              rw [lookupA_setA_self, ← hww]
              rfl
    · have hcomp : writesRef ⟨opId, seqn, ts, actorId, .listMoved lId pos⟩
          (.listPos l) = [] := by
        simp [writesRef, writesForOp, conflictKey, refKey, mkWrite, hll]
      rw [hcomp] at hw
      exact absurd hw (by simp)
  all_goals simp [writesRef, writesForOp, conflictKey, refKey, mkWrite] at hw

theorem readField_write_cardArchived (s : State) (opId : String) (seqn : Nat)
    (ts actorId cId : String) (a : Bool) (r : FieldRef) (w : Write)
    (hw : writesRef ⟨opId, seqn, ts, actorId, .cardArchived cId a⟩ r = [w])
    (hk : keyReady s r) :
    readField (applyOp s ⟨opId, seqn, ts, actorId, .cardArchived cId a⟩) r = some w.value := by
  cases r
  case cardArchived c =>
    by_cases hcc : cId = c
    · subst hcc
      have hcomp : writesRef ⟨opId, seqn, ts, actorId, .cardArchived cId a⟩
          (.cardArchived cId) =
          [mkWrite ⟨opId, seqn, ts, actorId, .cardArchived cId a⟩ "card" cId "archived"
            (.bool a)] := by
        simp [writesRef, writesForOp, conflictKey, refKey, mkWrite]
      rw [hcomp] at hw
      injection hw with hww _
      simp only [keyReady, readField] at hk
      cases hc0 : lookupA cId s.cards with
      | none => rw [hc0] at hk; simp at hk
      | some c0 =>
          simp only [readField]
          rw [show applyOp s ⟨opId, seqn, ts, actorId, .cardArchived cId a⟩ =
              modifyCard cId (fun c => { c with archived := a }) s from rfl]
          rw [lookupA_modifyCard_self, hc0, ← hww]
          rfl
    · have hcomp : writesRef ⟨opId, seqn, ts, actorId, .cardArchived cId a⟩
          (.cardArchived c) = [] := by
        simp [writesRef, writesForOp, conflictKey, refKey, mkWrite, hcc]
      rw [hcomp] at hw
      exact absurd hw (by simp)
  all_goals simp [writesRef, writesForOp, conflictKey, refKey, mkWrite] at hw

theorem readField_write_cardMoved (s : State) (opId : String) (seqn : Nat)
    (ts actorId cId fId tId : String) (pos : Int) (r : FieldRef) (w : Write)
    (hw : writesRef ⟨opId, seqn, ts, actorId, .cardMoved cId fId tId pos⟩ r = [w])
    (hg : guardsOk s ⟨opId, seqn, ts, actorId, .cardMoved cId fId tId pos⟩) :
    readField (applyOp s ⟨opId, seqn, ts, actorId, .cardMoved cId fId tId pos⟩) r =
      some w.value := by
  have hgc : (lookupA cId s.cards).isSome = true := hg.1
  have hgf : (lookupA fId s.lists).isSome = true := hg.2.1
  have hgt : (lookupA tId s.lists).isSome = true := hg.2.2
  cases hc : lookupA cId s.cards with
  | none => rw [hc] at hgc; simp at hgc
  | some c0 =>
      cases hf : lookupA fId s.lists with
      | none => rw [hf] at hgf; simp at hgf
      | some f0 =>
          cases ht : lookupA tId s.lists with
          | none => rw [ht] at hgt; simp at hgt
          | some t0 =>
              cases r
              case cardList c =>
                by_cases hcc : cId = c
                · subst hcc
                  have hcomp : writesRef
                      ⟨opId, seqn, ts, actorId, .cardMoved cId fId tId pos⟩
                      (.cardList cId) =
                      [mkWrite ⟨opId, seqn, ts, actorId, .cardMoved cId fId tId pos⟩
                        "card" cId "listId" (.str tId)] := by
                    simp [writesRef, writesForOp, conflictKey, refKey, mkWrite]
                  rw [hcomp] at hw
                  injection hw with hww _
                  simp only [applyOp, hc, hf, ht, readField]
                  simp [lookupA_modifyCard_self, hc, ← hww, mkWrite]
                · have hcomp : writesRef
                      ⟨opId, seqn, ts, actorId, .cardMoved cId fId tId pos⟩
                      (.cardList c) = [] := by
                    simp [writesRef, writesForOp, conflictKey, refKey, mkWrite, hcc]
                  rw [hcomp] at hw
                  exact absurd hw (by simp)
              case cardPos c =>
                by_cases hcc : cId = c
                · subst hcc
                  have hcomp : writesRef
                      ⟨opId, seqn, ts, actorId, .cardMoved cId fId tId pos⟩
                      (.cardPos cId) =
                      [mkWrite ⟨opId, seqn, ts, actorId, .cardMoved cId fId tId pos⟩
                        "card" cId "position" (.num pos)] := by
                    simp [writesRef, writesForOp, conflictKey, refKey, mkWrite]
                  rw [hcomp] at hw
                  injection hw with hww _
                  simp only [applyOp, hc, hf, ht, readField]
                  simp [lookupA_modifyCard_self, hc, ← hww, mkWrite]
                · have hcomp : writesRef
                      ⟨opId, seqn, ts, actorId, .cardMoved cId fId tId pos⟩
                      (.cardPos c) = [] := by
                    simp [writesRef, writesForOp, conflictKey, refKey, mkWrite, hcc]
                  rw [hcomp] at hw
                  exact absurd hw (by simp)
              all_goals simp [writesRef, writesForOp, conflictKey, refKey, mkWrite] at hw

theorem readField_write_memberRoleChanged (s : State) (opId : String) (seqn : Nat)
    (ts actorId bId mId : String) (rl : Role) (r : FieldRef) (w : Write)
    (hw : writesRef ⟨opId, seqn, ts, actorId, .memberRoleChanged bId mId rl⟩ r = [w])
    (hg : guardsOk s ⟨opId, seqn, ts, actorId, .memberRoleChanged bId mId rl⟩)
    (hoc : opClean ⟨opId, seqn, ts, actorId, .memberRoleChanged bId mId rl⟩)
    (hrc : refClean r) :
    readField (applyOp s ⟨opId, seqn, ts, actorId, .memberRoleChanged bId mId rl⟩) r =
      some w.value := by
  have hgb : (lookupA bId s.boards).isSome = true := hg
  cases r
  case memberRole b m =>
    have hrcb : (':') ∉ b.data := hrc
    have hocb : (':') ∉ bId.data := hoc
    by_cases hj : bId ++ ":" ++ mId = b ++ ":" ++ m
    · obtain ⟨hb1, hm1⟩ := append_colon_inj bId b mId m hocb hrcb hj
      subst hb1
      subst hm1
      have hcomp : writesRef ⟨opId, seqn, ts, actorId, .memberRoleChanged bId mId rl⟩
          (.memberRole bId mId) =
          [mkWrite ⟨opId, seqn, ts, actorId, .memberRoleChanged bId mId rl⟩
            "membership" (bId ++ ":" ++ mId) "role" (.str (roleString rl))] := by
        simp [writesRef, writesForOp, conflictKey, refKey, mkWrite]
      rw [hcomp] at hw
      injection hw with hww _
      cases hb0 : lookupA bId s.boards with
      | none => rw [hb0] at hgb; simp at hgb
      | some b0 =>
          simp only [applyOp, hb0, readField]
          rw [lookupA_setA_self]
          simp only [Option.getD_some]
          rw [lookupA_setA_self, ← hww]
          rfl
    · have hcomp : writesRef ⟨opId, seqn, ts, actorId, .memberRoleChanged bId mId rl⟩
          (.memberRole b m) = [] := by
        simp [writesRef, writesForOp, conflictKey, refKey, mkWrite, hj]
      rw [hcomp] at hw
      exact absurd hw (by simp)
  all_goals simp [writesRef, writesForOp, conflictKey, refKey, mkWrite] at hw

theorem readField_write_cardUpdated (s : State) (opId : String) (seqn : Nat)
    (ts actorId cId : String) (ttl dsc : Option String) (dd : Option (Option String))
    (lbls : Option (List String)) (r : FieldRef) (w : Write)
    (hw : writesRef ⟨opId, seqn, ts, actorId, .cardUpdated cId ttl dsc dd lbls⟩ r = [w])
    (hk : keyReady s r) :
    readField (applyOp s ⟨opId, seqn, ts, actorId, .cardUpdated cId ttl dsc dd lbls⟩) r =
      some w.value := by
  cases r
  case cardTitle c =>
    by_cases hcc : cId = c
    · subst hcc
      cases hto : ttl with
      | none =>
          rw [hto] at hw
          have hcomp : writesRef
              ⟨opId, seqn, ts, actorId, .cardUpdated cId none dsc dd lbls⟩
              (.cardTitle cId) = [] := by
            rcases dsc with _ | d <;> rcases dd with _ | (_ | dd2) <;>
              rcases lbls with _ | ls <;>
              simp [writesRef, writesForOp, conflictKey, refKey, mkWrite]
          rw [hcomp] at hw
          exact absurd hw (by simp)
      | some t =>
          rw [hto] at hw
          have hcomp : writesRef
              ⟨opId, seqn, ts, actorId, .cardUpdated cId (some t) dsc dd lbls⟩
              (.cardTitle cId) =
              [mkWrite ⟨opId, seqn, ts, actorId, .cardUpdated cId (some t) dsc dd lbls⟩
                "card" cId "title" (.str t)] := by
            rcases dsc with _ | d <;> rcases dd with _ | (_ | dd2) <;>
              rcases lbls with _ | ls <;>
              simp [writesRef, writesForOp, conflictKey, refKey, mkWrite]
          rw [hcomp] at hw
          injection hw with hww _
          simp only [keyReady, readField] at hk
          cases hcm : lookupA cId s.cards with
          | none => rw [hcm] at hk; simp at hk
          | some c0 =>
              simp only [readField]
              rcases dsc with _ | d <;> rcases dd with _ | (_ | dd2) <;>
                rcases lbls with _ | ls <;>
                simp [applyOp, hcm, lookupA_setA_self, ← hww, mkWrite]
    · have hcomp : writesRef ⟨opId, seqn, ts, actorId, .cardUpdated cId ttl dsc dd lbls⟩
          (.cardTitle c) = [] := by
        rcases ttl with _ | t <;> rcases dsc with _ | d <;> rcases dd with _ | (_ | dd2) <;>
          rcases lbls with _ | ls <;>
          simp [writesRef, writesForOp, conflictKey, refKey, mkWrite, hcc]
      rw [hcomp] at hw
      exact absurd hw (by simp)
  case cardDescription c =>
    by_cases hcc : cId = c
    · subst hcc
      cases hdo : dsc with
      | none =>
          rw [hdo] at hw
          have hcomp : writesRef
              ⟨opId, seqn, ts, actorId, .cardUpdated cId ttl none dd lbls⟩
              (.cardDescription cId) = [] := by
            rcases ttl with _ | t <;> rcases dd with _ | (_ | dd2) <;>
              rcases lbls with _ | ls <;>
              simp [writesRef, writesForOp, conflictKey, refKey, mkWrite]
          rw [hcomp] at hw
          exact absurd hw (by simp)
      | some d =>
          rw [hdo] at hw
          have hcomp : writesRef
              ⟨opId, seqn, ts, actorId, .cardUpdated cId ttl (some d) dd lbls⟩
              (.cardDescription cId) =
              [mkWrite ⟨opId, seqn, ts, actorId, .cardUpdated cId ttl (some d) dd lbls⟩
                "card" cId "description" (.str d)] := by
            rcases ttl with _ | t <;> rcases dd with _ | (_ | dd2) <;>
              rcases lbls with _ | ls <;>
              simp [writesRef, writesForOp, conflictKey, refKey, mkWrite]
          rw [hcomp] at hw
          injection hw with hww _
          simp only [keyReady, readField] at hk
          cases hcm : lookupA cId s.cards with
          | none => rw [hcm] at hk; simp at hk
          | some c0 =>
              simp only [readField]
              rcases ttl with _ | t <;> rcases dd with _ | (_ | dd2) <;>
                rcases lbls with _ | ls <;>
                simp [applyOp, hcm, lookupA_setA_self, ← hww, mkWrite]
    · have hcomp : writesRef ⟨opId, seqn, ts, actorId, .cardUpdated cId ttl dsc dd lbls⟩
          (.cardDescription c) = [] := by
        rcases ttl with _ | t <;> rcases dsc with _ | d <;> rcases dd with _ | (_ | dd2) <;>
          rcases lbls with _ | ls <;>
          simp [writesRef, writesForOp, conflictKey, refKey, mkWrite, hcc]
      rw [hcomp] at hw
      exact absurd hw (by simp)
  case cardDue c =>
    by_cases hcc : cId = c
    · subst hcc
      cases hdo : dd with
      | none =>
          rw [hdo] at hw
          have hcomp : writesRef
              ⟨opId, seqn, ts, actorId, .cardUpdated cId ttl dsc none lbls⟩
              (.cardDue cId) = [] := by
            rcases ttl with _ | t <;> rcases dsc with _ | d <;>
              rcases lbls with _ | ls <;>
              simp [writesRef, writesForOp, conflictKey, refKey, mkWrite]
          rw [hcomp] at hw
          exact absurd hw (by simp)
      | some dd2 =>
          rw [hdo] at hw
          cases dd2 with
          | none =>
              have hcomp : writesRef
                  ⟨opId, seqn, ts, actorId, .cardUpdated cId ttl dsc (some none) lbls⟩
                  (.cardDue cId) =
                  [mkWrite ⟨opId, seqn, ts, actorId,
                    .cardUpdated cId ttl dsc (some none) lbls⟩
                    "card" cId "dueDate" (.null)] := by
                rcases ttl with _ | t <;> rcases dsc with _ | d <;>
                  rcases lbls with _ | ls <;>
                  simp [writesRef, writesForOp, conflictKey, refKey, mkWrite]
              rw [hcomp] at hw
              injection hw with hww _
              simp only [keyReady, readField] at hk
              cases hcm : lookupA cId s.cards with
              | none => rw [hcm] at hk; simp at hk
              | some c0 =>
                  simp only [readField]
                  rcases ttl with _ | t <;> rcases dsc with _ | d <;>
                    rcases lbls with _ | ls <;>
                    simp [applyOp, hcm, lookupA_setA_self, ← hww, mkWrite]
          | some d3 =>
              have hcomp : writesRef
                  ⟨opId, seqn, ts, actorId,
                    .cardUpdated cId ttl dsc (some (some d3)) lbls⟩
                  (.cardDue cId) =
                  [mkWrite ⟨opId, seqn, ts, actorId,
                    .cardUpdated cId ttl dsc (some (some d3)) lbls⟩
                    "card" cId "dueDate" (.str d3)] := by
                rcases ttl with _ | t <;> rcases dsc with _ | d <;>
                  rcases lbls with _ | ls <;>
                  simp [writesRef, writesForOp, conflictKey, refKey, mkWrite]
              rw [hcomp] at hw
              injection hw with hww _
              simp only [keyReady, readField] at hk
              cases hcm : lookupA cId s.cards with
              | none => rw [hcm] at hk; simp at hk
              | some c0 =>
                  simp only [readField]
                  rcases ttl with _ | t <;> rcases dsc with _ | d <;>
                    rcases lbls with _ | ls <;>
                    simp [applyOp, hcm, lookupA_setA_self, ← hww, mkWrite]
    · have hcomp : writesRef ⟨opId, seqn, ts, actorId, .cardUpdated cId ttl dsc dd lbls⟩
          (.cardDue c) = [] := by
        rcases ttl with _ | t <;> rcases dsc with _ | d <;> rcases dd with _ | (_ | dd2) <;>
          rcases lbls with _ | ls <;>
          simp [writesRef, writesForOp, conflictKey, refKey, mkWrite, hcc]
      rw [hcomp] at hw
      exact absurd hw (by simp)
  case cardLabels c =>
    by_cases hcc : cId = c
    · subst hcc
      cases hlo : lbls with
      | none =>
          rw [hlo] at hw
          have hcomp : writesRef
              ⟨opId, seqn, ts, actorId, .cardUpdated cId ttl dsc dd none⟩
              (.cardLabels cId) = [] := by
            rcases ttl with _ | t <;> rcases dsc with _ | d <;>
              rcases dd with _ | (_ | dd2) <;>
              simp [writesRef, writesForOp, conflictKey, refKey, mkWrite]
          rw [hcomp] at hw
          exact absurd hw (by simp)
      | some ls =>
          rw [hlo] at hw
          have hcomp : writesRef
              ⟨opId, seqn, ts, actorId, .cardUpdated cId ttl dsc dd (some ls)⟩
              (.cardLabels cId) =
              [mkWrite ⟨opId, seqn, ts, actorId, .cardUpdated cId ttl dsc dd (some ls)⟩
                "card" cId "labels" (.list ls)] := by
            rcases ttl with _ | t <;> rcases dsc with _ | d <;>
              rcases dd with _ | (_ | dd2) <;>
              simp [writesRef, writesForOp, conflictKey, refKey, mkWrite]
          rw [hcomp] at hw
          injection hw with hww _
          simp only [keyReady, readField] at hk
          cases hcm : lookupA cId s.cards with
          | none => rw [hcm] at hk; simp at hk
          | some c0 =>
              simp only [readField]
              rcases ttl with _ | t <;> rcases dsc with _ | d <;>
                rcases dd with _ | (_ | dd2) <;>
                simp [applyOp, hcm, lookupA_setA_self, ← hww, mkWrite]
    · have hcomp : writesRef ⟨opId, seqn, ts, actorId, .cardUpdated cId ttl dsc dd lbls⟩
          (.cardLabels c) = [] := by
        rcases ttl with _ | t <;> rcases dsc with _ | d <;> rcases dd with _ | (_ | dd2) <;>
          rcases lbls with _ | ls <;>
          simp [writesRef, writesForOp, conflictKey, refKey, mkWrite, hcc]
      rw [hcomp] at hw
      exact absurd hw (by simp)
  all_goals
    rcases ttl with _ | t <;> rcases dsc with _ | d <;> rcases dd with _ | (_ | dd2) <;>
      rcases lbls with _ | ls <;>
      simp [writesRef, writesForOp, conflictKey, refKey, mkWrite] at hw

/-- Write: an op whose single write targets the reference (and that is not
a member.added) sets the readable value to the written value, given the
reference is readable and the op's guards hold. -/
theorem readField_write (s : State) (op : Op) (r : FieldRef) (w : Write)
    (hw : writesRef op r = [w]) (hk : keyReady s r) (hg : guardsOk s op)
    (hoc : opClean op) (hrc : refClean r)
    (hna : ∀ b m rl, op.payload ≠ .memberAdded b m rl) :
    readField (applyOp s op) r = some w.value := by
  obtain ⟨opId, seqn, ts, actorId, payload⟩ := op
  cases payload with
  | boardCreated wsId bId nm => simp [writesRef, writesForOp] at hw
  | boardRenamed bId nm => exact readField_write_boardRenamed s opId seqn ts actorId bId nm r w hw hk
  | listCreated bId lId nm pos => simp [writesRef, writesForOp] at hw
  | listRenamed lId nm => exact readField_write_listRenamed s opId seqn ts actorId lId nm r w hw hk
  | listMoved lId pos => exact readField_write_listMoved s opId seqn ts actorId lId pos r w hw hk
  | cardCreated bId lId cId ttl pos => simp [writesRef, writesForOp] at hw
  | cardMoved cId fId tId pos =>
      exact readField_write_cardMoved s opId seqn ts actorId cId fId tId pos r w hw hg
  | cardUpdated cId ttl dsc dd lbls =>
      exact readField_write_cardUpdated s opId seqn ts actorId cId ttl dsc dd lbls r w hw hk
  | cardArchived cId a => exact readField_write_cardArchived s opId seqn ts actorId cId a r w hw hk
  | commentAdded cId cmId txt => simp [writesRef, writesForOp] at hw
  | checklistItemAdded cId iId txt pos => simp [writesRef, writesForOp] at hw
  | checklistItemToggled cId iId chk => simp [writesRef, writesForOp] at hw
  | checklistItemRenamed cId iId txt => simp [writesRef, writesForOp] at hw
  | checklistItemRemoved cId iId => simp [writesRef, writesForOp] at hw
  | memberAdded bId mId rl => exact absurd rfl (hna bId mId rl)
  | memberRoleChanged bId mId rl =>
      exact readField_write_memberRoleChanged s opId seqn ts actorId bId mId rl r w hw hg hoc hrc

/-
Existence of boards, lists and cards is monotone along the fold (no op
removes a map entry), so guards checked before a group still hold when
each op of the group is reached.
-/

theorem lookupA_modifyBoard_isSome (bid : String) (f : Board → Board) (s : State) (x : String)
    (h : (lookupA x s.boards).isSome = true) :
    (lookupA x (modifyBoard bid f s).boards).isSome = true := by
  by_cases hx : x = bid
  · subst hx
    rw [lookupA_modifyBoard_self]
    simpa using h
  · rw [lookupA_modifyBoard_ne _ _ _ _ hx]
    exact h

theorem lookupA_modifyList_isSome (lid : String) (f : BoardList → BoardList) (s : State)
    (x : String) (h : (lookupA x s.lists).isSome = true) :
    (lookupA x (modifyList lid f s).lists).isSome = true := by
  by_cases hx : x = lid
  · subst hx
    rw [lookupA_modifyList_self]
    simpa using h
  · rw [lookupA_modifyList_ne _ _ _ _ hx]
    exact h

theorem lookupA_modifyCard_isSome (cid : String) (f : Card → Card) (s : State) (x : String)
    (h : (lookupA x s.cards).isSome = true) :
    (lookupA x (modifyCard cid f s).cards).isSome = true := by
  by_cases hx : x = cid
  · subst hx
    rw [lookupA_modifyCard_self]
    simpa using h
  · rw [lookupA_modifyCard_ne _ _ _ _ hx]
    exact h

theorem applyOp_boards_isSome (s : State) (op : Op) (x : String)
    (h : (lookupA x s.boards).isSome = true) :
    (lookupA x (applyOp s op).boards).isSome = true := by
  obtain ⟨opId, seqn, ts, actorId, payload⟩ := op
  cases payload with
  | boardCreated wsId bId nm =>
      cases hws : lookupA wsId s.workspaces <;> cases hb2 : lookupA bId s.boards <;>
        simp only [applyOp, hws, hb2, modifyWorkspace_boards] <;>
        first
          | exact h
          | exact lookupA_isSome_setA _ _ _ _ h
  | boardRenamed bId nm => exact lookupA_modifyBoard_isSome _ _ _ _ h
  | listCreated bId lId nm pos =>
      cases hbm : lookupA bId s.boards with
      | none => simpa [applyOp, hbm] using h
      | some b0 =>
          cases hlm : lookupA lId s.lists with
          | some l0 =>
              simp only [applyOp, hbm, hlm]
              exact lookupA_modifyBoard_isSome _ _ _ _ h
          | none =>
              simp only [applyOp, hbm, hlm]
              exact lookupA_modifyBoard_isSome _ _ _ _
                (lookupA_modifyBoard_isSome _ _ _ _ h)
  | listRenamed lId nm => simpa [applyOp] using h
  | listMoved lId pos =>
      cases hlm : lookupA lId s.lists with
      | none => simpa [applyOp, hlm] using h
      | some l0 =>
          cases hb2 : lookupA l0.boardId s.boards with
          | none =>
              simp only [applyOp, hlm, hb2]
              exact h
          | some b2 =>
              simp only [applyOp, hlm, hb2]
              exact lookupA_modifyBoard_isSome _ _ _ _ h
  | cardCreated bId lId cId ttl pos =>
      cases hlm : lookupA lId s.lists with
      | none => simpa [applyOp, hlm] using h
      | some l0 =>
          cases hcm : lookupA cId s.cards <;> simp only [applyOp, hlm, hcm] <;>
            simpa using h
  | cardMoved cId fId tId pos =>
      cases hc : lookupA cId s.cards <;> cases hf : lookupA fId s.lists <;>
        cases ht : lookupA tId s.lists <;> simp only [applyOp, hc, hf, ht] <;>
          simpa using h
  | cardUpdated cId ttl dsc dd lbls =>
      cases hcm : lookupA cId s.cards <;> simp only [applyOp, hcm] <;> simpa using h
  | cardArchived cId a => simpa [applyOp] using h
  | commentAdded cId cmId txt =>
      cases hcm : lookupA cId s.cards <;> simp only [applyOp, hcm] <;> simpa using h
  | checklistItemAdded cId iId txt pos => simpa [applyOp] using h
  | checklistItemToggled cId iId chk => simpa [applyOp] using h
  | checklistItemRenamed cId iId txt => simpa [applyOp] using h
  | checklistItemRemoved cId iId => simpa [applyOp] using h
  | memberAdded bId mId rl =>
      cases hbm : lookupA bId s.boards <;> simp only [applyOp, hbm] <;> simpa using h
  | memberRoleChanged bId mId rl =>
      cases hbm : lookupA bId s.boards <;> simp only [applyOp, hbm] <;> simpa using h

theorem applyOp_lists_isSome (s : State) (op : Op) (x : String)
    (h : (lookupA x s.lists).isSome = true) :
    (lookupA x (applyOp s op).lists).isSome = true := by
  obtain ⟨opId, seqn, ts, actorId, payload⟩ := op
  cases payload with
  | boardCreated wsId bId nm =>
      cases hws : lookupA wsId s.workspaces <;> cases hb2 : lookupA bId s.boards <;>
        simp only [applyOp, hws, hb2, modifyWorkspace_lists, modifyBoard_lists] <;> exact h
  | boardRenamed bId nm => simpa [applyOp] using h
  | listCreated bId lId nm pos =>
      cases hbm : lookupA bId s.boards with
      | none => simpa [applyOp, hbm] using h
      | some b0 =>
          cases hlm : lookupA lId s.lists with
          | some l0 =>
              simp only [applyOp, hbm, hlm, modifyBoard_lists]
              exact h
          | none =>
              simp only [applyOp, hbm, hlm, modifyBoard_lists]
              exact lookupA_isSome_setA _ _ _ _ h
  | listRenamed lId nm => exact lookupA_modifyList_isSome _ _ _ _ h
  | listMoved lId pos =>
      cases hlm : lookupA lId s.lists with
      | none => simpa [applyOp, hlm] using h
      | some l0 =>
          cases hb2 : lookupA l0.boardId s.boards <;>
            simp only [applyOp, hlm, hb2, modifyBoard_lists] <;>
            exact lookupA_isSome_setA _ _ _ _ h
  | cardCreated bId lId cId ttl pos =>
      cases hlm : lookupA lId s.lists with
      | none => simpa [applyOp, hlm] using h
      | some l0 =>
          cases hcm : lookupA cId s.cards with
          | some c0 =>
              simp only [applyOp, hlm, hcm]
              exact lookupA_modifyList_isSome _ _ _ _ h
          | none =>
              simp only [applyOp, hlm, hcm]
              exact lookupA_modifyList_isSome _ _ _ _
                (lookupA_modifyList_isSome _ _ _ _ h)
  | cardMoved cId fId tId pos =>
      cases hc : lookupA cId s.cards with
      | none => simpa [applyOp, hc] using h
      | some c0 =>
          cases hf : lookupA fId s.lists with
          | none => simpa [applyOp, hc, hf] using h
          | some f0 =>
              cases ht : lookupA tId s.lists with
              | none => simpa [applyOp, hc, hf, ht] using h
              | some t0 =>
                  simp only [applyOp, hc, hf, ht]
                  exact lookupA_modifyList_isSome _ _ _ _
                    (lookupA_modifyList_isSome _ _ _ _
                      (by
                        simp only [modifyCard_lists]
                        exact lookupA_modifyList_isSome _ _ _ _
                          (lookupA_modifyList_isSome _ _ _ _ h)))
  | cardUpdated cId ttl dsc dd lbls =>
      cases hcm : lookupA cId s.cards <;> simp only [applyOp, hcm] <;> simpa using h
  | cardArchived cId a => simpa [applyOp] using h
  | commentAdded cId cmId txt =>
      cases hcm : lookupA cId s.cards <;> simp only [applyOp, hcm] <;> simpa using h
  | checklistItemAdded cId iId txt pos => simpa [applyOp] using h
  | checklistItemToggled cId iId chk => simpa [applyOp] using h
  | checklistItemRenamed cId iId txt => simpa [applyOp] using h
  | checklistItemRemoved cId iId => simpa [applyOp] using h
  | memberAdded bId mId rl =>
      cases hbm : lookupA bId s.boards <;> simp only [applyOp, hbm] <;> simpa using h
  | memberRoleChanged bId mId rl =>
      cases hbm : lookupA bId s.boards <;> simp only [applyOp, hbm] <;> simpa using h

theorem applyOp_cards_isSome (s : State) (op : Op) (x : String)
    (h : (lookupA x s.cards).isSome = true) :
    (lookupA x (applyOp s op).cards).isSome = true := by
  obtain ⟨opId, seqn, ts, actorId, payload⟩ := op
  cases payload with
  | boardCreated wsId bId nm =>
      cases hws : lookupA wsId s.workspaces <;> cases hb2 : lookupA bId s.boards <;>
        simp only [applyOp, hws, hb2, modifyWorkspace_cards, modifyBoard_cards] <;> exact h
  | boardRenamed bId nm => simpa [applyOp] using h
  | listCreated bId lId nm pos =>
      cases hbm : lookupA bId s.boards with
      | none => simpa [applyOp, hbm] using h
      | some b0 =>
          cases hlm : lookupA lId s.lists <;>
            simp only [applyOp, hbm, hlm, modifyBoard_cards] <;> exact h
  | listRenamed lId nm => simpa [applyOp] using h
  | listMoved lId pos =>
      cases hlm : lookupA lId s.lists with
      | none => simpa [applyOp, hlm] using h
      | some l0 =>
          cases hb2 : lookupA l0.boardId s.boards <;>
            simp only [applyOp, hlm, hb2, modifyBoard_cards] <;> exact h
  | cardCreated bId lId cId ttl pos =>
      cases hlm : lookupA lId s.lists with
      | none => simpa [applyOp, hlm] using h
      | some l0 =>
          cases hcm : lookupA cId s.cards with
          | some c0 =>
              simp only [applyOp, hlm, hcm, modifyList_cards]
              exact h
          | none =>
              simp only [applyOp, hlm, hcm, modifyList_cards]
              exact lookupA_isSome_setA _ _ _ _ h
  | cardMoved cId fId tId pos =>
      cases hc : lookupA cId s.cards with
      | none => simpa [applyOp, hc] using h
      | some c0 =>
          cases hf : lookupA fId s.lists with
          | none => simpa [applyOp, hc, hf] using h
          | some f0 =>
              cases ht : lookupA tId s.lists with
              | none => simpa [applyOp, hc, hf, ht] using h
              | some t0 =>
                  simp only [applyOp, hc, hf, ht, modifyList_cards]
                  exact lookupA_modifyCard_isSome _ _ _ _
                    (by simp only [modifyList_cards]; exact h)
  | cardUpdated cId ttl dsc dd lbls =>
      cases hcm : lookupA cId s.cards with
      | none => simpa [applyOp, hcm] using h
      | some c0 =>
          simp only [applyOp, hcm]
          exact lookupA_isSome_setA _ _ _ _ h
  | cardArchived cId a => exact lookupA_modifyCard_isSome _ _ _ _ h
  | commentAdded cId cmId txt =>
      cases hcm : lookupA cId s.cards <;> simp only [applyOp, hcm] <;> simpa using h
  | checklistItemAdded cId iId txt pos => exact lookupA_modifyCard_isSome _ _ _ _ h
  | checklistItemToggled cId iId chk => exact lookupA_modifyCard_isSome _ _ _ _ h
  | checklistItemRenamed cId iId txt => exact lookupA_modifyCard_isSome _ _ _ _ h
  | checklistItemRemoved cId iId => exact lookupA_modifyCard_isSome _ _ _ _ h
  | memberAdded bId mId rl =>
      cases hbm : lookupA bId s.boards <;> simp only [applyOp, hbm] <;> simpa using h
  | memberRoleChanged bId mId rl =>
      cases hbm : lookupA bId s.boards <;> simp only [applyOp, hbm] <;> simpa using h

theorem guardsOk_mono (s : State) (op op2 : Op) (h : guardsOk s op2) :
    guardsOk (applyOp s op) op2 := by
  obtain ⟨opId2, seqn2, ts2, actorId2, payload2⟩ := op2
  cases payload2
  case cardMoved cId fId tId pos =>
    exact ⟨applyOp_cards_isSome s op cId h.1, applyOp_lists_isSome s op fId h.2.1,
      applyOp_lists_isSome s op tId h.2.2⟩
  case memberAdded bId mId rl => exact applyOp_boards_isSome s op bId h
  case memberRoleChanged bId mId rl => exact applyOp_boards_isSome s op bId h
  all_goals trivial

/-
The last-write-wins induction over one group.
-/

theorem writesRef_singleton (op : Op) (r : FieldRef) (h : writesRef op r ≠ []) :
    ∃ w, writesRef op r = [w] := by
  have hlen : (writesRef op r).length ≤ 1 := writesForOp_key_count op (refKey r)
  cases hwr : writesRef op r with
  | nil => exact absurd hwr h
  | cons a t2 =>
      rw [hwr] at hlen
      simp only [List.length_cons, Nat.succ_le_succ_iff, Nat.le_zero,
        List.length_eq_zero] at hlen
      exact ⟨a, by rw [hlen]⟩

theorem flatMap_writesRef_nil (r : FieldRef) (l : List Op)
    (h : l.flatMap (fun op => writesRef op r) = []) : ∀ op ∈ l, writesRef op r = [] := by
  induction l with
  | nil => intro o ho; simp at ho
  | cons op t ih =>
      rw [List.flatMap_cons, List.append_eq_nil] at h
      intro o ho
      rcases List.mem_cons.mp ho with rfl | ho2
      · exact h.1
      · exact ih h.2 o ho2

theorem getLast_eq_of_eq (l : List Write) (w : Write) (hl : l = [w]) (h : l ≠ []) :
    l.getLast h = w := by
  subst hl
  rfl

theorem keyReady_step (s : State) (op : Op) (r : FieldRef) (hk : keyReady s r)
    (hg : guardsOk s op) (hoc : opClean op) (hrc : refClean r)
    (hna : writesRef op r ≠ [] → ∀ b m rl, op.payload ≠ .memberAdded b m rl) :
    keyReady (applyOp s op) r := by
  by_cases hwop : writesRef op r = []
  · simp only [keyReady] at hk
    cases hvs : readField s r with
    | none => rw [hvs] at hk; simp at hk
    | some v0 =>
        simp only [keyReady]
        rw [readField_frame s op r v0 hwop hvs]
        rfl
  · obtain ⟨w, hw⟩ := writesRef_singleton op r hwop
    simp only [keyReady]
    rw [readField_write s op r w hw hk hg hoc hrc (hna hwop)]
    rfl

theorem readField_frame_fold (r : FieldRef) (v : Value) : ∀ (l : List Op) (s : State),
    (∀ op ∈ l, writesRef op r = []) → readField s r = some v →
    readField (l.foldl applyOp s) r = some v := by
  intro l
  induction l with
  | nil => intro s _ hv; exact hv
  | cons op t ih =>
      intro s hall hv
      rw [List.foldl_cons]
      exact ih (applyOp s op) (fun o ho => hall o (List.mem_cons_of_mem _ ho))
        (readField_frame s op r v (hall op (List.mem_cons_self _ _)) hv)

theorem group_last_write (r : FieldRef) (hrc : refClean r) : ∀ (g : List Op) (s : State),
    keyReady s r →
    (∀ op ∈ g, guardsOk s op) → (∀ op ∈ g, opClean op) →
    (∀ op ∈ g, writesRef op r ≠ [] → ∀ b m rl, op.payload ≠ .memberAdded b m rl) →
    ∀ h : g.flatMap (fun op => writesRef op r) ≠ [],
    readField (g.foldl applyOp s) r =
      some ((g.flatMap (fun op => writesRef op r)).getLast h).value := by
  intro g
  induction g with
  | nil => intro s _ _ _ _ h; exact absurd rfl h
  | cons op t ih =>
      intro s hk hg hoc hna h
      rw [List.foldl_cons]
      by_cases hrest : t.flatMap (fun op => writesRef op r) = []
      · have hwop : writesRef op r ≠ [] := by
          intro hnil
          apply h
          rw [List.flatMap_cons, hnil, hrest]
          rfl
        obtain ⟨w, hw⟩ := writesRef_singleton op r hwop
        have hfl : (op :: t).flatMap (fun op => writesRef op r) = [w] := by
          rw [List.flatMap_cons, hw, hrest, List.append_nil]
        rw [getLast_eq_of_eq _ w hfl h]
        exact readField_frame_fold r w.value t (applyOp s op)
          (flatMap_writesRef_nil r t hrest)
          (readField_write s op r w hw hk (hg op (List.mem_cons_self _ _))
            (hoc op (List.mem_cons_self _ _)) hrc
            (hna op (List.mem_cons_self _ _) hwop))
      · have hk2 : keyReady (applyOp s op) r :=
          keyReady_step s op r hk (hg op (List.mem_cons_self _ _))
            (hoc op (List.mem_cons_self _ _)) hrc (hna op (List.mem_cons_self _ _))
        have hrec := ih (applyOp s op) hk2
          (fun o ho => guardsOk_mono s op o (hg o (List.mem_cons_of_mem _ ho)))
          (fun o ho => hoc o (List.mem_cons_of_mem _ ho))
          (fun o ho => hna o (List.mem_cons_of_mem _ ho))
          hrest
        rw [hrec]
        congr 1
        have hsplit : (op :: t).flatMap (fun op => writesRef op r) =
            writesRef op r ++ t.flatMap (fun op => writesRef op r) := List.flatMap_cons ..
        rw [show ((op :: t).flatMap (fun op => writesRef op r)).getLast h =
            (t.flatMap (fun op => writesRef op r)).getLast hrest from by
          have h2 : writesRef op r ++ t.flatMap (fun op => writesRef op r) ≠ [] := by
            rw [← hsplit]; exact h
          calc ((op :: t).flatMap (fun op => writesRef op r)).getLast h =
              (writesRef op r ++ t.flatMap (fun op => writesRef op r)).getLast h2 := by
                congr 1
            _ = (t.flatMap (fun op => writesRef op r)).getLast hrest :=
                List.getLast_append' _ _ hrest]

/-- C3: the replay fold processes each maximal same-seq group by first
appending the group's conflicts and then applying every op of the group in
order — conflicts never block, so the rebuilt data state is the plain op
fold with the per-group conflict detections concatenated; on a
(seq, opId)-sorted log the groups partition the log, each group shares one
seq and ascends by opId (so foldl applies it in opId order), the groups
carry strictly increasing seqs (maximality); and within a group the
last-applied write to a field is the value the state holds after the
group, PROVIDED no member.added op of the group writes that field — the
counterexample shows the claim's unconditional last-write-wins clause
fails on member.added, which is first-write-wins. -/
theorem claim3_group_fold_last_write (w : String) (ops : List Op)
    (hs : List.Pairwise opLe ops) :
    ((rebuildState w ops).1 =
      { ops.foldl applyOp (createEmptyState w) with
        conflicts := (groupBySeq ops).flatMap detectConflictsForSeqGroup }) ∧
    (groupBySeq ops).flatten = ops ∧
    (∀ g ∈ groupBySeq ops, g ≠ [] ∧ (∀ o1 ∈ g, ∀ o2 ∈ g, o1.seq = o2.seq) ∧
      List.Pairwise (fun a b => strLe a.opId b.opId) g) ∧
    List.Pairwise (fun g1 g2 => ∀ o1 ∈ g1, ∀ o2 ∈ g2, o1.seq < o2.seq) (groupBySeq ops) ∧
    (∀ g ∈ groupBySeq ops, ∀ (s : State) (r : FieldRef),
      keyReady s r → refClean r →
      (∀ op ∈ g, guardsOk s op) → (∀ op ∈ g, opClean op) →
      (∀ op ∈ g, writesRef op r ≠ [] → ∀ b m rl, op.payload ≠ .memberAdded b m rl) →
      ∀ h : g.flatMap (fun op => writesRef op r) ≠ [],
      readField (g.foldl applyOp s) r =
        some ((g.flatMap (fun op => writesRef op r)).getLast h).value) := by
  refine ⟨congrArg Prod.fst (rebuildState_spec w ops), groupBySeq_flatten ops, ?_, ?_, ?_⟩
  · intro g hg
    have hgrp := groupBySeqGo_groups ops.length ops le_rfl g hg
    have hsort := (groupBySeqGo_sorted ops.length ops le_rfl hs).1 g hg
    refine ⟨hgrp.1, hgrp.2, ?_⟩
    refine List.Pairwise.imp_of_mem ?_ hsort
    intro a b ha hb hab
    rcases hab with hlt | ⟨_, hle⟩
    · have := hgrp.2 a ha b hb
      omega
    · exact hle
  · exact (groupBySeqGo_sorted ops.length ops le_rfl hs).2
  · intro g hg s r hk hrc hgok hoc hna h
    exact group_last_write r hrc g s hk hgok hoc hna h

/-- C3 counterexample: in the sorted log c3ops, the seq-2 group writes the
membership key twice — opId a writes viewer via member.roleChanged, opId b
writes editor via member.added; the last-applied (highest-opId) write
carries editor, yet the rebuilt state records viewer, because the fold's
member.added rule is first-write-wins.  This refutes the claim's
unconditional last-write-wins clause. -/
theorem claim3_counterexample :
    List.Pairwise opLe c3ops ∧
    groupBySeq c3ops = [[c3op1], [c3op2, c3op3]] ∧
    (([c3op2, c3op3].flatMap
        (fun op => writesRef op (.memberRole "B" "u"))).map Write.value =
      [Value.str "viewer", Value.str "editor"]) ∧
    ((([c3op2, c3op3].flatMap
        (fun op => writesRef op (.memberRole "B" "u"))).getLast?).map Write.value =
      some (Value.str "editor")) ∧
    readField (rebuildState "w" c3ops).1 (.memberRole "B" "u") =
      some (Value.str "viewer") := by
  decide

/-- Closed witness for C3 on the log c3wops, whose seq-2 group writes the
membership key twice via member.roleChanged only: every hypothesis of the
claim theorem is discharged concretely, and the conditional last-write
clause is instantiated at the seq-2 group. -/
theorem claim3_witness :
    ((rebuildState "w" c3wops).1 =
      { c3wops.foldl applyOp (createEmptyState "w") with
        conflicts := (groupBySeq c3wops).flatMap detectConflictsForSeqGroup }) ∧
    ([c3wop2, c3wop3] ∈ groupBySeq c3wops ∧
      readField ([c3wop2, c3wop3].foldl applyOp (applyOp (createEmptyState "w") c3wop1))
          (.memberRole "B" "u") =
        some (([c3wop2, c3wop3].flatMap
          (fun op => writesRef op (.memberRole "B" "u"))).getLast (by decide)).value) := by
  have hmain := claim3_group_fold_last_write "w" c3wops (by decide)
  refine ⟨hmain.1, ?_, ?_⟩
  · decide
  · exact hmain.2.2.2.2 [c3wop2, c3wop3] (by decide)
      (applyOp (createEmptyState "w") c3wop1) (.memberRole "B" "u")
      (by decide) (by decide) (by decide) (by decide)
      (by
        intro o ho _hne b m rl
        rcases List.mem_cons.mp ho with rfl | ho2
        · simp [c3wop2, mkOp]
        · rcases List.mem_cons.mp ho2 with rfl | ho3
          · simp [c3wop3, mkOp]
          · simp at ho3)
      (by decide)

/-
C4.  Card placement: association-list and sorting toolkit.
-/

theorem setA_setA {κ : Type} [DecidableEq κ] (k : κ) (v1 v0 : β) (l : List (κ × β)) :
    setA k v1 (setA k v0 l) = setA k v1 l := by
  induction l with
  | nil => simp [setA]
  | cons hd t ih =>
      obtain ⟨k1, w1⟩ := hd
      by_cases hk : k1 = k
      · subst hk
        simp [setA]
      · simp [setA, hk, ih]

theorem setA_comm_of_some {κ : Type} [DecidableEq κ] (k1 k2 : κ) (v1 v2 : β)
    (l : List (κ × β)) (hne : k1 ≠ k2) (h2 : (lookupA k2 l).isSome = true) :
    setA k1 v1 (setA k2 v2 l) = setA k2 v2 (setA k1 v1 l) := by
  induction l with
  | nil => simp [lookupA] at h2
  | cons hd t ih =>
      obtain ⟨ka, wa⟩ := hd
      by_cases ha2 : ka = k2
      · have h1 : ¬ k2 = k1 := fun h => hne h.symm
        have h1s : ¬ k1 = k2 := hne
        subst ha2
        simp [setA, h1, h1s]
      · by_cases ha1 : ka = k1
        · subst ha1
          simp [setA, ha2]
        · have h2t : (lookupA k2 t).isSome = true := by
            simpa [lookupA, ha2] using h2
          simp [setA, ha1, ha2, ih h2t]

theorem map_fst_setA_some {κ : Type} [DecidableEq κ] (k : κ) (v v0 : β) (l : List (κ × β))
    (h : lookupA k l = some v0) : (setA k v l).map Prod.fst = l.map Prod.fst := by
  induction l with
  | nil => simp [lookupA] at h
  | cons hd t ih =>
      obtain ⟨k1, w1⟩ := hd
      by_cases hk : k1 = k
      · subst hk
        simp [setA]
      · have ht : lookupA k t = some v0 := by simpa [lookupA, hk] using h
        simp [setA, hk, ih ht]

theorem mem_setA_iff {κ : Type} [DecidableEq κ] (k : κ) (v : β) (l : List (κ × β))
    (hnd : (l.map Prod.fst).Nodup) (p : κ × β) :
    p ∈ setA k v l ↔ (p = (k, v) ∨ (p ∈ l ∧ p.1 ≠ k)) := by
  induction l with
  | nil => simp [setA]
  | cons hd t ih =>
      obtain ⟨k1, w1⟩ := hd
      rw [List.map_cons] at hnd
      have hnd0 := List.nodup_cons.mp hnd
      by_cases hk : k1 = k
      · subst hk
        show p ∈ (if k1 = k1 then (k1, v) :: t else (k1, w1) :: setA k1 v t) ↔ _
        rw [if_pos rfl, List.mem_cons]
        constructor
        · rintro (rfl | hp2)
          · exact Or.inl rfl
          · refine Or.inr ⟨List.mem_cons_of_mem _ hp2, ?_⟩
            intro hpk
            exact hnd0.1 (by rw [← hpk]; exact List.mem_map.mpr ⟨p, hp2, rfl⟩)
        · rintro (rfl | ⟨hp2, hpk⟩)
          · exact Or.inl rfl
          · rcases List.mem_cons.mp hp2 with rfl | hp3
            · exact absurd rfl hpk
            · exact Or.inr hp3
      · show p ∈ (if k1 = k then (k, v) :: t else (k1, w1) :: setA k v t) ↔ _
        rw [if_neg hk, List.mem_cons, ih hnd0.2]
        constructor
        · rintro (rfl | (rfl | ⟨hp2, hpk⟩))
          · exact Or.inr ⟨List.mem_cons_self _ _, hk⟩
          · exact Or.inl rfl
          · exact Or.inr ⟨List.mem_cons_of_mem _ hp2, hpk⟩
        · rintro (rfl | ⟨hp2, hpk⟩)
          · exact Or.inr (Or.inl rfl)
          · rcases List.mem_cons.mp hp2 with rfl | hp3
            · exact Or.inl rfl
            · exact Or.inr (Or.inr ⟨hp3, hpk⟩)

instance (posOf : String → Int) : IsTotal String (posIdLe posOf) where
  total a b := by
    rcases lt_trichotomy (posOf a) (posOf b) with h | h | h
    · exact Or.inl (Or.inl h)
    · rcases strLe_total a b with h2 | h2
      · exact Or.inl (Or.inr ⟨h, h2⟩)
      · exact Or.inr (Or.inr ⟨h.symm, h2⟩)
    · exact Or.inr (Or.inl h)

instance (posOf : String → Int) : IsTrans String (posIdLe posOf) where
  trans a b c h1 h2 := by
    rcases h1 with h1 | ⟨he1, hs1⟩ <;> rcases h2 with h2 | ⟨he2, hs2⟩
    · exact Or.inl (h1.trans h2)
    · exact Or.inl (he2 ▸ h1)
    · exact Or.inl (he1 ▸ h2)
    · exact Or.inr ⟨he1.trans he2, strLe_trans hs1 hs2⟩

theorem sortIdsByPosition_perm (ids : List String) (posOf : String → Int) :
    (sortIdsByPosition ids posOf).Perm ids :=
  List.perm_insertionSort _ _

theorem sortIdsByPosition_sorted (ids : List String) (posOf : String → Int) :
    List.Pairwise (posIdLe posOf) (sortIdsByPosition ids posOf) :=
  List.sorted_insertionSort _ _

theorem removeFromArray_sublist (l : List String) (x : String) :
    List.Sublist (removeFromArray l x) l := by
  induction l with
  | nil => simp [removeFromArray]
  | cons a t ih =>
      show List.Sublist (if a = x then t else a :: removeFromArray t x) (a :: t)
      by_cases hax : a = x
      · rw [if_pos hax]
        exact List.sublist_cons_self a t
      · rw [if_neg hax]
        exact ih.cons₂ a

theorem mem_removeFromArray (l : List String) (x y : String) (hnd : l.Nodup) :
    y ∈ removeFromArray l x ↔ (y ∈ l ∧ y ≠ x) := by
  induction l with
  | nil => simp [removeFromArray]
  | cons a t ih =>
      have hnd2 := List.nodup_cons.mp hnd
      show y ∈ (if a = x then t else a :: removeFromArray t x) ↔ _
      by_cases hax : a = x
      · subst hax
        rw [if_pos rfl, List.mem_cons]
        constructor
        · intro hy
          exact ⟨Or.inr hy, fun he => hnd2.1 (he ▸ hy)⟩
        · rintro ⟨(rfl | hy), hne⟩
          · exact absurd rfl hne
          · exact hy
      · rw [if_neg hax, List.mem_cons, List.mem_cons, ih hnd2.2]
        constructor
        · rintro (rfl | ⟨hy, hne⟩)
          · exact ⟨Or.inl rfl, hax⟩
          · exact ⟨Or.inr hy, hne⟩
        · rintro ⟨(rfl | hy), hne⟩
          · exact Or.inl rfl
          · exact Or.inr ⟨hy, hne⟩

theorem removeFromArray_of_not_mem (l : List String) (x : String) (h : x ∉ l) :
    removeFromArray l x = l := by
  induction l with
  | nil => rfl
  | cons a t ih =>
      show (if a = x then t else a :: removeFromArray t x) = a :: t
      rw [if_neg (fun he => h (by rw [← he]; exact List.mem_cons_self a t))]
      rw [ih (fun ht => h (List.mem_cons_of_mem a ht))]

theorem pairwise_posIdLe_congr (ids : List String) (f g : String → Int)
    (h : ∀ x ∈ ids, g x = f x) (hp : List.Pairwise (posIdLe f) ids) :
    List.Pairwise (posIdLe g) ids := by
  refine List.Pairwise.imp_of_mem ?_ hp
  intro a b ha hb hab
  show g a < g b ∨ (g a = g b ∧ strLe a b)
  rw [h a ha, h b hb]
  exact hab

theorem posOfC_setA_ne (cs : List (String × Card)) (cId : String) (c1 : Card)
    (cid : String) (h : cid ≠ cId) : posOfC (setA cId c1 cs) cid = posOfC cs cid := by
  unfold posOfC
  rw [lookupA_setA_ne _ _ _ _ h]

theorem posOfC_setA_pres (cs : List (String × Card)) (cId : String) (c0 c1 : Card)
    (h0 : lookupA cId cs = some c0) (hp : c1.position = c0.position) :
    posOfC (setA cId c1 cs) = posOfC cs := by
  funext cid
  by_cases hc : cid = cId
  · subst hc
    unfold posOfC
    rw [lookupA_setA_self, h0]
    show c1.position = c0.position
    exact hp
  · exact posOfC_setA_ne _ _ _ _ hc

theorem countP_eq_one_unique {α : Type} (pr : α → Bool) : ∀ (l : List α) (a : α),
    a ∈ l → pr a = true → (∀ b ∈ l, pr b = true → b = a) → l.Nodup →
    l.countP pr = 1 := by
  intro l
  induction l with
  | nil => intro a ha _ _ _; simp at ha
  | cons x t ih =>
      intro a ha hpa huniq hnd
      rw [List.countP_cons]
      rcases List.mem_cons.mp ha with rfl | hat
      · have h0 : t.countP pr = 0 := by
          rw [List.countP_eq_zero]
          intro b hb hpb
          have hba := huniq b (List.mem_cons_of_mem _ hb) hpb
          subst hba
          exact (List.nodup_cons.mp hnd).1 hb
        rw [h0, hpa]
        rfl
      · have hpx : pr x = false := by
          by_contra hpx
          have hx := huniq x (List.mem_cons_self _ _) (by simpa using hpx)
          subst hx
          exact (List.nodup_cons.mp hnd).1 hat
        rw [ih a hat hpa (fun b hb hpb => huniq b (List.mem_cons_of_mem _ hb) hpb)
          (List.nodup_cons.mp hnd).2, hpx]
        rfl

/-
C4.  Preservation of the card-placement invariant by each kind of
lists/cards update performed by applyOp.
-/

theorem listCardInv_setA_card {ls : List (String × BoardList)} {cs : List (String × Card)}
    {cId : String} {c0 c1 : Card}
    (h0 : lookupA cId cs = some c0) (hl : c1.listId = c0.listId)
    (hp : c1.position = c0.position) (hinv : listCardInv ls cs) :
    listCardInv ls (setA cId c1 cs) := by
  obtain ⟨hk1, hk2, hml, hmr, hnd, hsrt⟩ := hinv
  refine ⟨hk1, by rw [map_fst_setA_some _ _ _ _ h0]; exact hk2, ?_, ?_, hnd, ?_⟩
  · intro p hpmem cid hcid
    by_cases hc : cid = cId
    · subst hc
      rw [lookupA_setA_self]
      have hv := hml p hpmem cid hcid
      rw [h0] at hv
      simpa [hl] using hv
    · rw [lookupA_setA_ne _ _ _ _ hc]
      exact hml p hpmem cid hcid
  · intro q hq
    rw [mem_setA_iff _ _ _ hk2] at hq
    rcases hq with rfl | ⟨hq2, _⟩
    · have hc0mem : (cId, c0) ∈ cs := (mem_iff_lookupA cs hk2 cId c0).mpr h0
      have hv := hmr (cId, c0) hc0mem
      simpa [hl] using hv
    · exact hmr q hq2
  · intro p hpmem
    rw [posOfC_setA_pres cs cId c0 c1 h0 hp]
    exact hsrt p hpmem

theorem listCardInv_setA_list_perm {ls : List (String × BoardList)} {cs : List (String × Card)}
    {lId : String} {l0 : BoardList}
    (h0 : lookupA lId ls = some l0) {l1 : BoardList}
    (hperm : l1.cardIds.Perm l0.cardIds)
    (hsorted1 : List.Pairwise (posIdLe (posOfC cs)) l1.cardIds)
    (hinv : listCardInv ls cs) : listCardInv (setA lId l1 ls) cs := by
  obtain ⟨hk1, hk2, hml, hmr, hnd, hsrt⟩ := hinv
  have hl0mem : (lId, l0) ∈ ls := (mem_iff_lookupA ls hk1 lId l0).mpr h0
  refine ⟨by rw [map_fst_setA_some _ _ _ _ h0]; exact hk1, hk2, ?_, ?_, ?_, ?_⟩
  · intro p hp
    rw [mem_setA_iff _ _ _ hk1] at hp
    rcases hp with rfl | ⟨hp2, _⟩
    · intro cid hcid
      have hcid2 : cid ∈ l0.cardIds := hperm.mem_iff.mp hcid
      exact hml (lId, l0) hl0mem cid hcid2
    · exact hml p hp2
  · intro q hq
    have hv := hmr q hq
    by_cases hql : q.2.listId = lId
    · rw [hql] at hv ⊢
      rw [lookupA_setA_self]
      rw [h0] at hv
      simp at hv ⊢
      exact hperm.mem_iff.mpr hv
    · rw [lookupA_setA_ne _ _ _ _ hql]
      exact hv
  · intro p hp
    rw [mem_setA_iff _ _ _ hk1] at hp
    rcases hp with rfl | ⟨hp2, _⟩
    · exact hperm.nodup_iff.mpr (hnd (lId, l0) hl0mem)
    · exact hnd p hp2
  · intro p hp
    rw [mem_setA_iff _ _ _ hk1] at hp
    rcases hp with rfl | ⟨hp2, _⟩
    · exact hsorted1
    · exact hsrt p hp2

theorem listCardInv_setA_list_eq {ls : List (String × BoardList)} {cs : List (String × Card)}
    {lId : String} {l0 l1 : BoardList}
    (h0 : lookupA lId ls = some l0) (hc : l1.cardIds = l0.cardIds)
    (hinv : listCardInv ls cs) : listCardInv (setA lId l1 ls) cs := by
  have hl0mem : (lId, l0) ∈ ls := (mem_iff_lookupA ls hinv.1 lId l0).mpr h0
  refine listCardInv_setA_list_perm h0 (by rw [hc]) ?_ hinv
  rw [hc]
  exact hinv.2.2.2.2.2 (lId, l0) hl0mem

theorem listCardInv_list_fresh {ls : List (String × BoardList)} {cs : List (String × Card)}
    {lId : String} {l1 : BoardList}
    (hfresh : lookupA lId ls = none) (hempty : l1.cardIds = [])
    (hinv : listCardInv ls cs) : listCardInv (setA lId l1 ls) cs := by
  obtain ⟨hk1, hk2, hml, hmr, hnd, hsrt⟩ := hinv
  have happ : setA lId l1 ls = ls ++ [(lId, l1)] := setA_absent_eq_append _ _ _ hfresh
  have hknot : lId ∉ ls.map Prod.fst := (lookupA_eq_none_iff _ _).mp hfresh
  rw [happ]
  refine ⟨?_, hk2, ?_, ?_, ?_, ?_⟩
  · rw [List.map_append]
    refine List.Nodup.append hk1 (by simp) ?_
    intro a ha hb
    simp at hb
    subst hb
    exact hknot ha
  · intro p hp
    rcases List.mem_append.mp hp with hp2 | hp2
    · exact hml p hp2
    · simp at hp2
      subst hp2
      intro cid hcid
      rw [show ((lId, l1)).2.cardIds = ([] : List String) from hempty] at hcid
      simp at hcid
  · intro q hq
    have hv := hmr q hq
    cases hlk : lookupA q.2.listId ls with
    | none => rw [hlk] at hv; simp at hv
    | some l =>
        rw [lookupA_append_left _ _ _ hlk]
        rw [hlk] at hv
        exact hv
  · intro p hp
    rcases List.mem_append.mp hp with hp2 | hp2
    · exact hnd p hp2
    · simp at hp2
      subst hp2
      rw [show ((lId, l1)).2.cardIds = ([] : List String) from hempty]
      simp
  · intro p hp
    rcases List.mem_append.mp hp with hp2 | hp2
    · exact hsrt p hp2
    · simp at hp2
      subst hp2
      rw [show ((lId, l1)).2.cardIds = ([] : List String) from hempty]
      simp

theorem listCardInv_card_create {ls : List (String × BoardList)} {cs : List (String × Card)}
    {lId cId : String} {l0 : BoardList} {c1 : Card}
    (h0 : lookupA lId ls = some l0) (hfresh : lookupA cId cs = none)
    (hcl : c1.listId = lId)
    {X : List String} (hX : X.Perm (l0.cardIds ++ [cId]))
    (hsX : List.Pairwise (posIdLe (posOfC (setA cId c1 cs))) X)
    {L1 : BoardList} (hL1 : L1.cardIds = X)
    (hinv : listCardInv ls cs) :
    listCardInv (setA lId L1 ls) (setA cId c1 cs) := by
  obtain ⟨hk1, hk2, hml, hmr, hnd, hsrt⟩ := hinv
  have hl0mem : (lId, l0) ∈ ls := (mem_iff_lookupA ls hk1 lId l0).mpr h0
  have hknot : cId ∉ cs.map Prod.fst := (lookupA_eq_none_iff _ _).mp hfresh
  have hcnotin : ∀ p ∈ ls, cId ∉ p.2.cardIds := by
    intro p hp hmem
    have hv := hml p hp cId hmem
    rw [hfresh] at hv
    simp at hv
  have hkeys2 : ((setA cId c1 cs).map Prod.fst).Nodup := by
    rw [setA_absent_eq_append _ _ _ hfresh, List.map_append]
    refine List.Nodup.append hk2 (by simp) ?_
    intro a ha hb
    simp at hb
    subst hb
    exact hknot ha
  refine ⟨by rw [map_fst_setA_some _ _ _ _ h0]; exact hk1, hkeys2, ?_, ?_, ?_, ?_⟩
  · intro p hp cid hcid
    rw [mem_setA_iff _ _ _ hk1] at hp
    rcases hp with rfl | ⟨hp2, _⟩
    · replace hcid : cid ∈ X := by rw [← hL1]; exact hcid
      have hcid2 : cid ∈ l0.cardIds ++ [cId] := hX.mem_iff.mp hcid
      rcases List.mem_append.mp hcid2 with hcd | hcd
      · have hne : cid ≠ cId := fun he => hcnotin (lId, l0) hl0mem (by rw [← he]; exact hcd)
        rw [lookupA_setA_ne _ _ _ _ hne]
        exact hml (lId, l0) hl0mem cid hcd
      · simp at hcd
        subst hcd
        rw [lookupA_setA_self]
        simp [hcl]
    · have hne : cid ≠ cId := fun he => hcnotin p hp2 (by rw [← he]; exact hcid)
      rw [lookupA_setA_ne _ _ _ _ hne]
      exact hml p hp2 cid hcid
  · intro q hq
    rw [mem_setA_iff _ _ _ hk2] at hq
    rcases hq with rfl | ⟨hq2, hqk⟩
    · rw [show ((cId, c1)).2.listId = lId from hcl, lookupA_setA_self]
      simp [hL1, hX.mem_iff]
    · have hv := hmr q hq2
      by_cases hql : q.2.listId = lId
      · rw [hql] at hv ⊢
        rw [lookupA_setA_self]
        rw [h0] at hv
        simp at hv ⊢
        rw [hL1]
        exact hX.mem_iff.mpr (List.mem_append_left _ hv)
      · rw [lookupA_setA_ne _ _ _ _ hql]
        exact hv
  · intro p hp
    rw [mem_setA_iff _ _ _ hk1] at hp
    rcases hp with rfl | ⟨hp2, _⟩
    · show L1.cardIds.Nodup
      rw [hL1]
      refine hX.nodup_iff.mpr ?_
      refine List.Nodup.append (hnd (lId, l0) hl0mem) (by simp) ?_
      intro a ha hb
      simp at hb
      subst hb
      exact hcnotin (lId, l0) hl0mem ha
    · exact hnd p hp2
  · intro p hp
    rw [mem_setA_iff _ _ _ hk1] at hp
    rcases hp with rfl | ⟨hp2, _⟩
    · show List.Pairwise (posIdLe (posOfC (setA cId c1 cs))) L1.cardIds
      rw [hL1]
      exact hsX
    · refine pairwise_posIdLe_congr _ (posOfC cs) _ ?_ (hsrt p hp2)
      intro x hx
      exact posOfC_setA_ne _ _ _ _ (fun he => hcnotin p hp2 (by rw [← he]; exact hx))

theorem listCardInv_card_moved_ne {ls : List (String × BoardList)} {cs : List (String × Card)}
    {fId tId cId : String} {F T : BoardList} {c0 c1 : Card}
    (hft : fId ≠ tId)
    (hF : lookupA fId ls = some F) (hT : lookupA tId ls = some T)
    (hc0 : lookupA cId cs = some c0) (hc0l : c0.listId = fId) (hc1l : c1.listId = tId)
    {XF XT : List String}
    (hXF : XF.Perm (removeFromArray F.cardIds cId))
    (hXT : XT.Perm (T.cardIds ++ [cId]))
    (hsF : List.Pairwise (posIdLe (posOfC (setA cId c1 cs))) XF)
    (hsT : List.Pairwise (posIdLe (posOfC (setA cId c1 cs))) XT)
    {F1 T1 : BoardList} (hF1 : F1.cardIds = XF) (hT1 : T1.cardIds = XT)
    (hinv : listCardInv ls cs) :
    listCardInv (setA tId T1 (setA fId F1 ls)) (setA cId c1 cs) := by
  obtain ⟨hk1, hk2, hml, hmr, hnd, hsrt⟩ := hinv
  have hFmem : (fId, F) ∈ ls := (mem_iff_lookupA ls hk1 fId F).mpr hF
  have hTmem : (tId, T) ∈ ls := (mem_iff_lookupA ls hk1 tId T).mpr hT
  have hcmem : (cId, c0) ∈ cs := (mem_iff_lookupA cs hk2 cId c0).mpr hc0
  have hconly : ∀ p ∈ ls, cId ∈ p.2.cardIds → p.1 = fId := by
    intro p hp hmem
    have hv := hml p hp cId hmem
    rw [hc0] at hv
    have h3 : some c0.listId = some p.1 := hv
    exact ((Option.some.inj h3).symm.trans hc0l)
  have hcinF : cId ∈ F.cardIds := by
    have hv := hmr (cId, c0) hcmem
    rw [show ((cId, c0)).2.listId = fId from hc0l, hF] at hv
    simpa using hv
  have hcninT : cId ∉ T.cardIds := fun hmem => hft ((hconly (tId, T) hTmem hmem)).symm
  have hk1f : ((setA fId F1 ls).map Prod.fst).Nodup := by
    rw [map_fst_setA_some _ _ _ _ hF]
    exact hk1
  have hTf : lookupA tId (setA fId F1 ls) = some T := by
    rw [lookupA_setA_ne _ _ _ _ (fun h => hft h.symm)]
    exact hT
  have hk2n : ((setA cId c1 cs).map Prod.fst).Nodup := by
    rw [map_fst_setA_some _ _ _ _ hc0]
    exact hk2
  have hlookT : lookupA tId (setA tId T1 (setA fId F1 ls)) = some T1 :=
    lookupA_setA_self _ _ _
  have hlookF : lookupA fId (setA tId T1 (setA fId F1 ls)) = some F1 := by
    rw [lookupA_setA_ne _ _ _ _ hft, lookupA_setA_self]
  have hlookO : ∀ x, x ≠ fId → x ≠ tId →
      lookupA x (setA tId T1 (setA fId F1 ls)) = lookupA x ls := by
    intro x hxf hxt
    rw [lookupA_setA_ne _ _ _ _ hxt, lookupA_setA_ne _ _ _ _ hxf]
  have hmemL : ∀ p : String × BoardList, p ∈ setA tId T1 (setA fId F1 ls) ↔
      (p = (tId, T1) ∨ (p = (fId, F1) ∧ fId ≠ tId) ∨
        (p ∈ ls ∧ p.1 ≠ fId ∧ p.1 ≠ tId)) := by
    intro p
    rw [mem_setA_iff _ _ _ hk1f, mem_setA_iff _ _ _ hk1]
    constructor
    · rintro (rfl | ⟨(rfl | ⟨hp3, hpf⟩), hpt⟩)
      · exact Or.inl rfl
      · exact Or.inr (Or.inl ⟨rfl, hpt⟩)
      · exact Or.inr (Or.inr ⟨hp3, hpf, hpt⟩)
    · rintro (rfl | ⟨rfl, hft2⟩ | ⟨hp3, hpf, hpt⟩)
      · exact Or.inl rfl
      · exact Or.inr ⟨Or.inl rfl, hft2⟩
      · exact Or.inr ⟨Or.inr ⟨hp3, hpf⟩, hpt⟩
  refine ⟨by rw [map_fst_setA_some _ _ _ _ hTf]; exact hk1f, hk2n, ?_, ?_, ?_, ?_⟩
  · intro p hp cid hcid
    rcases (hmemL p).mp hp with rfl | ⟨rfl, _⟩ | ⟨hp3, hpf, _⟩
    · replace hcid : cid ∈ XT := by rw [← hT1]; exact hcid
      rcases List.mem_append.mp (hXT.mem_iff.mp hcid) with hcd | hcd
      · have hne : cid ≠ cId := fun he => hcninT (by rw [← he]; exact hcd)
        rw [lookupA_setA_ne _ _ _ _ hne]
        exact hml (tId, T) hTmem cid hcd
      · simp at hcd
        subst hcd
        rw [lookupA_setA_self]
        simp [hc1l]
    · replace hcid : cid ∈ XF := by rw [← hF1]; exact hcid
      have hcid2 := (mem_removeFromArray _ _ _ (hnd (fId, F) hFmem)).mp (hXF.mem_iff.mp hcid)
      rw [lookupA_setA_ne _ _ _ _ hcid2.2]
      exact hml (fId, F) hFmem cid hcid2.1
    · have hne : cid ≠ cId := fun he => hpf (hconly p hp3 (by rw [← he]; exact hcid))
      rw [lookupA_setA_ne _ _ _ _ hne]
      exact hml p hp3 cid hcid
  · intro q hq
    rw [mem_setA_iff _ _ _ hk2] at hq
    rcases hq with rfl | ⟨hq2, hqk⟩
    · rw [show ((cId, c1)).2.listId = tId from hc1l, hlookT]
      simp [hT1, hXT.mem_iff]
    · have hv := hmr q hq2
      by_cases hqf : q.2.listId = fId
      · rw [hqf] at hv ⊢
        rw [hlookF]
        rw [hF] at hv
        simp at hv ⊢
        rw [hF1]
        exact hXF.mem_iff.mpr
          ((mem_removeFromArray _ _ _ (hnd (fId, F) hFmem)).mpr ⟨hv, hqk⟩)
      · by_cases hqt : q.2.listId = tId
        · rw [hqt] at hv ⊢
          rw [hlookT]
          rw [hT] at hv
          simp at hv ⊢
          rw [hT1]
          exact hXT.mem_iff.mpr (List.mem_append_left _ hv)
        · rw [hlookO _ hqf hqt]
          exact hv
  · intro p hp
    rcases (hmemL p).mp hp with rfl | ⟨rfl, _⟩ | ⟨hp3, _, _⟩
    · show T1.cardIds.Nodup
      rw [hT1]
      refine hXT.nodup_iff.mpr ?_
      refine List.Nodup.append (hnd (tId, T) hTmem) (by simp) ?_
      intro a ha hb
      simp at hb
      subst hb
      exact hcninT ha
    · show F1.cardIds.Nodup
      rw [hF1]
      exact hXF.nodup_iff.mpr
        ((removeFromArray_sublist _ _).nodup (hnd (fId, F) hFmem))
    · exact hnd p hp3
  · intro p hp
    rcases (hmemL p).mp hp with rfl | ⟨rfl, _⟩ | ⟨hp3, hpf, _⟩
    · show List.Pairwise (posIdLe (posOfC (setA cId c1 cs))) T1.cardIds
      rw [hT1]
      exact hsT
    · show List.Pairwise (posIdLe (posOfC (setA cId c1 cs))) F1.cardIds
      rw [hF1]
      exact hsF
    · refine pairwise_posIdLe_congr _ (posOfC cs) _ ?_ (hsrt p hp3)
      intro x hx
      exact posOfC_setA_ne _ _ _ _
        (fun he => hpf (hconly p hp3 (by rw [← he]; exact hx)))

theorem listCardInv_card_moved_eq {ls : List (String × BoardList)} {cs : List (String × Card)}
    {fId cId : String} {F : BoardList} {c0 c1 : Card}
    (hF : lookupA fId ls = some F)
    (hc0 : lookupA cId cs = some c0) (hc0l : c0.listId = fId) (hc1l : c1.listId = fId)
    {X : List String} (hX : X.Perm (removeFromArray F.cardIds cId ++ [cId]))
    (hsX : List.Pairwise (posIdLe (posOfC (setA cId c1 cs))) X)
    {F1 : BoardList} (hF1 : F1.cardIds = X)
    (hinv : listCardInv ls cs) :
    listCardInv (setA fId F1 ls) (setA cId c1 cs) := by
  obtain ⟨hk1, hk2, hml, hmr, hnd, hsrt⟩ := hinv
  have hFmem : (fId, F) ∈ ls := (mem_iff_lookupA ls hk1 fId F).mpr hF
  have hcmem : (cId, c0) ∈ cs := (mem_iff_lookupA cs hk2 cId c0).mpr hc0
  have hconly : ∀ p ∈ ls, cId ∈ p.2.cardIds → p.1 = fId := by
    intro p hp hmem
    have hv := hml p hp cId hmem
    rw [hc0] at hv
    have h3 : some c0.listId = some p.1 := hv
    exact ((Option.some.inj h3).symm.trans hc0l)
  have hFnd : F.cardIds.Nodup := hnd (fId, F) hFmem
  have hXmem : ∀ x, x ∈ X ↔ (x ∈ F.cardIds ∧ x ≠ cId) ∨ x = cId := by
    intro x
    rw [hX.mem_iff, List.mem_append, mem_removeFromArray _ _ _ hFnd]
    simp
  have hk2n : ((setA cId c1 cs).map Prod.fst).Nodup := by
    rw [map_fst_setA_some _ _ _ _ hc0]
    exact hk2
  refine ⟨by rw [map_fst_setA_some _ _ _ _ hF]; exact hk1, hk2n, ?_, ?_, ?_, ?_⟩
  · intro p hp cid hcid
    rw [mem_setA_iff _ _ _ hk1] at hp
    rcases hp with rfl | ⟨hp2, hpf⟩
    · replace hcid : cid ∈ X := by rw [← hF1]; exact hcid
      rcases (hXmem cid).mp hcid with ⟨hcd, hne⟩ | rfl
      · rw [lookupA_setA_ne _ _ _ _ hne]
        exact hml (fId, F) hFmem cid hcd
      · rw [lookupA_setA_self]
        simp [hc1l]
    · have hne : cid ≠ cId := fun he => hpf (hconly p hp2 (by rw [← he]; exact hcid))
      rw [lookupA_setA_ne _ _ _ _ hne]
      exact hml p hp2 cid hcid
  · intro q hq
    rw [mem_setA_iff _ _ _ hk2] at hq
    rcases hq with rfl | ⟨hq2, hqk⟩
    · rw [show ((cId, c1)).2.listId = fId from hc1l, lookupA_setA_self]
      have hin : cId ∈ X := (hXmem cId).mpr (Or.inr rfl)
      simp [hF1]
      exact hin
    · have hv := hmr q hq2
      by_cases hqf : q.2.listId = fId
      · rw [hqf] at hv ⊢
        rw [lookupA_setA_self]
        rw [hF] at hv
        simp at hv ⊢
        rw [hF1]
        exact (hXmem q.1).mpr (Or.inl ⟨hv, hqk⟩)
      · rw [lookupA_setA_ne _ _ _ _ hqf]
        exact hv
  · intro p hp
    rw [mem_setA_iff _ _ _ hk1] at hp
    rcases hp with rfl | ⟨hp2, _⟩
    · show F1.cardIds.Nodup
      rw [hF1]
      refine hX.nodup_iff.mpr ?_
      refine List.Nodup.append ((removeFromArray_sublist _ _).nodup hFnd) (by simp) ?_
      intro a ha hb
      simp at hb
      subst hb
      exact ((mem_removeFromArray _ _ _ hFnd).mp ha).2 rfl
    · exact hnd p hp2
  · intro p hp
    rw [mem_setA_iff _ _ _ hk1] at hp
    rcases hp with rfl | ⟨hp2, hpf⟩
    · show List.Pairwise (posIdLe (posOfC (setA cId c1 cs))) F1.cardIds
      rw [hF1]
      exact hsX
    · refine pairwise_posIdLe_congr _ (posOfC cs) _ ?_ (hsrt p hp2)
      intro x hx
      exact posOfC_setA_ne _ _ _ _
        (fun he => hpf (hconly p hp2 (by rw [← he]; exact hx)))

theorem listCardInv_applyOp (s : State) (op : Op)
    (hinv : listCardInv s.lists s.cards) (hmv : moveOk s op = true) :
    listCardInv (applyOp s op).lists (applyOp s op).cards := by
  obtain ⟨opId, seqn, ts, actorId, payload⟩ := op
  cases payload with
  | boardCreated wsId bId nm =>
      cases hw : lookupA wsId s.workspaces <;> cases hb : lookupA bId s.boards <;>
        simpa [applyOp, modifyWorkspace, hw, hb, lookupA_setA_self] using hinv
  | boardRenamed bId nm => simpa [applyOp] using hinv
  | listCreated bId lId nm pos =>
      cases hb : lookupA bId s.boards with
      | none => simpa [applyOp, hb] using hinv
      | some b0 =>
          cases hl : lookupA lId s.lists with
          | some l0 => simpa [applyOp, hb, hl] using hinv
          | none =>
              simp [applyOp, hb, hl, listPosOf_eq, lookupA_setA_self]
              exact listCardInv_list_fresh hl rfl hinv
  | listRenamed lId nm =>
      cases hl : lookupA lId s.lists with
      | none => simpa [applyOp, modifyList, hl] using hinv
      | some l0 =>
          simp [applyOp, modifyList, hl]
          exact listCardInv_setA_list_eq hl rfl hinv
  | listMoved lId pos =>
      cases hl : lookupA lId s.lists with
      | none => simpa [applyOp, hl] using hinv
      | some l0 =>
          cases hb : lookupA l0.boardId s.boards <;>
            (simp [applyOp, hl, hb, listPosOf_eq]
             exact listCardInv_setA_list_eq hl rfl hinv)
  | cardCreated bId lId cId ttl pos =>
      cases hl : lookupA lId s.lists with
      | none => simpa [applyOp, hl] using hinv
      | some l0 =>
          cases hc : lookupA cId s.cards with
          | some c0 =>
              simp [applyOp, modifyList, hl, hc, cardPosOf_eq, lookupA_setA_self]
              refine listCardInv_setA_list_perm hl ?_ ?_ hinv
              · exact sortIdsByPosition_perm _ _
              · exact sortIdsByPosition_sorted _ _
          | none =>
              simp [applyOp, modifyList, hl, hc, cardPosOf_eq, lookupA_setA_self]
              rw [setA_setA]
              refine listCardInv_card_create hl hc rfl ?_ ?_ rfl hinv
              · exact sortIdsByPosition_perm _ _
              · exact sortIdsByPosition_sorted _ _
  | cardMoved cId fId tId pos =>
      cases hc : lookupA cId s.cards <;> cases hf : lookupA fId s.lists <;>
        cases ht : lookupA tId s.lists
      case some.some.some cv fv tv =>
        simp only [moveOk, hc, hf, ht, decide_eq_true_eq] at hmv
        by_cases hft : fId = tId
        · subst hft
          simp [applyOp, modifyList, modifyCard, hc, hf, ht, cardPosOf_eq,
            lookupA_setA_self]
          rw [setA_setA, setA_setA, setA_setA]
          refine listCardInv_card_moved_eq hf hc hmv.symm rfl ?_ ?_ rfl hinv
          · exact (sortIdsByPosition_perm _ _).trans (sortIdsByPosition_perm _ _)
          · exact sortIdsByPosition_sorted _ _
        · have h1 : fId ≠ tId := hft
          have h2 : tId ≠ fId := fun h => hft h.symm
          have hcomm : ∀ A B C D : BoardList,
              setA tId A (setA fId B (setA tId C (setA fId D s.lists))) =
              setA tId A (setA fId B s.lists) := by
            intro A B C D
            rw [setA_comm_of_some fId tId B C (setA fId D s.lists) h1
              (by rw [lookupA_setA_ne _ _ _ _ h2, ht]; rfl), setA_setA, setA_setA]
          simp [applyOp, modifyList, modifyCard, hc, hf, ht, cardPosOf_eq,
            lookupA_setA_self, lookupA_setA_ne, h1, h2]
          rw [hcomm]
          refine listCardInv_card_moved_ne h1 hf ht hc hmv.symm rfl ?_ ?_ ?_ ?_ rfl rfl hinv
          · exact sortIdsByPosition_perm _ _
          · exact sortIdsByPosition_perm _ _
          · exact sortIdsByPosition_sorted _ _
          · exact sortIdsByPosition_sorted _ _
      all_goals simpa [applyOp, hc, hf, ht] using hinv
  | cardUpdated cId ttl dsc dd lbls =>
      cases hc : lookupA cId s.cards with
      | none => simpa [applyOp, hc] using hinv
      | some c0 =>
          cases ttl <;> cases dsc <;> cases dd <;> cases lbls <;>
            (simp [applyOp, hc]
             exact listCardInv_setA_card hc rfl rfl hinv)
  | cardArchived cId arch =>
      cases hc : lookupA cId s.cards with
      | none => simpa [applyOp, modifyCard, hc] using hinv
      | some c0 =>
          simp [applyOp, modifyCard, hc]
          exact listCardInv_setA_card hc rfl rfl hinv
  | commentAdded cId cmId txt =>
      cases hc : lookupA cId s.cards <;> simpa [applyOp, hc] using hinv
  | checklistItemAdded cId iId txt pos =>
      cases hc : lookupA cId s.cards with
      | none => simpa [applyOp, modifyCard, hc] using hinv
      | some c0 =>
          simp [applyOp, modifyCard, hc]
          exact listCardInv_setA_card hc rfl rfl hinv
  | checklistItemToggled cId iId chk =>
      cases hc : lookupA cId s.cards with
      | none => simpa [applyOp, modifyCard, hc] using hinv
      | some c0 =>
          simp [applyOp, modifyCard, hc]
          exact listCardInv_setA_card hc rfl rfl hinv
  | checklistItemRenamed cId iId txt =>
      cases hc : lookupA cId s.cards with
      | none => simpa [applyOp, modifyCard, hc] using hinv
      | some c0 =>
          simp [applyOp, modifyCard, hc]
          exact listCardInv_setA_card hc rfl rfl hinv
  | checklistItemRemoved cId iId =>
      cases hc : lookupA cId s.cards with
      | none => simpa [applyOp, modifyCard, hc] using hinv
      | some c0 =>
          simp [applyOp, modifyCard, hc]
          exact listCardInv_setA_card hc rfl rfl hinv
  | memberAdded bId mId rl =>
      cases hb : lookupA bId s.boards <;> simpa [applyOp, hb] using hinv
  | memberRoleChanged bId mId rl =>
      cases hb : lookupA bId s.boards <;> simpa [applyOp, hb] using hinv

theorem listCardInv_foldl : ∀ (l : List Op) (s : State),
    listCardInv s.lists s.cards → movesConsistent s l = true →
    listCardInv ((l.foldl applyOp s).lists) ((l.foldl applyOp s).cards) := by
  intro l
  induction l with
  | nil => intro s h _; exact h
  | cons o t ih =>
      intro s h hmc2
      simp only [movesConsistent, Bool.and_eq_true] at hmc2
      rw [List.foldl_cons]
      exact ih (applyOp s o) (listCardInv_applyOp s o h hmc2.1) hmc2.2

theorem listCardInv_empty (w : String) :
    listCardInv (createEmptyState w).lists (createEmptyState w).cards := by
  simp [listCardInv, createEmptyState, lookupA]

/-- C4: in every state rebuilt from an op log all of whose applied
card.moved ops name the card's current list as fromListId (the
movesConsistent guard — the counterexample claim4_counterexample shows the
claim fails without it), every card id in the cards table appears in the
cardIds array of exactly one list, namely the list named by the card's
listId field; every list's cardIds array is sorted ascending by
(position, id) under the sortIdsByPosition comparator; and the placement
invariant is preserved by every single fold step satisfying the guard,
including card.moved, which updates the card's listId and position and
both lists' cardIds arrays in the same applyOp step. -/
theorem claim4_card_placement (w : String) (ops : List Op)
    (hmc : movesConsistent (createEmptyState w) ops = true) :
    StateInv (rebuildState w ops).1 ∧
    (∀ cid c, lookupA cid (rebuildState w ops).1.cards = some c →
      (rebuildState w ops).1.lists.countP
        (fun p => decide (cid ∈ p.2.cardIds)) = 1 ∧
      (lookupA c.listId (rebuildState w ops).1.lists).map
        (fun l => decide (cid ∈ l.cardIds)) = some true) ∧
    (∀ p ∈ (rebuildState w ops).1.lists,
      List.Pairwise (posIdLe (posOfC (rebuildState w ops).1.cards)) p.2.cardIds) ∧
    (∀ (s : State) (o : Op), StateInv s → moveOk s o = true → StateInv (applyOp s o)) := by
  have hS : (rebuildState w ops).1 =
      { ops.foldl applyOp (createEmptyState w) with
        conflicts := (groupBySeq ops).flatMap detectConflictsForSeqGroup } :=
    congrArg Prod.fst (rebuildState_spec w ops)
  have hinv : StateInv (rebuildState w ops).1 := by
    show listCardInv (rebuildState w ops).1.lists (rebuildState w ops).1.cards
    rw [hS]
    exact listCardInv_foldl ops _ (listCardInv_empty w) hmc
  refine ⟨hinv, ?_, hinv.2.2.2.2.2, fun s o h hm => listCardInv_applyOp s o h hm⟩
  intro cid c hcget
  obtain ⟨hk1, hk2, hml, hmr, hnd, hsrt⟩ := hinv
  have hcmem : (cid, c) ∈ (rebuildState w ops).1.cards :=
    (mem_iff_lookupA _ hk2 _ _).mpr hcget
  have hr : (lookupA c.listId (rebuildState w ops).1.lists).map
      (fun l => decide (cid ∈ l.cardIds)) = some true := hmr (cid, c) hcmem
  refine ⟨?_, hr⟩
  cases hL : lookupA c.listId (rebuildState w ops).1.lists with
  | none => rw [hL] at hr; simp at hr
  | some L =>
      rw [hL] at hr
      simp at hr
      refine countP_eq_one_unique _ _ (c.listId, L)
        ((mem_iff_lookupA _ hk1 _ _).mpr hL) (by simpa using hr) ?_
        (List.Nodup.of_map Prod.fst hk1)
      intro b hb hpb
      have hmem2 := hml b hb cid (by simpa using hpb)
      rw [hcget] at hmem2
      have hb1 : c.listId = b.1 := by
        have h3 : some c.listId = some b.1 := hmem2
        exact Option.some.inj h3
      have hlb : lookupA b.1 (rebuildState w ops).1.lists = some b.2 :=
        (mem_iff_lookupA _ hk1 _ _).mp hb
      rw [← hb1, hL] at hlb
      exact Prod.ext hb1.symm (Option.some.inj hlb).symm

/-- C4 counterexample: in the log c4ops the final op is a card.moved whose
fromListId M is stale — the card c lives on list L.  applyOp removes c
from the payload's fromListId instead of the card's current list, so the
rebuilt state has card c (listId M) present in the cardIds of both L and
M: the claim's "exactly one list" invariant fails for a rebuilt state and
is not preserved by this fold step.  The guard movesConsistent is false
precisely at this op. -/
theorem claim4_counterexample :
    (lookupA "c" (rebuildState "w" c4ops).1.cards).map Card.listId = some "M" ∧
    (rebuildState "w" c4ops).1.lists.countP
      (fun p => decide ("c" ∈ p.2.cardIds)) = 2 ∧
    ¬ StateInv (rebuildState "w" c4ops).1 ∧
    movesConsistent (createEmptyState "w") c4ops = false := by decide

/-- Witness for C4: the log c4wops (same scenario, consistent card.moved
from L to M) satisfies the movesConsistent guard and the amended theorem
applies to it. -/
theorem claim4_witness :
    movesConsistent (createEmptyState "w") c4wops = true ∧
    StateInv (rebuildState "w" c4wops).1 :=
  ⟨by decide, (claim4_card_placement "w" c4wops (by decide)).1⟩

end Kanban
